import Mathlib

/-!
# CBProcessManager: the process supervisor (`ProcessService`)

A shallow embedding of `ProcessManager/ProcessService.cpp` and the declarations it
uses from `ProcessService.h` and `ConfigService.h`.

Modelling conventions

* The singleton `ProcessService` together with everything it reads and writes is one
  value of type `World`: the main window handle `m_hwnd`, the definition list
  `ConfigService::instance().config().processes`, the runtime table `m_procs`, the
  `WM_APP_STATUS_CHANGED` messages posted so far, the detached threads that are still
  asleep, the trace of Win32 calls that act on processes and handles, and a logical
  clock in milliseconds.
* What the operating system answers is an input of the operation that asks:
  `LaunchOutcome` for the calls made by one run of `launchNow`, a list of process
  snapshots for `refreshChildPid`.
* Every public operation and every thread body runs as one step. A detached thread
  is recorded when it is spawned and its body runs when it is woken, which the
  clock allows only after the argument of its `sleep_for` has elapsed.
* Log lines (`pmLogF`) and the exit code, which is only logged, are not modelled.
* The supervisor takes its strings as text: it compares ids and builds a command
  line. The JSON codec `SimpleJson.hpp` and the configuration store
  `ConfigService.cpp`, embedded after the supervisor, look inside their strings and
  take them as byte strings.
-/

set_option linter.unusedVariables false

namespace PM

/-! ## Data model -/

/-- Win32 `HANDLE`, as far as the code tells handles apart: `nullptr`,
`INVALID_HANDLE_VALUE`, or some other value. -/
inductive HANDLE where
  | nullptr
  | INVALID_HANDLE_VALUE
  | h (n : Nat)
  deriving DecidableEq, Repr

/-- The enumeration `ProcStatus` of `ProcessService.h`. -/
inductive ProcStatus where
  | Stopped
  | Starting
  | Running
  | Restarting
  | Failed
  deriving DecidableEq, Repr

/-- The struct `ProcessConfig` of `ConfigService.h`, with its default member values. -/
structure ProcessConfig where
  id : String := ""
  name : String := ""
  path : String := ""
  type : String := ""
  args : String := ""
  delaySeconds : Int := 0
  guardEnabled : Bool := true
  guardDelaySeconds : Int := 1
  enabled : Bool := true
  deriving DecidableEq, Repr

/-- The struct `ManagedProcess` of `ProcessService.h`, with its default member values. -/
structure ManagedProcess where
  id : String := ""
  hProcess : HANDLE := HANDLE.INVALID_HANDLE_VALUE
  pid : Nat := 0
  hWait : HANDLE := HANDLE.nullptr
  hJob : HANDLE := HANDLE.nullptr
  guardStopped : Bool := false
  status : ProcStatus := ProcStatus.Stopped
  deriving DecidableEq, Repr

/-- The struct `ProcStatusMsg`: the payload of one `WM_APP_STATUS_CHANGED` message. -/
structure ProcStatusMsg where
  id : String
  status : ProcStatus
  deriving DecidableEq, Repr

/-- One entry of a process snapshot (`PROCESSENTRY32W`), the fields the code reads. -/
structure PROCESSENTRY32W where
  th32ProcessID : Nat
  th32ParentProcessID : Nat
  szExeFile : String
  deriving DecidableEq, Repr

/-- The Win32 calls that create, watch, terminate or release something. -/
inductive OsCall where
  | CreateProcessW (cmdLine : String) (workDir : Option String)
  | AssignProcessToJobObject (hJob hProcess : HANDLE)
  | ResumeThread (hThread : HANDLE)
  | RegisterWaitForSingleObject (hProcess : HANDLE)
  | UnregisterWaitEx (hWait : HANDLE)
  | CloseHandle (h : HANDLE)
  | TerminateProcess (hProcess : HANDLE)
  deriving DecidableEq, Repr

/-- What the operating system answers during one run of `launchNow`: whether
`CreateProcessW` succeeded, the `PROCESS_INFORMATION` it filled in, the result of
`CreateJobObjectW` (`nullptr` on failure) and the wait handle written by
`RegisterWaitForSingleObject` (left `nullptr` on failure). -/
structure LaunchOutcome where
  ok : Bool
  hProcess : HANDLE
  hThread : HANDLE
  dwProcessId : Nat
  hJob : HANDLE
  hWait : HANDLE
  deriving DecidableEq, Repr

/-- The lambdas handed to `std::thread(...).detach()`: the start-delay wait of
`startProcess`, the guard-delay wait of `onProcessExited`, and the child-PID probe
of `launchNow`. -/
inductive ThreadBody where
  | startDelay (id : String)
  | guardDelay (id : String)
  | refreshChild (id : String) (cmdPid : Nat)
  deriving DecidableEq, Repr

/-- A detached thread that has not yet run its body: the body, the duration of its
(first) `sleep_for` in milliseconds, and the clock value when it was spawned. -/
structure SleepingThread where
  body : ThreadBody
  sleepMs : Int
  spawnedAt : Nat
  deriving DecidableEq, Repr

/-- The supervisor and its surroundings. -/
structure World where
  m_hwnd : Nat := 0
  config : List ProcessConfig := []
  m_procs : List (String × ManagedProcess) := []
  posted : List ProcStatusMsg := []
  threads : List SleepingThread := []
  os : List OsCall := []
  now : Nat := 0
  deriving DecidableEq, Repr

/-! ## The runtime table `std::map<std::string, ManagedProcess>` -/

/-- The lookup `m_procs.find(id)`; `none` stands for `m_procs.end()`. -/
def mapFind : List (String × ManagedProcess) → String → Option ManagedProcess
  | [], _ => none
  | (k, v) :: rest, id => if k = id then some v else mapFind rest id

/-- Assignment to the entry of key `id`: an existing entry is overwritten in place, a
new one is inserted before the first larger key (the map is ordered by key). -/
def mapSet : List (String × ManagedProcess) → String → ManagedProcess →
    List (String × ManagedProcess)
  | [], id, mp => [(id, mp)]
  | (k, v) :: rest, id, mp =>
    if k = id then (id, mp) :: rest
    else if id < k then (id, mp) :: (k, v) :: rest
    else (k, v) :: mapSet rest id mp

/-- The expression `m_procs[id]`: the entry of `id`, value-initialised and inserted
when there was none. Returns the entry and the table afterwards. -/
def mapIndex (m : List (String × ManagedProcess)) (id : String) :
    ManagedProcess × List (String × ManagedProcess) :=
  match mapFind m id with
  | some mp => (mp, m)
  | none => ({}, mapSet m id {})

/-- The keys of the table, in iteration order. -/
def mapKeys (m : List (String × ManagedProcess)) : List String :=
  m.map Prod.fst

/-- The lookup `std::find_if(procs.begin(), procs.end(), p.id == id)`. -/
def findConfig (procs : List ProcessConfig) (id : String) : Option ProcessConfig :=
  procs.find? (fun p => p.id = id)

/-! ## Operations of `ProcessService` -/

/-- The method `setMainWindow`. -/
def setMainWindow (hwnd : Nat) (w : World) : World :=
  { w with m_hwnd := hwnd }

/-- The method `notifyStatus`: posts a `WM_APP_STATUS_CHANGED` message carrying
`{id, s}` to the main window, and does nothing while there is no main window. -/
def notifyStatus (id : String) (s : ProcStatus) (w : World) : World :=
  if w.m_hwnd = 0 then w
  else { w with posted := w.posted ++ [{ id := id, status := s }] }

/-- The method `cleanupProcess`, on the entry and the trace of Win32 calls. -/
def cleanupProcess (mp : ManagedProcess) (os : List OsCall) :
    ManagedProcess × List OsCall :=
  let (mp1, os1) :=
    if mp.hWait ≠ HANDLE.nullptr then
      ({ mp with hWait := HANDLE.nullptr }, os ++ [OsCall.UnregisterWaitEx mp.hWait])
    else (mp, os)
  let (mp2, os2) :=
    if mp1.hJob ≠ HANDLE.nullptr then
      ({ mp1 with hJob := HANDLE.nullptr }, os1 ++ [OsCall.CloseHandle mp1.hJob])
    else (mp1, os1)
  let (mp3, os3) :=
    if mp2.hProcess ≠ HANDLE.INVALID_HANDLE_VALUE ∧ mp2.hProcess ≠ HANDLE.nullptr then
      ({ mp2 with hProcess := HANDLE.INVALID_HANDLE_VALUE },
        os2 ++ [OsCall.CloseHandle mp2.hProcess])
    else (mp2, os2)
  ({ mp3 with pid := 0 }, os3)

/-- Conversion of a `std::string` to the wide string `launchNow` uses: the text is
read through `c_str()` up to its first NUL. -/
def toWide (s : String) : String :=
  String.mk (s.toList.takeWhile (fun c => c ≠ Char.ofNat 0))

/-- The command line `launchNow` builds from the definition. -/
def buildCmdLine (cfg : ProcessConfig) : String :=
  let wpath := toWide cfg.path
  let wargs := toWide cfg.args
  if cfg.type = "bat" then
    let cmdLine := "cmd.exe /c \"\"" ++ wpath ++ "\"\""
    if wargs ≠ "" then cmdLine ++ " " ++ wargs else cmdLine
  else
    let cmdLine := "\"" ++ wpath ++ "\""
    if wargs ≠ "" then cmdLine ++ " " ++ wargs else cmdLine

/-- Position of the last character of `cs` that is a backslash or a slash
(`find_last_of`), `none` for `npos`. -/
def findLastSep (cs : List Char) : Option Nat :=
  match cs.reverse.findIdx? (fun c => c = Char.ofNat 92 ∨ c = Char.ofNat 47) with
  | some i => some (cs.length - 1 - i)
  | none => none

/-- The working directory `launchNow` derives from the path; stays empty when the
path has no separator. -/
def buildWorkDir (cfg : ProcessConfig) : String :=
  let wpath2 := toWide cfg.path
  match findLastSep wpath2.toList with
  | some pos => String.mk (wpath2.toList.take pos)
  | none => ""

/-- The `lpCurrentDirectory` argument: `nullptr` when the working directory is empty. -/
def workDirArg (workDir : String) : Option String :=
  if workDir = "" then none else some workDir

/-- The method `launchNow`. Returns its result and the world afterwards. -/
def launchNow (o : LaunchOutcome) (id : String) (w : World) : Bool × World :=
  match findConfig w.config id with
  | none => (false, w)
  | some cfg =>
    let cmdLine := buildCmdLine cfg
    let workDir := buildWorkDir cfg
    let w1 := { w with os := w.os ++ [OsCall.CreateProcessW cmdLine (workDirArg workDir)] }
    if !o.ok then
      let (mp, m1) := mapIndex w1.m_procs id
      let w2 := { w1 with m_procs := mapSet m1 id { mp with status := ProcStatus.Failed } }
      (false, notifyStatus id ProcStatus.Failed w2)
    else
      let osJob :=
        if o.hJob ≠ HANDLE.nullptr then
          [OsCall.AssignProcessToJobObject o.hJob o.hProcess]
        else []
      let os2 := w1.os ++ osJob ++
        [OsCall.ResumeThread o.hThread, OsCall.CloseHandle o.hThread,
          OsCall.RegisterWaitForSingleObject o.hProcess]
      let (mp, m1) := mapIndex w1.m_procs id
      let (mp1, os3) := cleanupProcess mp os2
      let mp2 := { mp1 with
        hProcess := o.hProcess
        pid := o.dwProcessId
        hWait := o.hWait
        hJob := o.hJob
        guardStopped := false
        status := ProcStatus.Running }
      let w3 := { w1 with m_procs := mapSet m1 id mp2, os := os3 }
      let w4 := notifyStatus id ProcStatus.Running w3
      if cfg.type = "bat" then
        (true, { w4 with threads := w4.threads ++
          [{ body := ThreadBody.refreshChild id o.dwProcessId,
             sleepMs := 1500, spawnedAt := w4.now }] })
      else (true, w4)

/-- The method `startProcess`. The launch outcome is consulted only when the
definition has no start delay and `launchNow` runs inside the call. -/
def startProcess (o : LaunchOutcome) (id : String) (w : World) : Bool × World :=
  match findConfig w.config id with
  | none => (false, w)
  | some cfg =>
    let delay := cfg.delaySeconds
    let (mp, m1) := mapIndex w.m_procs id
    if mp.status = ProcStatus.Running ∨ mp.status = ProcStatus.Starting then
      (false, { w with m_procs := m1 })
    else
      let m2 := mapSet m1 id { mp with guardStopped := false, status := ProcStatus.Starting }
      let w1 := { w with m_procs := m2 }
      let w2 := notifyStatus id ProcStatus.Starting w1
      if delay > 0 then
        (true, { w2 with threads := w2.threads ++
          [{ body := ThreadBody.startDelay id, sleepMs := delay * 1000,
             spawnedAt := w2.now }] })
      else
        (true, (launchNow o id w2).2)

/-- The body of the start-delay thread of `startProcess`, after its sleep. -/
def startDelayBody (o : LaunchOutcome) (id : String) (w : World) : World :=
  match mapFind w.m_procs id with
  | none => w
  | some mp =>
    if mp.guardStopped then
      { w with m_procs := mapSet w.m_procs id { mp with status := ProcStatus.Stopped } }
    else (launchNow o id w).2

/-- The method `stopProcess`. -/
def stopProcess (id : String) (w : World) : Bool × World :=
  match mapFind w.m_procs id with
  | none => (false, w)
  | some mp =>
    let hProc := mp.hProcess
    let hJob := mp.hJob
    let m1 := mapSet w.m_procs id { mp with guardStopped := true, hJob := HANDLE.nullptr }
    let w1 := { w with m_procs := m1 }
    let w2 :=
      if hJob ≠ HANDLE.nullptr then { w1 with os := w1.os ++ [OsCall.CloseHandle hJob] }
      else w1
    if hProc ≠ HANDLE.INVALID_HANDLE_VALUE ∧ hProc ≠ HANDLE.nullptr then
      (true, { w2 with os := w2.os ++ [OsCall.TerminateProcess hProc] })
    else
      let (mp2, m2) := mapIndex w2.m_procs id
      let w3 := { w2 with m_procs := mapSet m2 id { mp2 with status := ProcStatus.Stopped } }
      (true, notifyStatus id ProcStatus.Stopped w3)

/-- The body of the guard-delay thread of `onProcessExited`, after its sleep. -/
def guardDelayBody (o : LaunchOutcome) (id : String) (w : World) : World :=
  match mapFind w.m_procs id with
  | none => w
  | some mp =>
    if mp.guardStopped then
      notifyStatus id ProcStatus.Stopped
        { w with m_procs := mapSet w.m_procs id { mp with status := ProcStatus.Stopped } }
    else (launchNow o id w).2

/-- The method `onProcessExited`. The reported `pid` and `exitCode` reach only the
log line. -/
def onProcessExited (id : String) (pid exitCode : Nat) (w : World) : World :=
  match mapFind w.m_procs id with
  | none => w
  | some mp =>
    let (mp1, os1) := cleanupProcess mp w.os
    let restart : Option Int :=
      if !mp1.guardStopped then
        match findConfig w.config id with
        | some c => if c.guardEnabled then some c.guardDelaySeconds else none
        | none => none
      else none
    match restart with
    | some guardDelay =>
      let w1 := { w with
        m_procs := mapSet w.m_procs id { mp1 with status := ProcStatus.Restarting }
        os := os1 }
      let w2 := notifyStatus id ProcStatus.Restarting w1
      { w2 with threads := w2.threads ++
        [{ body := ThreadBody.guardDelay id, sleepMs := guardDelay * 1000,
           spawnedAt := w2.now }] }
    | none =>
      let w1 := { w with
        m_procs := mapSet w.m_procs id { mp1 with status := ProcStatus.Stopped }
        os := os1 }
      notifyStatus id ProcStatus.Stopped w1

/-- The method `syncConfig`. -/
def syncConfig (w : World) : World :=
  let m1 := w.config.foldl
    (fun m pc =>
      match mapFind m pc.id with
      | none => mapSet m pc.id { id := pc.id, status := ProcStatus.Stopped }
      | some _ => m)
    w.m_procs
  { w with m_procs := m1 }

/-- The method `getStatus`. -/
def getStatus (id : String) (w : World) : ProcStatus :=
  match mapFind w.m_procs id with
  | none => ProcStatus.Stopped
  | some mp => mp.status

/-- The method `getPid`. -/
def getPid (id : String) (w : World) : Nat :=
  match mapFind w.m_procs id with
  | none => 0
  | some mp => mp.pid

/-- One pass over a snapshot in `refreshChildPid`: the id of the first entry whose
parent is `cmdPid`, that is not `cmdPid` itself and is not an auxiliary process. -/
def scanSnapshot (cmdPid : Nat) : List PROCESSENTRY32W → Option Nat
  | [] => none
  | pe :: rest =>
    if pe.th32ParentProcessID ≠ cmdPid then scanSnapshot cmdPid rest
    else if pe.th32ProcessID = cmdPid then scanSnapshot cmdPid rest
    else if pe.szExeFile = "conhost.exe" ∨ pe.szExeFile = "WerFault.exe" then
      scanSnapshot cmdPid rest
    else some pe.th32ProcessID

/-- The retry loop of `refreshChildPid`: at most `n` attempts while `childPid` is 0.
The snapshot of an attempt is `none` when `CreateToolhelp32Snapshot` failed; attempts
beyond the supplied list see a failed snapshot. -/
def probeChild (cmdPid : Nat) : Nat → List (Option (List PROCESSENTRY32W)) → Nat
  | 0, _ => 0
  | n + 1, snaps =>
    let childPid :=
      match snaps.head? with
      | some (some snap) => (scanSnapshot cmdPid snap).getD 0
      | _ => 0
    if childPid = 0 then probeChild cmdPid n snaps.tail else childPid

/-- The method `refreshChildPid`, given the snapshots its attempts see. -/
def refreshChildPid (snaps : List (Option (List PROCESSENTRY32W))) (id : String)
    (cmdPid : Nat) (w : World) : World :=
  let childPid := probeChild cmdPid 5 snaps
  if childPid = 0 then w
  else
    match mapFind w.m_procs id with
    | none => w
    | some mp =>
      if mp.pid ≠ cmdPid then w
      else
        notifyStatus id ProcStatus.Running
          { w with m_procs := mapSet w.m_procs id { mp with pid := childPid } }

/-- The method `startAll`. The launch outcome of each start is looked up by the
position of the definition in the list of enabled definitions. -/
def startAll (os : Nat → LaunchOutcome) (w : World) : World :=
  let w1 := syncConfig w
  let ids := (w1.config.filter (fun pc => pc.enabled)).map (fun pc => pc.id)
  (ids.foldl (fun (acc : Nat × World) id => (acc.1 + 1, (startProcess (os acc.1) id acc.2).2))
    (0, w1)).2

/-- The method `stopAll`. -/
def stopAll (w : World) : World :=
  (mapKeys w.m_procs).foldl (fun acc id => (stopProcess id acc).2) w

/-! ## Detached threads and the clock -/

/-- Whether the sleep of a thread is over at the current clock value. -/
def SleepingThread.due (t : SleepingThread) (now : Nat) : Prop :=
  (t.spawnedAt : Int) + t.sleepMs ≤ (now : Int)

instance (t : SleepingThread) (now : Nat) : Decidable (t.due now) := by
  unfold SleepingThread.due
  infer_instance

/-- The body of a detached thread, after its sleep. -/
def runBody (o : LaunchOutcome) (snaps : List (Option (List PROCESSENTRY32W))) :
    ThreadBody → World → World
  | ThreadBody.startDelay id, w => startDelayBody o id w
  | ThreadBody.guardDelay id, w => guardDelayBody o id w
  | ThreadBody.refreshChild id cmdPid, w => refreshChildPid snaps id cmdPid w

/-- The `i`-th sleeping thread wakes and runs its body. Not possible (`none`) when
there is no such thread or its sleep is not over. -/
def wake (i : Nat) (o : LaunchOutcome) (snaps : List (Option (List PROCESSENTRY32W)))
    (w : World) : Option World :=
  match w.threads[i]? with
  | none => none
  | some t =>
    if t.due w.now then
      some (runBody o snaps t.body { w with threads := w.threads.eraseIdx i })
    else none

/-- Time passes: the clock advances by `ms` milliseconds. -/
def tick (ms : Nat) (w : World) : World :=
  { w with now := w.now + ms }

/-! ## Observations used in the statements -/

/-- Whether a Win32 call creates a process. -/
def OsCall.isLaunch : OsCall → Bool
  | OsCall.CreateProcessW _ _ => true
  | _ => false

/-- Number of processes the trace asked the operating system to create. -/
def launchCount (os : List OsCall) : Nat :=
  (os.filter OsCall.isLaunch).length

/-- The status recorded for `id`, `none` when `id` has no runtime entry. -/
def statusOf (w : World) (id : String) : Option ProcStatus :=
  (mapFind w.m_procs id).map (fun mp => mp.status)

/-! ## Steps of the supervisor

Everything that can happen to the supervisor between two observations: a call of a
public method, an edit of the definition list by the configuration store, the
handling of an exit notification, the wake-up of a detached thread, the passing of
time. -/

/-- One step. -/
inductive Op where
  | setMainWindow (hwnd : Nat)
  | setConfig (procs : List ProcessConfig)
  | syncConfig
  | startProcess (o : LaunchOutcome) (id : String)
  | stopProcess (id : String)
  | startAll (os : Nat → LaunchOutcome)
  | stopAll
  | onProcessExited (id : String) (pid exitCode : Nat)
  | wake (i : Nat) (o : LaunchOutcome) (snaps : List (Option (List PROCESSENTRY32W)))
  | tick (ms : Nat)

/-- The world after a step. A wake-up that is not possible changes nothing. -/
def Op.run : Op → World → World
  | Op.setMainWindow hwnd, w => PM.setMainWindow hwnd w
  | Op.setConfig procs, w => { w with config := procs }
  | Op.syncConfig, w => PM.syncConfig w
  | Op.startProcess o id, w => (PM.startProcess o id w).2
  | Op.stopProcess id, w => (PM.stopProcess id w).2
  | Op.startAll os, w => PM.startAll os w
  | Op.stopAll, w => PM.stopAll w
  | Op.onProcessExited id pid exitCode, w => PM.onProcessExited id pid exitCode w
  | Op.wake i o snaps, w => (PM.wake i o snaps w).getD w
  | Op.tick ms, w => PM.tick ms w

/-- The world after a sequence of steps. -/
def runOps : List Op → World → World
  | [], w => w
  | op :: ops, w => runOps ops (op.run w)

/-- Whether a thread body is a start-delay or guard-delay wait for `id`. -/
def ThreadBody.delaysFor (id : String) : ThreadBody → Prop
  | ThreadBody.startDelay id2 => id2 = id
  | ThreadBody.guardDelay id2 => id2 = id
  | ThreadBody.refreshChild _ _ => False

/-- Whether a step, taken in world `w`, is a start or stop request that may reach
`id` (`startAll` and `stopAll` count), an exit notification for `id`, or the wake-up
of a start-delay or guard-delay thread of `id`. -/
def Op.actsOn (id : String) (w : World) : Op → Prop
  | Op.startProcess _ id2 => id2 = id
  | Op.stopProcess id2 => id2 = id
  | Op.startAll _ => True
  | Op.stopAll => True
  | Op.onProcessExited id2 _ _ => id2 = id
  | Op.wake i _ _ =>
    match w.threads[i]? with
    | some t => t.body.delaysFor id
    | none => False
  | _ => False

/-- No step of the sequence, taken in the world it meets, acts on `id`. -/
def quietFor (id : String) : List Op → World → Prop
  | [], _ => True
  | op :: ops, w => ¬ op.actsOn id w ∧ quietFor id ops (op.run w)

/-- The Win32 calls of a successful `launchNow` up to the registration of the wait. -/
def launchCalls (o : LaunchOutcome) (cfg : ProcessConfig) : List OsCall :=
  [OsCall.CreateProcessW (buildCmdLine cfg) (workDirArg (buildWorkDir cfg))] ++
    (if o.hJob ≠ HANDLE.nullptr then [OsCall.AssignProcessToJobObject o.hJob o.hProcess]
      else []) ++
    [OsCall.ResumeThread o.hThread, OsCall.CloseHandle o.hThread,
      OsCall.RegisterWaitForSingleObject o.hProcess]

/-- The `CloseHandle` call of `stopProcess` on the job handle it took, if any. -/
def closeJob (hJob : HANDLE) : List OsCall :=
  if hJob ≠ HANDLE.nullptr then [OsCall.CloseHandle hJob] else []

/-! ## Sample data for the concrete instances -/

/-- A successful launch whose handles and process id are derived from `n`. -/
def sampleOutcome (n : Nat) : LaunchOutcome :=
  { ok := true, hProcess := HANDLE.h (10 * n), hThread := HANDLE.h (10 * n + 1),
    dwProcessId := 100 + n, hJob := HANDLE.h (10 * n + 2), hWait := HANDLE.h (10 * n + 3) }

/-- A launch for which `CreateProcessW` fails. -/
def failedOutcome : LaunchOutcome :=
  { ok := false, hProcess := HANDLE.nullptr, hThread := HANDLE.nullptr,
    dwProcessId := 0, hJob := HANDLE.nullptr, hWait := HANDLE.nullptr }

/-- A definition of `p1`: an executable without start delay, guarded with a delay of
three seconds. -/
def sampleConfig : ProcessConfig :=
  { id := "p1", name := "p1", path := "C:/apps/p1.exe", type := "exe",
    delaySeconds := 0, guardEnabled := true, guardDelaySeconds := 3 }

/-- The definition of `p1` with the guard switched off. -/
def unguardedConfig : ProcessConfig :=
  { sampleConfig with guardEnabled := false }

/-- A world with a main window, the definition of `p1` and an empty runtime table. -/
def freshWorld : World :=
  { m_hwnd := 1, config := [sampleConfig] }

/-- The world `freshWorld` after `syncConfig`: `p1` has a `Stopped` entry. -/
def syncedWorld : World :=
  syncConfig freshWorld

/-- The world `freshWorld` after a successful `startProcess` of `p1`. -/
def runningWorld : World :=
  (startProcess (sampleOutcome 1) "p1" freshWorld).2

/-- The world `runningWorld` after the process of `p1` has exited: `p1` is
`Restarting` and its guard-delay thread sleeps. -/
def restartingWorld : World :=
  onProcessExited "p1" 101 1 runningWorld

/-- The runtime entry of `p1` in `runningWorld`. -/
def runningEntry : ManagedProcess :=
  { hProcess := HANDLE.h 10, pid := 101, hWait := HANDLE.h 13, hJob := HANDLE.h 12,
    status := ProcStatus.Running }

/-- The runtime entry of `p1` in `restartingWorld`. -/
def restartingEntry : ManagedProcess :=
  { status := ProcStatus.Restarting }

/-- A world in which `setMainWindow` has not run yet: `p1` is defined, there is no
main window and the runtime table is empty. -/
def windowlessWorld : World :=
  { config := [sampleConfig] }

/-- The world `windowlessWorld` after a successful `startProcess` of `p1`. -/
def windowlessRunning : World :=
  (startProcess (sampleOutcome 1) "p1" windowlessWorld).2

/-- The world `runningWorld` with the guard of `p1` switched off in its definition. -/
def unguardedRunning : World :=
  { runningWorld with config := [unguardedConfig] }

/-- The world `windowlessWorld` after `syncConfig`. -/
def windowlessSynced : World :=
  syncConfig windowlessWorld

/-- A world without main window in which `p1` runs with its guard switched off. -/
def windowlessUnguarded : World :=
  (startProcess (sampleOutcome 1) "p1" { config := [unguardedConfig] }).2

/-- The guard-delay thread spawned for `p1` in `restartingWorld`. -/
def sampleGuardThread : SleepingThread :=
  { body := ThreadBody.guardDelay "p1", sleepMs := 3000, spawnedAt := 0 }

/-! ## The configuration store and reachable worlds -/

/-- The handler `MessageRouter::handleDeleteProcess`: stops the process, then erases
every definition of `id` from the definition list. Saving the file and pushing the
process list to the page are not modelled. -/
def handleDeleteProcess (id : String) (w : World) : World :=
  if id = "" then w
  else
    let w1 := (stopProcess id w).2
    { w1 with config := w1.config.filter (fun c => ¬ (c.id = id)) }

/-- The supervisor as constructed: no main window unless `hwnd` is given, the loaded
definition list, an empty runtime table, nothing posted, no thread, no Win32 call. -/
def initialWorld (hwnd : Nat) (procs : List ProcessConfig) : World :=
  { m_hwnd := hwnd, config := procs }

/-- A world reached from the empty runtime table by a sequence of steps. -/
def Reachable (w : World) : Prop :=
  ∃ (hwnd : Nat) (procs : List ProcessConfig) (ops : List Op),
    w = runOps ops (initialWorld hwnd procs)

/-- Whether the entry holds a live process handle, as `stopProcess` tests it. -/
def ManagedProcess.live (mp : ManagedProcess) : Prop :=
  mp.hProcess ≠ HANDLE.INVALID_HANDLE_VALUE ∧ mp.hProcess ≠ HANDLE.nullptr

instance (mp : ManagedProcess) : Decidable mp.live := by
  unfold ManagedProcess.live
  infer_instance

/-- The ids `startAll` collects: those of the enabled definitions, in definition
order. -/
def enabledIds (procs : List ProcessConfig) : List String :=
  (procs.filter (fun pc => pc.enabled)).map (fun pc => pc.id)

/-- The start requests `startAll` issues for the ids `ids`, the `k`-th of them with the
launch outcome number `n + k`. -/
def startOps (os : Nat → LaunchOutcome) : Nat → List String → List Op
  | _, [] => []
  | n, id :: ids => Op.startProcess (os n) id :: startOps os (n + 1) ids

/-- What `stopProcess` makes of the entry it finds: the flag is set, the job handle
is taken out, and the status becomes `Stopped` unless a process handle is live. -/
def stoppedEntry (mp : ManagedProcess) : ManagedProcess :=
  { mp with
    guardStopped := true
    hJob := HANDLE.nullptr
    status := if mp.live then mp.status else ProcStatus.Stopped }

/-- A world whose runtime table holds a running `p1` and an orphaned `Failed` entry
`old` for which there is no definition. -/
def orphanWorld : World :=
  { runningWorld with
    m_procs := [("old", { status := ProcStatus.Failed }), ("p1", runningEntry)] }

/-- A definition list with unique ids: `p0` and `p1` enabled, `p2` disabled. -/
def bulkConfig : List ProcessConfig :=
  [{ sampleConfig with id := "p0" }, sampleConfig,
    { sampleConfig with id := "p2", enabled := false }]

/-- A world with a main window, the definition list `bulkConfig` and an empty
runtime table. -/
def bulkWorld : World :=
  { m_hwnd := 1, config := bulkConfig }

/-- Launch outcomes for `startAll`: the first launch fails, the others succeed. -/
def bulkOutcomes (n : Nat) : LaunchOutcome :=
  if n = 0 then failedOutcome else sampleOutcome n

/-- A snapshot list in which the first attempt finds the process 200 as a child of
the process 101, after skipping the console host. -/
def sampleSnaps : List (Option (List PROCESSENTRY32W)) :=
  [some [{ th32ProcessID := 150, th32ParentProcessID := 101, szExeFile := "conhost.exe" },
    { th32ProcessID := 200, th32ParentProcessID := 101, szExeFile := "worker.exe" }]]

/-! ## Counting job handles in the trace and in the runtime table -/

/-- Whether a Win32 call is `CloseHandle` on `h`. -/
def OsCall.closes (h : HANDLE) : OsCall → Bool
  | OsCall.CloseHandle x => decide (x = h)
  | _ => false

/-- Whether a Win32 call marks the creation of the job object `h`: `launchNow` assigns
the new process to every job object that `CreateJobObjectW` returned, and to nothing
else. -/
def OsCall.createsJob (h : HANDLE) : OsCall → Bool
  | OsCall.AssignProcessToJobObject j _ => decide (j = h)
  | _ => false

/-- Number of `CloseHandle` calls on `h` in the trace. -/
def closeCount (h : HANDLE) (os : List OsCall) : Nat :=
  os.countP (OsCall.closes h)

/-- Number of job objects with handle `h` that the trace created. -/
def jobCreateCount (h : HANDLE) (os : List OsCall) : Nat :=
  os.countP (OsCall.createsJob h)

/-- Number of entries of the runtime table whose job handle is `h`. -/
def heldCount (h : HANDLE) (m : List (String × ManagedProcess)) : Nat :=
  m.countP (fun kv => decide (kv.2.hJob = h))

/-- The keys of the table ascend strictly, as in a `std::map`. -/
def keysAscending (m : List (String × ManagedProcess)) : Prop :=
  m.Pairwise (fun a b => a.1 < b.1)

/-- The process and thread handles of a launch outcome are not among the handles
`J`, the values the operating system uses for job objects. -/
def LaunchOutcome.typed (J : HANDLE → Prop) (o : LaunchOutcome) : Prop :=
  ¬ J o.hProcess ∧ ¬ J o.hThread

/-- Every launch outcome a step consults is typed. -/
def Op.typed (J : HANDLE → Prop) : Op → Prop
  | Op.startProcess o _ => o.typed J
  | Op.startAll os => ∀ n, (os n).typed J
  | Op.wake _ o _ => o.typed J
  | _ => True

/-- The ownership invariant of job handles, for the handle values `J`: the keys of
the table ascend, no entry keeps one of these values as its process handle, and for
each of them the number of job objects created equals the number of `CloseHandle`
calls plus the number of entries that hold it. -/
def JobsBalanced (J : HANDLE → Prop) (w : World) : Prop :=
  keysAscending w.m_procs ∧
  (∀ kv ∈ w.m_procs, ¬ J kv.2.hProcess) ∧
  ∀ h, J h → jobCreateCount h w.os = closeCount h w.os + heldCount h w.m_procs

/-- The Win32 calls of `cleanupProcess` on an entry. -/
def cleanupCalls (mp : ManagedProcess) : List OsCall :=
  (if mp.hWait ≠ HANDLE.nullptr then [OsCall.UnregisterWaitEx mp.hWait] else []) ++
  (if mp.hJob ≠ HANDLE.nullptr then [OsCall.CloseHandle mp.hJob] else []) ++
  (if mp.hProcess ≠ HANDLE.INVALID_HANDLE_VALUE ∧ mp.hProcess ≠ HANDLE.nullptr then
    [OsCall.CloseHandle mp.hProcess] else [])

/-- How often the entry found for an id holds the job handle `h`: once or not at all. -/
def heldAt (h : HANDLE) : Option ManagedProcess → Nat
  | some mp => if mp.hJob = h then 1 else 0
  | none => 0

/-- A piece of trace that neither creates nor closes any job handle. -/
def neutralCalls (extra : List OsCall) : Prop :=
  ∀ h : HANDLE, jobCreateCount h extra = 0 ∧ closeCount h extra = 0

/-- The job handles of the launch outcomes `sampleOutcome 1` to `sampleOutcome 3`. -/
def sampleJobs (h : HANDLE) : Prop :=
  h = HANDLE.h 12 ∨ h = HANDLE.h 22 ∨ h = HANDLE.h 32

/-- A sequence of steps for `p1`: start, stop, exit, a second stop, start again, exit,
the guard thread relaunches, `stopAll`, exit. -/
def ownershipOps : List Op :=
  [Op.startProcess (sampleOutcome 1) "p1", Op.stopProcess "p1",
    Op.onProcessExited "p1" 101 0, Op.stopProcess "p1",
    Op.startProcess (sampleOutcome 2) "p1", Op.onProcessExited "p1" 102 1,
    Op.tick 3000, Op.wake 0 (sampleOutcome 3) [], Op.stopAll,
    Op.onProcessExited "p1" 103 0]

/-- A definition of `p1` with a start delay of two seconds. -/
def delayedConfig : ProcessConfig :=
  { sampleConfig with delaySeconds := 2 }

/-- Steps after which a start-delay thread of `p1` is due while `p1` runs and has just
been stopped: start (thread 1), stop, a second later start again (thread 2), a second
later thread 1 wakes and launches, a second later stop. -/
def staleStartOps : List Op :=
  [Op.startProcess (sampleOutcome 1) "p1", Op.stopProcess "p1", Op.tick 1000,
    Op.startProcess (sampleOutcome 1) "p1", Op.tick 1000,
    Op.wake 0 (sampleOutcome 1) [], Op.tick 1000, Op.stopProcess "p1"]

/-- Steps after which the guard-delay thread of `p1` is due while a newer process of
`p1` runs: start, the process exits (guard thread spawned), start again, three
seconds pass. -/
def staleGuardOps : List Op :=
  [Op.startProcess (sampleOutcome 1) "p1", Op.onProcessExited "p1" 101 1,
    Op.startProcess (sampleOutcome 2) "p1", Op.tick 3000]

/-! ## Start requests -/

/-- Whether a character is one of the two path separators that `find_last_of` looks
for in `launchNow`: the backslash and the slash. -/
def isPathSep (c : Char) : Prop :=
  c = Char.ofNat 92 ∨ c = Char.ofNat 47

instance (c : Char) : Decidable (isPathSep c) := by
  unfold isPathSep
  infer_instance

/-- A definition of a script with arguments. -/
def scriptConfig : ProcessConfig :=
  { id := "s1", name := "s1", path := "C:/apps/run.bat", type := "bat", args := "-v 2" }

/-! ## Steps that leave a stopped id alone -/

/-- The step from `w` to `w2` is local to `id2`: every other entry is as before, the
threads spawned belong to `id2`, and the messages posted are messages for `id2`. -/
def LocalTo (id2 : String) (w w2 : World) : Prop :=
  (∀ k, k ≠ id2 → mapFind w2.m_procs k = mapFind w.m_procs k) ∧
  (∃ extra, w2.threads = w.threads ++ extra ∧
    ∀ t ∈ extra, t.body = ThreadBody.startDelay id2 ∨ t.body = ThreadBody.guardDelay id2 ∨
      ∃ c, t.body = ThreadBody.refreshChild id2 c) ∧
  ∃ evs, w2.posted = w.posted ++ evs ∧ ∀ e ∈ evs, e.id = id2

/-- The bytes of a text of ASCII characters, as a string literal of the source. -/
def ascii (s : String) : List Nat :=
  s.toList.map Char.toNat

/-- The comparison `operator<` of `std::string`: lexicographic on unsigned bytes, a
proper prefix first. -/
def bytesLt : List Nat → List Nat → Bool
  | [], [] => false
  | [], _ :: _ => true
  | _ :: _, [] => false
  | a :: as, b :: bs => if a < b then true else if b < a then false else bytesLt as bs

namespace ConfigService

/-- The function `::tolower` in the "C" locale, on a byte. -/
def tolower (c : Nat) : Nat :=
  if 65 ≤ c ∧ c ≤ 90 then c + 32 else c

/-- The call `path.rfind(c)`: the position of the last byte `c`, `none` for `npos`. -/
def rfind (path : List Nat) (c : Nat) : Option Nat :=
  match path.reverse.findIdx? (fun b => b = c) with
  | some i => some (path.length - 1 - i)
  | none => none

/-- The function `ConfigService::typeFromPath`. -/
def typeFromPath (path : List Nat) : List Nat :=
  match rfind path 46 with
  | none => ascii "exe"
  | some pos =>
    let ext := (path.drop (pos + 1)).map tolower
    if ext = ascii "bat" ∨ ext = ascii "cmd" then ascii "bat" else ascii "exe"

end ConfigService

/-- Two byte strings are equal when compared case-insensitively: they have the same
length and at each position the bytes are equal or are the upper-case and the
lower-case form of the same ASCII letter. -/
def equalsIgnoringCase (a b : List Nat) : Prop :=
  List.Forall₂ (fun x y => x = y ∨ (65 ≤ x ∧ x ≤ 90 ∧ y = x + 32) ∨
    (65 ≤ y ∧ y ≤ 90 ∧ x = y + 32)) a b

/-! ## The JSON codec `SimpleJson.hpp` -/

namespace sj

/-- The struct `sj::Value`. An object is the `std::map` of its members, kept as a list
ordered by key. The `double` of a number is modelled for integer values of magnitude
below 2^53, which a `double` holds exactly; other numbers are outside the model. -/
inductive Value where
  | null
  | bool (b : Bool)
  | number (d : Int)
  | string (s : List Nat)
  | object (m : List (List Nat × Value))
  | array (a : List Value)

/-- The lookup `find(key)` in the `std::map` of an object. -/
def objFind : List (List Nat × Value) → List Nat → Option Value
  | [], _ => none
  | (k, v) :: rest, key => if k = key then some v else objFind rest key

/-- The assignment `obj[key] = v` in the `std::map` of an object: an existing member
is overwritten, a new one is inserted before the first larger key. -/
def objSet : List (List Nat × Value) → List Nat → Value → List (List Nat × Value)
  | [], key, v => [(key, v)]
  | (k, x) :: rest, key, v =>
    if k = key then (key, v) :: rest
    else if bytesLt key k then (key, v) :: (k, x) :: rest
    else (k, x) :: objSet rest key v

/-- Successive assignments `obj[key] = v` of the members `ms`, in their order, to the
`std::map` `obj`. -/
def insertAll (obj : List (List Nat × Value)) (ms : List (List Nat × Value)) :
    List (List Nat × Value) :=
  ms.foldl (fun o kv => objSet o kv.1 kv.2) obj

/-- The method `Value::contains`. -/
def Value.contains : Value → List Nat → Bool
  | Value.object m, key => (objFind m key).isSome
  | _, _ => false

/-- The method `Value::operator[]` on a key: the member of that key. The code calls it
only after `contains` has returned `true`; for a key that is absent, or a value that
is no object, the model returns `null`. -/
def Value.member : Value → List Nat → Value
  | Value.object m, key => (objFind m key).getD Value.null
  | _, _ => Value.null

/-- The method `Value::get_string_or`. -/
def Value.get_string_or : Value → List Nat → List Nat
  | Value.string s, _ => s
  | _, dflt => dflt

/-- The method `Value::get_bool_or`. -/
def Value.get_bool_or : Value → Bool → Bool
  | Value.bool b, _ => b
  | _, dflt => dflt

/-- The conversion `(int)d` of `get_int` for an integer-valued `double`: the value
itself inside the range of a 32-bit `int`. Outside of that range C++ leaves the
conversion undefined; x86 yields the smallest `int`. -/
def toInt32 (d : Int) : Int :=
  if -2147483648 ≤ d ∧ d ≤ 2147483647 then d else -2147483648

/-- The method `Value::get_int_or`. -/
def Value.get_int_or : Value → Int → Int
  | Value.number d, _ => toInt32 d
  | _, dflt => dflt

/-! ### Serializer -/

/-- The output of `oss << std::hex << std::setw(4) << std::setfill('0') << n`: the
lower-case hexadecimal digits of `n`, padded on the left with `0` to four places. -/
def hexPadded4 (n : Nat) : List Nat :=
  List.replicate (4 - (Nat.toDigits 16 n).length) 48 ++
    (Nat.toDigits 16 n).map Char.toNat

/-- What the loop of `escapeString` writes for one byte. -/
def escapeByte (c : Nat) : List Nat :=
  if c = 34 then [92, 34]
  else if c = 92 then [92, 92]
  else if c = 10 then [92, 110]
  else if c = 13 then [92, 114]
  else if c = 9 then [92, 116]
  else if c < 32 then [92, 117] ++ hexPadded4 c
  else [c]

/-- The function `sj::escapeString`. -/
def escapeString (s : List Nat) : List Nat :=
  [34] ++ s.flatMap escapeByte ++ [34]

/-- The output of `oss << n` for a non-negative integer: its decimal digits. -/
def showNat (n : Nat) : List Nat :=
  if n = 0 then [48] else (Nat.digits 10 n).reverse.map (fun d => 48 + d)

/-- The output of `oss << (long long)d`: a minus sign for a negative value, then the
decimal digits of the magnitude. -/
def showInt (d : Int) : List Nat :=
  if d < 0 then 45 :: showNat d.natAbs else showNat d.natAbs

/-- The string `std::string(n, ' ')`. -/
def spaces (n : Nat) : List Nat :=
  List.replicate n 32

mutual

/-- The function `sj::stringify`. For a number the branch `d == (long long)d` is the
one every modelled number takes. -/
def stringify : Value → Nat → Nat → List Nat
  | Value.null, _, _ => ascii "null"
  | Value.bool b, _, _ => if b then ascii "true" else ascii "false"
  | Value.number d, _, _ => showInt d
  | Value.string s, _, _ => escapeString s
  | Value.array arr, indent, step =>
    match arr with
    | [] => ascii "[]"
    | v :: rest =>
      ascii "[\n" ++ stringifyElems (v :: rest) indent step ++ spaces indent ++ ascii "]"
  | Value.object obj, indent, step =>
    match obj with
    | [] => [123, 125]
    | kv :: rest =>
      [123, 10] ++ stringifyMembers (kv :: rest) indent step ++ spaces indent ++ [125]

/-- The loop of `stringify` over the elements of an array. -/
def stringifyElems : List Value → Nat → Nat → List Nat
  | [], _, _ => []
  | v :: rest, indent, step =>
    spaces (indent + step) ++ stringify v (indent + step) step ++
      (if rest.isEmpty then [] else [44]) ++ [10] ++ stringifyElems rest indent step

/-- The loop of `stringify` over the members of an object. -/
def stringifyMembers : List (List Nat × Value) → Nat → Nat → List Nat
  | [], _, _ => []
  | (key, val) :: rest, indent, step =>
    spaces (indent + step) ++ escapeString key ++ [58, 32] ++
      stringify val (indent + step) step ++
      (if rest.isEmpty then [] else [44]) ++ [10] ++ stringifyMembers rest indent step

end

end sj
namespace sj

/-! ### Parser

The struct `Parser` holds the read position `p` and the end `end` of the text. The
model keeps the bytes from `p` to `end`. A read at `end` sees the terminating NUL of
`c_str()`. The result `none` stands for an exception (`std::runtime_error`,
`std::invalid_argument`), for a number outside the model, or for a read position that
moves beyond `end`, after which the model does not follow the parser. -/

/-- The method `Parser::skip`. -/
def skip : List Nat → List Nat
  | [] => []
  | c :: rest => if c = 32 ∨ c = 9 ∨ c = 10 ∨ c = 13 then skip rest else c :: rest

/-- The method `Parser::peek`: the byte it returns (`0` at the end) and the text from
the position where `skip` stopped. -/
def peek (inp : List Nat) : Nat × List Nat :=
  match skip inp with
  | [] => (0, [])
  | c :: rest => (c, c :: rest)

/-- The method `Parser::next`: the byte it returns (`0` at the end) and the text after
it. -/
def next (inp : List Nat) : Nat × List Nat :=
  match skip inp with
  | [] => (0, [])
  | c :: rest => (c, rest)

/-- The method `Parser::expect`: the text after the expected byte, `none` when it
throws. -/
def expect (c : Nat) (inp : List Nat) : Option (List Nat) :=
  if (next inp).1 ≠ c then none else some (next inp).2

/-- The value of a byte as a hexadecimal digit, as `strtoul` reads it. -/
def hexVal (c : Nat) : Option Nat :=
  if 48 ≤ c ∧ c ≤ 57 then some (c - 48)
  else if 97 ≤ c ∧ c ≤ 102 then some (c - 87)
  else if 65 ≤ c ∧ c ≤ 70 then some (c - 55)
  else none

/-- The digit loop of `strtoul` in base 16: the value of the leading hexadecimal
digits, `none` when there is none. -/
def hexDigitsValue : List Nat → Option Nat → Option Nat
  | [], acc => acc
  | c :: rest, acc =>
    match hexVal c with
    | some v => hexDigitsValue rest (some (16 * acc.getD 0 + v))
    | none => acc

/-- The call `(unsigned int)std::stoul(hex, nullptr, 16)` on the four bytes copied into
`hex`: the C string ends at the first NUL; white space, a sign and a prefix `0x` may
precede the digits; a minus sign negates in 32-bit unsigned arithmetic; `none` when no
digit is found (`std::invalid_argument`). -/
def stoul16 (hex : List Nat) : Option Nat :=
  let s := hex.takeWhile (fun c => c ≠ 0)
  let s1 := s.dropWhile (fun c => c = 32 ∨ (9 ≤ c ∧ c ≤ 13))
  let neg := s1.head? = some 45
  let s2 := if s1.head? = some 45 ∨ s1.head? = some 43 then s1.tail else s1
  let s3 :=
    match s2 with
    | a :: b :: d :: rest =>
      if a = 48 ∧ (b = 120 ∨ b = 88) ∧ (hexVal d).isSome then d :: rest else s2
    | _ => s2
  match hexDigitsValue s3 none with
  | none => none
  | some v => some (if neg then (4294967296 - v) % 4294967296 else v)

/-- The bytes `parseRawString` appends for the code point of a `\u` escape. -/
def encodeCodePoint (cp : Nat) : List Nat :=
  if cp < 128 then [cp % 256]
  else if cp < 2048 then [(192 ||| (cp >>> 6)) % 256, (128 ||| (cp &&& 63)) % 256]
  else [(224 ||| (cp >>> 12)) % 256, (128 ||| ((cp >>> 6) &&& 63)) % 256,
    (128 ||| (cp &&& 63)) % 256]

/-- The byte `parseRawString` appends for the escape `\e`, when `e` is not `u`. -/
def unescape (e : Nat) : Nat :=
  if e = 110 then 10
  else if e = 114 then 13
  else if e = 116 then 9
  else if e = 98 then 8
  else if e = 102 then 12
  else e

/-- The loop of `parseRawString` and the step over the closing quote: the bytes read
so far are `s`; returns the string and the text after it. -/
def rawLoop : List Nat → List Nat → Option (List Nat × List Nat)
  | [], s => some (s, [])
  | c :: rest, s =>
    if c = 34 then some (s, rest)
    else if c = 92 then
      match rest with
      | [] => none
      | e :: rest2 =>
        if e = 117 then
          match rest2 with
          | h1 :: h2 :: h3 :: h4 :: rest3 =>
            match stoul16 [h1, h2, h3, h4] with
            | none => none
            | some cp => rawLoop rest3 (s ++ encodeCodePoint cp)
          | _ => none
        else rawLoop rest2 (s ++ [unescape e])
    else rawLoop rest (s ++ [c])

/-- The method `Parser::parseRawString`. -/
def parseRawString (inp : List Nat) : Option (List Nat × List Nat) :=
  match expect 34 inp with
  | none => none
  | some r => rawLoop r []

/-- The method `Parser::parseString`. -/
def parseString (inp : List Nat) : Option (Value × List Nat) :=
  match parseRawString inp with
  | none => none
  | some (s, r) => some (Value.string s, r)

/-- Whether a byte is a decimal digit. -/
def isDigit (c : Nat) : Bool :=
  decide (48 ≤ c ∧ c ≤ 57)

/-- The value of a sequence of decimal digits. -/
def digitsValue (ds : List Nat) : Nat :=
  ds.foldl (fun acc c => 10 * acc + (c - 48)) 0

/-- The method `Parser::parseNumber`, for numbers inside the model: an optional minus
sign and decimal digits, of magnitude below 2^53, not followed by a fraction or an
exponent. `std::stod` throws when there is no digit. -/
def parseNumber (inp : List Nat) : Option (Value × List Nat) :=
  let neg := inp.head? = some 45
  let r1 := if inp.head? = some 45 then inp.tail else inp
  let ds := r1.takeWhile isDigit
  let r2 := r1.dropWhile isDigit
  if r2.head? = some 46 ∨ r2.head? = some 101 ∨ r2.head? = some 69 then none
  else if ds = [] then none
  else if 9007199254740992 ≤ digitsValue ds then none
  else some (Value.number (if neg then -(digitsValue ds : Int) else (digitsValue ds : Int)), r2)

mutual

/-- The method `Parser::parseValue`. The first argument bounds the number of nested
and repeated calls that may still be made. -/
def parseValue : Nat → List Nat → Option (Value × List Nat)
  | 0, _ => none
  | fuel + 1, inp =>
    if (peek inp).1 = 34 then parseString (peek inp).2
    else if (peek inp).1 = 123 then parseObject fuel (peek inp).2
    else if (peek inp).1 = 91 then parseArray fuel (peek inp).2
    else if (peek inp).1 = 116 then
      (if 4 ≤ (peek inp).2.length then some (Value.bool true, (peek inp).2.drop 4) else none)
    else if (peek inp).1 = 102 then
      (if 5 ≤ (peek inp).2.length then some (Value.bool false, (peek inp).2.drop 5) else none)
    else if (peek inp).1 = 110 then
      (if 4 ≤ (peek inp).2.length then some (Value.null, (peek inp).2.drop 4) else none)
    else if (peek inp).1 = 45 ∨ (48 ≤ (peek inp).1 ∧ (peek inp).1 ≤ 57) then
      parseNumber (peek inp).2
    else none

/-- The method `Parser::parseObject`. -/
def parseObject : Nat → List Nat → Option (Value × List Nat)
  | 0, _ => none
  | fuel + 1, inp =>
    match expect 123 inp with
    | none => none
    | some r =>
      if (peek r).1 = 125 then some (Value.object [], (peek r).2.tail)
      else parseObjectLoop fuel [] (peek r).2

/-- The loop `while (true)` of `parseObject`, with the members read so far. -/
def parseObjectLoop : Nat → List (List Nat × Value) → List Nat → Option (Value × List Nat)
  | 0, _, _ => none
  | fuel + 1, obj, inp =>
    match parseRawString inp with
    | none => none
    | some (key, r1) =>
      match expect 58 r1 with
      | none => none
      | some r2 =>
        match parseValue fuel r2 with
        | none => none
        | some (v, r3) =>
          if (next r3).1 = 125 then some (Value.object (objSet obj key v), (next r3).2)
          else if (next r3).1 ≠ 44 then none
          else parseObjectLoop fuel (objSet obj key v) (next r3).2

/-- The method `Parser::parseArray`. -/
def parseArray : Nat → List Nat → Option (Value × List Nat)
  | 0, _ => none
  | fuel + 1, inp =>
    match expect 91 inp with
    | none => none
    | some r =>
      if (peek r).1 = 93 then some (Value.array [], (peek r).2.tail)
      else parseArrayLoop fuel [] (peek r).2

/-- The loop `while (true)` of `parseArray`, with the elements read so far. -/
def parseArrayLoop : Nat → List Value → List Nat → Option (Value × List Nat)
  | 0, _, _ => none
  | fuel + 1, arr, inp =>
    match parseValue fuel inp with
    | none => none
    | some (v, r1) =>
      if (next r1).1 = 93 then some (Value.array (arr ++ [v]), (next r1).2)
      else if (next r1).1 ≠ 44 then none
      else parseArrayLoop fuel (arr ++ [v]) (next r1).2

end

/-- The function `sj::parse`: the value `parseValue` returns, whatever text follows
it. The bound on calls is twice the length of the text plus two. -/
def parse (s : List Nat) : Option Value :=
  match parseValue (2 * s.length + 2) s with
  | none => none
  | some (v, _) => some v

end sj
/-! ## The configuration store `ConfigService.cpp` -/

namespace ConfigService

/-- The struct `ProcessConfig` of `ConfigService.h` as the configuration store reads
and writes it: its strings are byte strings. An `int` member is an integer; the code
holds it in 32 bits. -/
structure ProcessConfig where
  id : List Nat := []
  name : List Nat := []
  path : List Nat := []
  type : List Nat := []
  args : List Nat := []
  delaySeconds : Int := 0
  guardEnabled : Bool := true
  guardDelaySeconds : Int := 1
  enabled : Bool := true
  deriving DecidableEq, Repr

/-- The struct `AppConfig` of `ConfigService.h`. -/
structure AppConfig where
  autoStartOnOpen : Bool := false
  processes : List ProcessConfig := []
  deriving DecidableEq, Repr

/-- The range of a 32-bit `int`. -/
def isInt32 (d : Int) : Prop :=
  -2147483648 ≤ d ∧ d ≤ 2147483647

instance (d : Int) : Decidable (isInt32 d) := by
  unfold isInt32
  infer_instance

/-- The members that `appConfigToJson` and `processConfigToJson` assign to the object
of a process, in the order of the assignments. The constructor `Value(int)` converts
to `double`, which is exact. -/
def processMembers (p : ProcessConfig) : List (List Nat × sj.Value) :=
  [(ascii "id", sj.Value.string p.id),
    (ascii "name", sj.Value.string p.name),
    (ascii "path", sj.Value.string p.path),
    (ascii "type", sj.Value.string p.type),
    (ascii "args", sj.Value.string p.args),
    (ascii "delaySeconds", sj.Value.number p.delaySeconds),
    (ascii "guardEnabled", sj.Value.bool p.guardEnabled),
    (ascii "guardDelaySeconds", sj.Value.number p.guardDelaySeconds),
    (ascii "enabled", sj.Value.bool p.enabled)]

/-- The object `obj` that `appConfigToJson` builds for a process. -/
def processObject (p : ProcessConfig) : sj.Value :=
  sj.Value.object (sj.insertAll [] (processMembers p))

/-- The function `ConfigService::processConfigToJson`. -/
def processConfigToJson (p : ProcessConfig) : List Nat :=
  sj.stringify (processObject p) 0 2

/-- The object `root` that `appConfigToJson` builds. -/
def rootObject (cfg : AppConfig) : sj.Value :=
  sj.Value.object (sj.insertAll []
    [(ascii "autoStartOnOpen", sj.Value.bool cfg.autoStartOnOpen),
      (ascii "processes", sj.Value.array (cfg.processes.map processObject))])

/-- The function `ConfigService::appConfigToJson`. -/
def appConfigToJson (cfg : AppConfig) : List Nat :=
  sj.stringify (rootObject cfg) 0 2

/-- The body of the loop of `ConfigService::load`: the process read from the element
`pv` of the array `processes`; `newId` is the id that `newId()` would generate. -/
def processFromValue (newId : List Nat) (pv : sj.Value) : ProcessConfig :=
  { id :=
      if pv.contains (ascii "id") then (pv.member (ascii "id")).get_string_or [] else newId
    name :=
      if pv.contains (ascii "name") then (pv.member (ascii "name")).get_string_or [] else []
    path :=
      if pv.contains (ascii "path") then (pv.member (ascii "path")).get_string_or [] else []
    type :=
      if pv.contains (ascii "type") then (pv.member (ascii "type")).get_string_or (ascii "exe")
      else typeFromPath
        (if pv.contains (ascii "path") then (pv.member (ascii "path")).get_string_or [] else [])
    args :=
      if pv.contains (ascii "args") then (pv.member (ascii "args")).get_string_or [] else []
    delaySeconds :=
      if pv.contains (ascii "delaySeconds") then
        (pv.member (ascii "delaySeconds")).get_int_or 0
      else 0
    guardEnabled :=
      if pv.contains (ascii "guardEnabled") then
        (pv.member (ascii "guardEnabled")).get_bool_or true
      else true
    guardDelaySeconds :=
      if pv.contains (ascii "guardDelaySeconds") then
        (pv.member (ascii "guardDelaySeconds")).get_int_or 3
      else 3
    enabled :=
      if pv.contains (ascii "enabled") then (pv.member (ascii "enabled")).get_bool_or true
      else true }

/-- The loop of `ConfigService::load` over the elements of the array `processes`, from
index `i` on; `newId i` is the id generated for the element `i` when it has none. -/
def loadProcesses (newId : Nat → List Nat) : Nat → List sj.Value → List ProcessConfig
  | _, [] => []
  | i, pv :: rest => processFromValue (newId i) pv :: loadProcesses newId (i + 1) rest

/-- The method `ConfigService::load` from the point where the text of the file has
been read: its result and `m_config` afterwards. An exception of the parser is caught
and leaves the default configuration. -/
def load (newId : Nat → List Nat) (text : List Nat) : Bool × AppConfig :=
  if text = [] then (true, {})
  else
    match sj.parse text with
    | none => (false, {})
    | some root =>
      (true,
        { autoStartOnOpen :=
            if root.contains (ascii "autoStartOnOpen") then
              (root.member (ascii "autoStartOnOpen")).get_bool_or false
            else false
          processes :=
            if root.contains (ascii "processes") then
              match root.member (ascii "processes") with
              | sj.Value.array arr => loadProcesses newId 0 arr
              | _ => []
            else [] })

/-- The members of the object of a process in the order of their keys. -/
def sortedMembers (p : ProcessConfig) : List (List Nat × sj.Value) :=
  [(ascii "args", sj.Value.string p.args),
    (ascii "delaySeconds", sj.Value.number p.delaySeconds),
    (ascii "enabled", sj.Value.bool p.enabled),
    (ascii "guardDelaySeconds", sj.Value.number p.guardDelaySeconds),
    (ascii "guardEnabled", sj.Value.bool p.guardEnabled),
    (ascii "id", sj.Value.string p.id),
    (ascii "name", sj.Value.string p.name),
    (ascii "path", sj.Value.string p.path),
    (ascii "type", sj.Value.string p.type)]

/-- A configuration with two processes whose strings hold quotes, backslashes, control
bytes and bytes above 127, and whose delays are the extreme values of an `int`. -/
def sampleAppConfig : AppConfig :=
  { autoStartOnOpen := true
    processes :=
      [{ id := ascii "a-1", name := [34, 92, 10, 0, 31, 200], path := ascii "C:\\x\\run.bat",
         type := ascii "bat", args := ascii "-v \"two words\"",
         delaySeconds := 2147483647, guardEnabled := false,
         guardDelaySeconds := -2147483648, enabled := false },
       {}] }

end ConfigService
/-! ### Notions used to state what the parser does on the text of the serializer -/

namespace sj

/-- Every byte of `ws` is one that `skip` passes over. -/
def allSpace (ws : List Nat) : Prop :=
  ∀ b ∈ ws, b = 32 ∨ b = 9 ∨ b = 10 ∨ b = 13

/-- What follows the text of a value in the output of `stringify`: nothing, a comma or
a line feed. -/
def tailOk (rest : List Nat) : Prop :=
  ∀ c, rest.head? = some c → c = 44 ∨ c = 10

/-- With at least `K` calls allowed, `parseValue` reads the text `txt` as the value
`v` and stops right after it. -/
def ParsesAt (K : Nat) (v : Value) (txt : List Nat) : Prop :=
  ∀ (f : Nat) (rest : List Nat), K ≤ f → tailOk rest →
    parseValue f (txt ++ rest) = some (v, rest)

end sj
/-! ## Lemmas on the runtime table -/

theorem mapFind_mapSet_self (m : List (String × ManagedProcess)) (id : String)
    (mp : ManagedProcess) : mapFind (mapSet m id mp) id = some mp := by
  induction m with
  | nil => simp [mapSet, mapFind]
  | cons kv rest ih =>
    obtain ⟨k, v⟩ := kv
    by_cases hk : k = id
    · simp [mapSet, mapFind, hk]
    · by_cases hlt : id < k
      · simp [mapSet, mapFind, hk, hlt]
      · simp [mapSet, mapFind, hk, hlt, ih]

theorem mapFind_mapSet_ne (m : List (String × ManagedProcess)) (id id2 : String)
    (mp : ManagedProcess) (h : id ≠ id2) :
    mapFind (mapSet m id mp) id2 = mapFind m id2 := by
  induction m with
  | nil => simp [mapSet, mapFind, h]
  | cons kv rest ih =>
    obtain ⟨k, v⟩ := kv
    by_cases hk : k = id
    · subst hk
      simp [mapSet, mapFind, h]
    · by_cases hlt : id < k
      · simp [mapSet, mapFind, hk, hlt, h]
      · by_cases hk2 : k = id2
        · subst hk2
          simp [mapSet, mapFind, hk, hlt]
        · simp [mapSet, mapFind, hk, hlt, hk2, ih]

theorem mapIndex_of_some {m : List (String × ManagedProcess)} {id : String}
    {mp : ManagedProcess} (h : mapFind m id = some mp) : mapIndex m id = (mp, m) := by
  simp [mapIndex, h]

theorem mapIndex_of_none {m : List (String × ManagedProcess)} {id : String}
    (h : mapFind m id = none) : mapIndex m id = ({}, mapSet m id {}) := by
  simp [mapIndex, h]

/-! ## Lemmas on `notifyStatus` and `cleanupProcess` -/

@[simp] theorem notifyStatus_m_procs (id : String) (s : ProcStatus) (w : World) :
    (notifyStatus id s w).m_procs = w.m_procs := by
  unfold notifyStatus; split <;> rfl

@[simp] theorem notifyStatus_threads (id : String) (s : ProcStatus) (w : World) :
    (notifyStatus id s w).threads = w.threads := by
  unfold notifyStatus; split <;> rfl

@[simp] theorem notifyStatus_os (id : String) (s : ProcStatus) (w : World) :
    (notifyStatus id s w).os = w.os := by
  unfold notifyStatus; split <;> rfl

@[simp] theorem notifyStatus_now (id : String) (s : ProcStatus) (w : World) :
    (notifyStatus id s w).now = w.now := by
  unfold notifyStatus; split <;> rfl

@[simp] theorem notifyStatus_config (id : String) (s : ProcStatus) (w : World) :
    (notifyStatus id s w).config = w.config := by
  unfold notifyStatus; split <;> rfl

@[simp] theorem notifyStatus_m_hwnd (id : String) (s : ProcStatus) (w : World) :
    (notifyStatus id s w).m_hwnd = w.m_hwnd := by
  unfold notifyStatus; split <;> rfl

theorem notifyStatus_posted (id : String) (s : ProcStatus) (w : World)
    (h : w.m_hwnd ≠ 0) :
    (notifyStatus id s w).posted = w.posted ++ [{ id := id, status := s }] := by
  simp [notifyStatus, h]

theorem notifyStatus_no_window (id : String) (s : ProcStatus) (w : World)
    (h : w.m_hwnd = 0) : notifyStatus id s w = w := by
  simp [notifyStatus, h]

@[simp] theorem cleanupProcess_status (mp : ManagedProcess) (os : List OsCall) :
    (cleanupProcess mp os).1.status = mp.status := by
  unfold cleanupProcess
  by_cases h1 : mp.hWait = HANDLE.nullptr <;> by_cases h2 : mp.hJob = HANDLE.nullptr <;>
    by_cases h3 : mp.hProcess = HANDLE.INVALID_HANDLE_VALUE <;>
    by_cases h4 : mp.hProcess = HANDLE.nullptr <;> simp [h1, h2, h3, h4]

@[simp] theorem cleanupProcess_guardStopped (mp : ManagedProcess) (os : List OsCall) :
    (cleanupProcess mp os).1.guardStopped = mp.guardStopped := by
  unfold cleanupProcess
  by_cases h1 : mp.hWait = HANDLE.nullptr <;> by_cases h2 : mp.hJob = HANDLE.nullptr <;>
    by_cases h3 : mp.hProcess = HANDLE.INVALID_HANDLE_VALUE <;>
    by_cases h4 : mp.hProcess = HANDLE.nullptr <;> simp [h1, h2, h3, h4]

@[simp] theorem cleanupProcess_pid (mp : ManagedProcess) (os : List OsCall) :
    (cleanupProcess mp os).1.pid = 0 := by
  unfold cleanupProcess
  by_cases h1 : mp.hWait = HANDLE.nullptr <;> by_cases h2 : mp.hJob = HANDLE.nullptr <;>
    by_cases h3 : mp.hProcess = HANDLE.INVALID_HANDLE_VALUE <;>
    by_cases h4 : mp.hProcess = HANDLE.nullptr <;> simp [h1, h2, h3, h4]

@[simp] theorem cleanupProcess_hJob (mp : ManagedProcess) (os : List OsCall) :
    (cleanupProcess mp os).1.hJob = HANDLE.nullptr := by
  unfold cleanupProcess
  by_cases h1 : mp.hWait = HANDLE.nullptr <;> by_cases h2 : mp.hJob = HANDLE.nullptr <;>
    by_cases h3 : mp.hProcess = HANDLE.INVALID_HANDLE_VALUE <;>
    by_cases h4 : mp.hProcess = HANDLE.nullptr <;> simp [h1, h2, h3, h4]

@[simp] theorem cleanupProcess_hWait (mp : ManagedProcess) (os : List OsCall) :
    (cleanupProcess mp os).1.hWait = HANDLE.nullptr := by
  unfold cleanupProcess
  by_cases h1 : mp.hWait = HANDLE.nullptr <;> by_cases h2 : mp.hJob = HANDLE.nullptr <;>
    by_cases h3 : mp.hProcess = HANDLE.INVALID_HANDLE_VALUE <;>
    by_cases h4 : mp.hProcess = HANDLE.nullptr <;> simp [h1, h2, h3, h4]

theorem cleanupProcess_hProcess (mp : ManagedProcess) (os : List OsCall) :
    (cleanupProcess mp os).1.hProcess = HANDLE.INVALID_HANDLE_VALUE ∨
      (cleanupProcess mp os).1.hProcess = HANDLE.nullptr := by
  unfold cleanupProcess
  by_cases h1 : mp.hWait = HANDLE.nullptr <;> by_cases h2 : mp.hJob = HANDLE.nullptr <;>
    by_cases h3 : mp.hProcess = HANDLE.INVALID_HANDLE_VALUE <;>
    by_cases h4 : mp.hProcess = HANDLE.nullptr <;> simp [h1, h2, h3, h4]

theorem launchCount_append (a b : List OsCall) :
    launchCount (a ++ b) = launchCount a + launchCount b := by
  simp [launchCount]

@[simp] theorem cleanupProcess_launchCount (mp : ManagedProcess) (os : List OsCall) :
    launchCount (cleanupProcess mp os).2 = launchCount os := by
  unfold cleanupProcess
  by_cases h1 : mp.hWait = HANDLE.nullptr <;> by_cases h2 : mp.hJob = HANDLE.nullptr <;>
    by_cases h3 : mp.hProcess = HANDLE.INVALID_HANDLE_VALUE <;>
    by_cases h4 : mp.hProcess = HANDLE.nullptr <;>
    simp [h1, h2, h3, h4, launchCount, OsCall.isLaunch]

/-! ## What each operation does, branch by branch -/

theorem onProcessExited_stopped (id : String) (pid exitCode : Nat) (w : World)
    (mp : ManagedProcess) (hmp : mapFind w.m_procs id = some mp)
    (h : mp.guardStopped = true ∨ findConfig w.config id = none ∨
      ∃ cfg, findConfig w.config id = some cfg ∧ cfg.guardEnabled = false) :
    onProcessExited id pid exitCode w =
      notifyStatus id ProcStatus.Stopped
        { w with
          m_procs := mapSet w.m_procs id
            { (cleanupProcess mp w.os).1 with status := ProcStatus.Stopped }
          os := (cleanupProcess mp w.os).2 } := by
  unfold onProcessExited
  rw [hmp]
  rcases h with h | h | ⟨cfg, h, hg⟩
  · simp [h]
  · simp [h]
  · simp [h, hg]

theorem onProcessExited_restarting (id : String) (pid exitCode : Nat) (w : World)
    (mp : ManagedProcess) (cfg : ProcessConfig)
    (hmp : mapFind w.m_procs id = some mp) (hgs : mp.guardStopped = false)
    (hcfg : findConfig w.config id = some cfg) (hg : cfg.guardEnabled = true) :
    onProcessExited id pid exitCode w =
      notifyStatus id ProcStatus.Restarting
        { w with
          m_procs := mapSet w.m_procs id
            { (cleanupProcess mp w.os).1 with status := ProcStatus.Restarting }
          os := (cleanupProcess mp w.os).2
          threads := w.threads ++
            [{ body := ThreadBody.guardDelay id, sleepMs := cfg.guardDelaySeconds * 1000,
               spawnedAt := w.now }] } := by
  unfold onProcessExited
  rw [hmp]
  by_cases hw : w.m_hwnd = 0 <;> simp [hgs, hcfg, hg, notifyStatus, hw]

theorem launchNow_no_definition (o : LaunchOutcome) (id : String) (w : World)
    (hcfg : findConfig w.config id = none) : launchNow o id w = (false, w) := by
  simp [launchNow, hcfg]

theorem launchNow_failed (o : LaunchOutcome) (id : String) (w : World)
    (cfg : ProcessConfig) (hcfg : findConfig w.config id = some cfg)
    (hok : o.ok = false) :
    launchNow o id w =
      (false, notifyStatus id ProcStatus.Failed
        { w with
          m_procs := mapSet (mapIndex w.m_procs id).2 id
            { (mapIndex w.m_procs id).1 with status := ProcStatus.Failed }
          os := w.os ++
            [OsCall.CreateProcessW (buildCmdLine cfg) (workDirArg (buildWorkDir cfg))] }) := by
  simp [launchNow, hcfg, hok]

theorem launchNow_ok (o : LaunchOutcome) (id : String) (w : World)
    (cfg : ProcessConfig) (hcfg : findConfig w.config id = some cfg)
    (hok : o.ok = true) :
    launchNow o id w =
      (true,
        notifyStatus id ProcStatus.Running
          { w with
            m_procs := mapSet (mapIndex w.m_procs id).2 id
              { (cleanupProcess (mapIndex w.m_procs id).1 (w.os ++ launchCalls o cfg)).1 with
                hProcess := o.hProcess
                pid := o.dwProcessId
                hWait := o.hWait
                hJob := o.hJob
                guardStopped := false
                status := ProcStatus.Running }
            os := (cleanupProcess (mapIndex w.m_procs id).1 (w.os ++ launchCalls o cfg)).2
            threads := w.threads ++
              (if cfg.type = "bat" then
                [{ body := ThreadBody.refreshChild id o.dwProcessId, sleepMs := 1500,
                   spawnedAt := w.now }]
              else []) }) := by
  unfold launchNow
  rw [hcfg]
  by_cases hb : cfg.type = "bat" <;> by_cases hw : w.m_hwnd = 0 <;>
    simp [hok, hb, hw, launchCalls, List.append_assoc, notifyStatus]

theorem mapSet_mapSet (m : List (String × ManagedProcess)) (id : String)
    (a b : ManagedProcess) : mapSet (mapSet m id a) id b = mapSet m id b := by
  induction m with
  | nil => simp [mapSet]
  | cons kv rest ih =>
    obtain ⟨k, v⟩ := kv
    by_cases hk : k = id
    · simp [mapSet, hk]
    · by_cases hlt : id < k
      · simp [mapSet, hk, hlt]
      · simp [mapSet, hk, hlt, ih]

theorem stopProcess_live (id : String) (w : World) (mp : ManagedProcess)
    (hmp : mapFind w.m_procs id = some mp)
    (h1 : mp.hProcess ≠ HANDLE.INVALID_HANDLE_VALUE) (h2 : mp.hProcess ≠ HANDLE.nullptr) :
    stopProcess id w =
      (true,
        { w with
          m_procs := mapSet w.m_procs id
            { mp with guardStopped := true, hJob := HANDLE.nullptr }
          os := w.os ++ closeJob mp.hJob ++ [OsCall.TerminateProcess mp.hProcess] }) := by
  unfold stopProcess
  rw [hmp]
  by_cases hj : mp.hJob = HANDLE.nullptr <;> simp [h1, h2, hj, closeJob]

theorem stopProcess_idle (id : String) (w : World) (mp : ManagedProcess)
    (hmp : mapFind w.m_procs id = some mp)
    (hno : mp.hProcess = HANDLE.INVALID_HANDLE_VALUE ∨ mp.hProcess = HANDLE.nullptr) :
    stopProcess id w =
      (true,
        notifyStatus id ProcStatus.Stopped
          { w with
            m_procs := mapSet w.m_procs id
              { mp with guardStopped := true, hJob := HANDLE.nullptr,
                        status := ProcStatus.Stopped }
            os := w.os ++ closeJob mp.hJob }) := by
  have hcond : ¬ (mp.hProcess ≠ HANDLE.INVALID_HANDLE_VALUE ∧ mp.hProcess ≠ HANDLE.nullptr) := by
    rcases hno with h | h <;> simp [h]
  unfold stopProcess
  rw [hmp]
  simp only [hcond, if_false]
  by_cases hj : mp.hJob = HANDLE.nullptr <;>
    simp [hj, closeJob, mapIndex, mapFind_mapSet_self, mapSet_mapSet]

theorem launchCount_closeJob (hJob : HANDLE) : launchCount (closeJob hJob) = 0 := by
  unfold closeJob
  split <;> simp [launchCount, OsCall.isLaunch]

theorem guardDelayBody_cancelled (o : LaunchOutcome) (id : String) (w : World)
    (mp : ManagedProcess) (hmp : mapFind w.m_procs id = some mp)
    (hgs : mp.guardStopped = true) :
    guardDelayBody o id w =
      notifyStatus id ProcStatus.Stopped
        { w with m_procs := mapSet w.m_procs id { mp with status := ProcStatus.Stopped } } := by
  simp [guardDelayBody, hmp, hgs]

theorem guardDelayBody_launch (o : LaunchOutcome) (id : String) (w : World)
    (mp : ManagedProcess) (hmp : mapFind w.m_procs id = some mp)
    (hgs : mp.guardStopped = false) :
    guardDelayBody o id w = (launchNow o id w).2 := by
  simp [guardDelayBody, hmp, hgs]

theorem wake_due (i : Nat) (o : LaunchOutcome) (snaps : List (Option (List PROCESSENTRY32W)))
    (w : World) (t : SleepingThread) (ht : w.threads[i]? = some t)
    (hdue : t.due w.now) :
    wake i o snaps w =
      some (runBody o snaps t.body { w with threads := w.threads.eraseIdx i }) := by
  simp [wake, ht, hdue]

theorem wake_asleep (i : Nat) (o : LaunchOutcome)
    (snaps : List (Option (List PROCESSENTRY32W)))
    (w : World) (t : SleepingThread) (ht : w.threads[i]? = some t)
    (hnot : ¬ t.due w.now) :
    wake i o snaps w = none := by
  simp [wake, ht, hnot]

@[simp] theorem cleanupProcess_id (mp : ManagedProcess) (os : List OsCall) :
    (cleanupProcess mp os).1.id = mp.id := by
  unfold cleanupProcess
  by_cases h1 : mp.hWait = HANDLE.nullptr <;> by_cases h2 : mp.hJob = HANDLE.nullptr <;>
    by_cases h3 : mp.hProcess = HANDLE.INVALID_HANDLE_VALUE <;>
    by_cases h4 : mp.hProcess = HANDLE.nullptr <;> simp [h1, h2, h3, h4]

theorem mapSet_mapIndex (m : List (String × ManagedProcess)) (id : String)
    (x : ManagedProcess) : mapSet (mapIndex m id).2 id x = mapSet m id x := by
  unfold mapIndex
  cases h : mapFind m id with
  | none => simp [mapSet_mapSet]
  | some mp => simp

theorem mapIndex_fst (m : List (String × ManagedProcess)) (id : String) :
    (mapIndex m id).1 = (mapFind m id).getD {} := by
  unfold mapIndex
  cases h : mapFind m id <;> simp

@[simp] theorem launchCount_launchCalls (o : LaunchOutcome) (cfg : ProcessConfig) :
    launchCount (launchCalls o cfg) = 1 := by
  unfold launchCalls
  by_cases h : o.hJob = HANDLE.nullptr <;> simp [h, launchCount, OsCall.isLaunch]

@[simp] theorem launchNow_config (o : LaunchOutcome) (id : String) (w : World) :
    (launchNow o id w).2.config = w.config := by
  cases hcfg : findConfig w.config id with
  | none => simp [launchNow_no_definition o id w hcfg]
  | some cfg =>
    cases hok : o.ok with
    | false => simp [launchNow_failed o id w cfg hcfg hok]
    | true => simp [launchNow_ok o id w cfg hcfg hok]

@[simp] theorem launchNow_m_hwnd (o : LaunchOutcome) (id : String) (w : World) :
    (launchNow o id w).2.m_hwnd = w.m_hwnd := by
  cases hcfg : findConfig w.config id with
  | none => simp [launchNow_no_definition o id w hcfg]
  | some cfg =>
    cases hok : o.ok with
    | false => simp [launchNow_failed o id w cfg hcfg hok]
    | true => simp [launchNow_ok o id w cfg hcfg hok]

@[simp] theorem launchNow_now (o : LaunchOutcome) (id : String) (w : World) :
    (launchNow o id w).2.now = w.now := by
  cases hcfg : findConfig w.config id with
  | none => simp [launchNow_no_definition o id w hcfg]
  | some cfg =>
    cases hok : o.ok with
    | false => simp [launchNow_failed o id w cfg hcfg hok]
    | true => simp [launchNow_ok o id w cfg hcfg hok]

theorem launchNow_ok_entry (o : LaunchOutcome) (id : String) (w : World)
    (cfg : ProcessConfig) (hcfg : findConfig w.config id = some cfg)
    (hok : o.ok = true) :
    mapFind (launchNow o id w).2.m_procs id =
      some { id := (mapIndex w.m_procs id).1.id, hProcess := o.hProcess,
             pid := o.dwProcessId, hWait := o.hWait, hJob := o.hJob,
             guardStopped := false, status := ProcStatus.Running } := by
  rw [launchNow_ok o id w cfg hcfg hok]
  simp [mapSet_mapIndex, mapFind_mapSet_self]

theorem launchNow_ok_posted (o : LaunchOutcome) (id : String) (w : World)
    (cfg : ProcessConfig) (hcfg : findConfig w.config id = some cfg)
    (hok : o.ok = true) (hw : w.m_hwnd ≠ 0) :
    (launchNow o id w).2.posted =
      w.posted ++ [{ id := id, status := ProcStatus.Running }] := by
  rw [launchNow_ok o id w cfg hcfg hok]
  simp [notifyStatus, hw]

theorem launchNow_ok_threads (o : LaunchOutcome) (id : String) (w : World)
    (cfg : ProcessConfig) (hcfg : findConfig w.config id = some cfg)
    (hok : o.ok = true) (hty : cfg.type ≠ "bat") :
    (launchNow o id w).2.threads = w.threads := by
  rw [launchNow_ok o id w cfg hcfg hok]
  simp [hty]

theorem launchNow_ok_launchCount (o : LaunchOutcome) (id : String) (w : World)
    (cfg : ProcessConfig) (hcfg : findConfig w.config id = some cfg)
    (hok : o.ok = true) :
    launchCount (launchNow o id w).2.os = launchCount w.os + 1 := by
  rw [launchNow_ok o id w cfg hcfg hok]
  simp only [notifyStatus_os, cleanupProcess_launchCount, launchCount_append,
    launchCount_launchCalls]

theorem startProcess_accepted_now (o : LaunchOutcome) (id : String) (w : World)
    (cfg : ProcessConfig) (hcfg : findConfig w.config id = some cfg)
    (hdelay : cfg.delaySeconds ≤ 0)
    (hst : ∀ mp, mapFind w.m_procs id = some mp →
      mp.status ≠ ProcStatus.Running ∧ mp.status ≠ ProcStatus.Starting) :
    startProcess o id w =
      (true, (launchNow o id
        (notifyStatus id ProcStatus.Starting
          { w with
            m_procs := mapSet w.m_procs id
              { (mapIndex w.m_procs id).1 with
                guardStopped := false, status := ProcStatus.Starting } })).2) := by
  unfold startProcess
  rw [hcfg]
  have hd : ¬ cfg.delaySeconds > 0 := by omega
  cases hmp : mapFind w.m_procs id with
  | none => simp [mapIndex, hmp, hd, mapSet_mapSet]
  | some mp =>
    have h := hst mp hmp
    simp [mapIndex, hmp, hd, h.1, h.2]

theorem wake_guard_relaunch (id : String) (i : Nat) (o : LaunchOutcome)
    (snaps : List (Option (List PROCESSENTRY32W))) (w : World) (t : SleepingThread)
    (mp : ManagedProcess) (cfg : ProcessConfig)
    (ht : w.threads[i]? = some t) (hbody : t.body = ThreadBody.guardDelay id)
    (hdue : t.due w.now)
    (hmp : mapFind w.m_procs id = some mp) (hgs : mp.guardStopped = false)
    (hcfg : findConfig w.config id = some cfg) (hok : o.ok = true)
    (hw : w.m_hwnd ≠ 0) (hbat : cfg.type ≠ "bat") :
    ∃ w3, wake i o snaps w = some w3 ∧
      w3.posted = w.posted ++ [{ id := id, status := ProcStatus.Running }] ∧
      mapFind w3.m_procs id =
        some { id := mp.id, hProcess := o.hProcess, pid := o.dwProcessId,
               hWait := o.hWait, hJob := o.hJob, guardStopped := false,
               status := ProcStatus.Running } ∧
      launchCount w3.os = launchCount w.os + 1 ∧
      w3.threads = w.threads.eraseIdx i := by
  refine ⟨_, wake_due i o snaps w t ht hdue, ?_⟩
  rw [hbody]
  simp only [runBody]
  rw [guardDelayBody_launch o id { w with threads := w.threads.eraseIdx i } mp hmp hgs]
  refine ⟨?_, ?_, ?_, ?_⟩
  · rw [launchNow_ok_posted o id { w with threads := w.threads.eraseIdx i } cfg hcfg hok hw]
  · rw [launchNow_ok_entry o id { w with threads := w.threads.eraseIdx i } cfg hcfg hok]
    simp [mapIndex, hmp]
  · rw [launchNow_ok_launchCount o id { w with threads := w.threads.eraseIdx i } cfg hcfg hok]
  · rw [launchNow_ok_threads o id { w with threads := w.threads.eraseIdx i } cfg hcfg hok hbat]

/-! ## Frame lemmas: an operation on one id leaves the entries of the others alone -/

theorem launchNow_frame (o : LaunchOutcome) (id id2 : String) (w : World)
    (hne : id ≠ id2) :
    mapFind (launchNow o id w).2.m_procs id2 = mapFind w.m_procs id2 := by
  cases hcfg : findConfig w.config id with
  | none => simp [launchNow_no_definition o id w hcfg]
  | some cfg =>
    cases hok : o.ok with
    | false =>
      rw [launchNow_failed o id w cfg hcfg hok]
      simp [mapSet_mapIndex, mapFind_mapSet_ne _ _ _ _ hne]
    | true =>
      rw [launchNow_ok o id w cfg hcfg hok]
      simp [mapSet_mapIndex, mapFind_mapSet_ne _ _ _ _ hne]

theorem startProcess_frame (o : LaunchOutcome) (id id2 : String) (w : World)
    (hne : id ≠ id2) :
    mapFind (startProcess o id w).2.m_procs id2 = mapFind w.m_procs id2 := by
  unfold startProcess
  cases hcfg : findConfig w.config id with
  | none => simp
  | some cfg =>
    have hidx : mapFind (mapIndex w.m_procs id).2 id2 = mapFind w.m_procs id2 := by
      unfold mapIndex
      cases h : mapFind w.m_procs id with
      | none => simp [mapFind_mapSet_ne _ _ _ _ hne]
      | some mp => simp
    simp only []
    split
    · simpa using hidx
    · split
      · simp [mapFind_mapSet_ne _ _ _ _ hne, hidx]
      · rw [launchNow_frame o id id2 _ hne]
        simp [mapFind_mapSet_ne _ _ _ _ hne, hidx]

theorem stopProcess_frame (id id2 : String) (w : World) (hne : id ≠ id2) :
    mapFind (stopProcess id w).2.m_procs id2 = mapFind w.m_procs id2 := by
  cases hmp : mapFind w.m_procs id with
  | none => simp [stopProcess, hmp]
  | some mp =>
    by_cases hlive : mp.hProcess ≠ HANDLE.INVALID_HANDLE_VALUE ∧ mp.hProcess ≠ HANDLE.nullptr
    · rw [stopProcess_live id w mp hmp hlive.1 hlive.2]
      simp [mapFind_mapSet_ne _ _ _ _ hne]
    · have hno : mp.hProcess = HANDLE.INVALID_HANDLE_VALUE ∨ mp.hProcess = HANDLE.nullptr := by
        by_cases h : mp.hProcess = HANDLE.INVALID_HANDLE_VALUE
        · exact Or.inl h
        · by_cases h3 : mp.hProcess = HANDLE.nullptr
          · exact Or.inr h3
          · exact absurd ⟨h, h3⟩ hlive
      rw [stopProcess_idle id w mp hmp hno]
      simp [mapFind_mapSet_ne _ _ _ _ hne]

theorem onProcessExited_frame (id id2 : String) (pid exitCode : Nat) (w : World)
    (hne : id ≠ id2) :
    mapFind (onProcessExited id pid exitCode w).m_procs id2 = mapFind w.m_procs id2 := by
  unfold onProcessExited
  cases hmp : mapFind w.m_procs id with
  | none => simp
  | some mp =>
    simp only []
    split <;> simp [mapFind_mapSet_ne _ _ _ _ hne]

theorem startDelayBody_frame (o : LaunchOutcome) (id id2 : String) (w : World)
    (hne : id ≠ id2) :
    mapFind (startDelayBody o id w).m_procs id2 = mapFind w.m_procs id2 := by
  unfold startDelayBody
  cases hmp : mapFind w.m_procs id with
  | none => simp
  | some mp =>
    simp only []
    split
    · simp [mapFind_mapSet_ne _ _ _ _ hne]
    · exact launchNow_frame o id id2 w hne

theorem guardDelayBody_frame (o : LaunchOutcome) (id id2 : String) (w : World)
    (hne : id ≠ id2) :
    mapFind (guardDelayBody o id w).m_procs id2 = mapFind w.m_procs id2 := by
  unfold guardDelayBody
  cases hmp : mapFind w.m_procs id with
  | none => simp
  | some mp =>
    simp only []
    split
    · simp [mapFind_mapSet_ne _ _ _ _ hne]
    · exact launchNow_frame o id id2 w hne

theorem refreshChildPid_status (snaps : List (Option (List PROCESSENTRY32W)))
    (id id2 : String) (cmdPid : Nat) (w : World) :
    statusOf (refreshChildPid snaps id cmdPid w) id2 = statusOf w id2 := by
  unfold refreshChildPid
  simp only []
  split
  · rfl
  · cases hmp : mapFind w.m_procs id with
    | none => simp
    | some mp =>
      simp only []
      split
      · rfl
      · by_cases hne : id = id2
        · subst hne
          simp [statusOf, mapFind_mapSet_self, hmp]
        · simp [statusOf, mapFind_mapSet_ne _ _ _ _ hne]

theorem syncConfig_keeps (w : World) (id : String) (mp : ManagedProcess)
    (hmp : mapFind w.m_procs id = some mp) :
    mapFind (syncConfig w).m_procs id = some mp := by
  unfold syncConfig
  simp only []
  generalize w.config = procs
  generalize w.m_procs = m at hmp
  induction procs generalizing m with
  | nil => simpa using hmp
  | cons pc rest ih =>
    simp only [List.foldl_cons]
    apply ih
    cases h : mapFind m pc.id with
    | none =>
      have hne : pc.id ≠ id := by
        intro heq
        rw [heq, hmp] at h
        exact Option.noConfusion h
      simp [mapFind_mapSet_ne _ _ _ _ hne, hmp]
    | some v => simpa using hmp

/-- A step that does not act on `id` leaves the status of an existing entry of `id`
as it is. -/
theorem run_keeps_status (op : Op) (id : String) (w : World) (s : ProcStatus)
    (hs : statusOf w id = some s) (hq : ¬ op.actsOn id w) :
    statusOf (op.run w) id = some s := by
  cases op with
  | setMainWindow hwnd => simpa [Op.run, setMainWindow, statusOf] using hs
  | setConfig procs => simpa [Op.run, statusOf] using hs
  | syncConfig =>
    simp only [statusOf, Option.map_eq_some'] at hs
    obtain ⟨mp, hmp, hst⟩ := hs
    simp [Op.run, statusOf, syncConfig_keeps w id mp hmp, hst]
  | startProcess o id2 =>
    have hne : id2 ≠ id := fun h => hq (by simpa [Op.actsOn] using h)
    simpa [Op.run, statusOf, startProcess_frame o id2 id w hne] using hs
  | stopProcess id2 =>
    have hne : id2 ≠ id := fun h => hq (by simpa [Op.actsOn] using h)
    simpa [Op.run, statusOf, stopProcess_frame id2 id w hne] using hs
  | startAll os => exact absurd (by simp [Op.actsOn]) hq
  | stopAll => exact absurd (by simp [Op.actsOn]) hq
  | onProcessExited id2 pid exitCode =>
    have hne : id2 ≠ id := fun h => hq (by simpa [Op.actsOn] using h)
    simpa [Op.run, statusOf, onProcessExited_frame id2 id pid exitCode w hne] using hs
  | wake i o snaps =>
    simp only [Op.run, wake]
    cases ht : w.threads[i]? with
    | none => simpa using hs
    | some t =>
      simp only []
      by_cases hdue : t.due w.now
      · simp only [hdue, if_true, Option.getD_some]
        simp only [Op.actsOn, ht] at hq
        cases hb : t.body with
        | startDelay id2 =>
          have hne : id2 ≠ id := fun h => hq (by simpa [hb, ThreadBody.delaysFor] using h)
          simpa [runBody, statusOf, startDelayBody_frame o id2 id _ hne] using hs
        | guardDelay id2 =>
          have hne : id2 ≠ id := fun h => hq (by simpa [hb, ThreadBody.delaysFor] using h)
          simpa [runBody, statusOf, guardDelayBody_frame o id2 id _ hne] using hs
        | refreshChild id2 cmdPid =>
          simp only [runBody]
          rw [refreshChildPid_status]
          simpa [statusOf] using hs
      · simpa [hdue] using hs
  | tick ms => simpa [Op.run, tick, statusOf] using hs

/-- A sequence of steps none of which acts on `id` leaves the status of an existing
entry of `id` as it is. -/
theorem runOps_keeps_status (ops : List Op) (id : String) (w : World) (s : ProcStatus)
    (hs : statusOf w id = some s) (hq : quietFor id ops w) :
    statusOf (runOps ops w) id = some s := by
  induction ops generalizing w with
  | nil => simpa [runOps] using hs
  | cons op rest ih =>
    simp only [quietFor] at hq
    simp only [runOps]
    exact ih (op.run w) (run_keeps_status op id w s hs hq.1) hq.2

/-! ## Keys of the runtime table -/

theorem mem_mapKeys_iff (m : List (String × ManagedProcess)) (k : String) :
    k ∈ mapKeys m ↔ (mapFind m k).isSome = true := by
  induction m with
  | nil => simp [mapKeys, mapFind]
  | cons kv rest ih =>
    obtain ⟨k2, v⟩ := kv
    by_cases h : k2 = k
    · simp [mapKeys, mapFind, h]
    · have h2 : ¬ k = k2 := fun e => h e.symm
      simp only [mapKeys, List.map_cons, List.mem_cons, h2, false_or, mapFind, h, if_false]
      exact ih

theorem mapFind_mapSet_isSome (m : List (String × ManagedProcess)) (id k : String)
    (x : ManagedProcess) (h : (mapFind m k).isSome = true) :
    (mapFind (mapSet m id x) k).isSome = true := by
  by_cases hk : id = k
  · subst hk
    simp [mapFind_mapSet_self]
  · rw [mapFind_mapSet_ne _ _ _ _ hk]
    exact h

theorem mapFind_mapIndex_isSome (m : List (String × ManagedProcess)) (id k : String)
    (h : (mapFind m k).isSome = true) :
    (mapFind (mapIndex m id).2 k).isSome = true := by
  unfold mapIndex
  cases hf : mapFind m id with
  | none => exact mapFind_mapSet_isSome m id k _ h
  | some mp => exact h

/-- The fold of `syncConfig`, entry by entry. -/
theorem syncFold_find (procs : List ProcessConfig) (m : List (String × ManagedProcess))
    (k : String) :
    mapFind (procs.foldl
      (fun m pc =>
        match mapFind m pc.id with
        | none => mapSet m pc.id { id := pc.id, status := ProcStatus.Stopped }
        | some _ => m) m) k =
      match mapFind m k with
      | some mp => some mp
      | none =>
        if k ∈ procs.map (fun pc => pc.id) then
          some { id := k, status := ProcStatus.Stopped }
        else none := by
  induction procs generalizing m with
  | nil => cases h : mapFind m k <;> simp [h]
  | cons pc rest ih =>
    simp only [List.foldl_cons]
    rw [ih]
    cases hpc : mapFind m pc.id with
    | some v =>
      simp only []
      cases hk : mapFind m k with
      | some mp => rfl
      | none =>
        have hne : ¬ k = pc.id := by
          intro e
          rw [e, hpc] at hk
          exact Option.noConfusion hk
        simp [hne]
    | none =>
      simp only []
      by_cases e : pc.id = k
      · subst e
        simp [mapFind_mapSet_self, hpc]
      · have hne : ¬ k = pc.id := fun e2 => e e2.symm
        rw [mapFind_mapSet_ne _ _ _ _ e]
        cases hk : mapFind m k with
        | some mp => rfl
        | none => simp [hne]

theorem launchNow_keeps (o : LaunchOutcome) (id k : String) (w : World)
    (h : (mapFind w.m_procs k).isSome = true) :
    (mapFind (launchNow o id w).2.m_procs k).isSome = true := by
  cases hcfg : findConfig w.config id with
  | none => simpa [launchNow_no_definition o id w hcfg] using h
  | some cfg =>
    cases hok : o.ok with
    | false =>
      rw [launchNow_failed o id w cfg hcfg hok]
      simp only [notifyStatus_m_procs, mapSet_mapIndex]
      exact mapFind_mapSet_isSome _ _ _ _ h
    | true =>
      rw [launchNow_ok o id w cfg hcfg hok]
      simp only [notifyStatus_m_procs, mapSet_mapIndex]
      exact mapFind_mapSet_isSome _ _ _ _ h

theorem startProcess_keeps (o : LaunchOutcome) (id k : String) (w : World)
    (h : (mapFind w.m_procs k).isSome = true) :
    (mapFind (startProcess o id w).2.m_procs k).isSome = true := by
  unfold startProcess
  cases hcfg : findConfig w.config id with
  | none => simpa using h
  | some cfg =>
    simp only []
    split
    · exact mapFind_mapIndex_isSome _ _ _ h
    · split
      · simp only [notifyStatus_m_procs, mapSet_mapIndex]
        exact mapFind_mapSet_isSome _ _ _ _ h
      · apply launchNow_keeps
        simp only [notifyStatus_m_procs, mapSet_mapIndex]
        exact mapFind_mapSet_isSome _ _ _ _ h

theorem stopProcess_keeps (id k : String) (w : World)
    (h : (mapFind w.m_procs k).isSome = true) :
    (mapFind (stopProcess id w).2.m_procs k).isSome = true := by
  cases hmp : mapFind w.m_procs id with
  | none => simpa [stopProcess, hmp] using h
  | some mp =>
    by_cases hlive : mp.hProcess ≠ HANDLE.INVALID_HANDLE_VALUE ∧ mp.hProcess ≠ HANDLE.nullptr
    · rw [stopProcess_live id w mp hmp hlive.1 hlive.2]
      exact mapFind_mapSet_isSome _ _ _ _ h
    · have hno : mp.hProcess = HANDLE.INVALID_HANDLE_VALUE ∨ mp.hProcess = HANDLE.nullptr := by
        by_cases h1 : mp.hProcess = HANDLE.INVALID_HANDLE_VALUE
        · exact Or.inl h1
        · by_cases h3 : mp.hProcess = HANDLE.nullptr
          · exact Or.inr h3
          · exact absurd ⟨h1, h3⟩ hlive
      rw [stopProcess_idle id w mp hmp hno]
      simp only [notifyStatus_m_procs]
      exact mapFind_mapSet_isSome _ _ _ _ h

theorem onProcessExited_keeps (id k : String) (pid exitCode : Nat) (w : World)
    (h : (mapFind w.m_procs k).isSome = true) :
    (mapFind (onProcessExited id pid exitCode w).m_procs k).isSome = true := by
  unfold onProcessExited
  cases hmp : mapFind w.m_procs id with
  | none => simpa using h
  | some mp =>
    simp only []
    split
    · simp only [notifyStatus_m_procs]
      exact mapFind_mapSet_isSome _ _ _ _ h
    · simp only [notifyStatus_m_procs]
      exact mapFind_mapSet_isSome _ _ _ _ h

theorem startDelayBody_keeps (o : LaunchOutcome) (id k : String) (w : World)
    (h : (mapFind w.m_procs k).isSome = true) :
    (mapFind (startDelayBody o id w).m_procs k).isSome = true := by
  unfold startDelayBody
  cases hmp : mapFind w.m_procs id with
  | none => simpa using h
  | some mp =>
    simp only []
    split
    · exact mapFind_mapSet_isSome _ _ _ _ h
    · exact launchNow_keeps o id k w h

theorem guardDelayBody_keeps (o : LaunchOutcome) (id k : String) (w : World)
    (h : (mapFind w.m_procs k).isSome = true) :
    (mapFind (guardDelayBody o id w).m_procs k).isSome = true := by
  unfold guardDelayBody
  cases hmp : mapFind w.m_procs id with
  | none => simpa using h
  | some mp =>
    simp only []
    split
    · simp only [notifyStatus_m_procs]
      exact mapFind_mapSet_isSome _ _ _ _ h
    · exact launchNow_keeps o id k w h

theorem refreshChildPid_keeps (snaps : List (Option (List PROCESSENTRY32W)))
    (id k : String) (cmdPid : Nat) (w : World)
    (h : (mapFind w.m_procs k).isSome = true) :
    (mapFind (refreshChildPid snaps id cmdPid w).m_procs k).isSome = true := by
  unfold refreshChildPid
  simp only []
  split
  · exact h
  · cases hmp : mapFind w.m_procs id with
    | none => simpa using h
    | some mp =>
      simp only []
      split
      · exact h
      · simp only [notifyStatus_m_procs]
        exact mapFind_mapSet_isSome _ _ _ _ h

theorem syncConfig_keeps_key (k : String) (w : World)
    (h : (mapFind w.m_procs k).isSome = true) :
    (mapFind (syncConfig w).m_procs k).isSome = true := by
  cases hk : mapFind w.m_procs k with
  | none => rw [hk] at h; exact absurd h (by simp)
  | some mp => rw [syncConfig_keeps w k mp hk]; rfl

theorem stopFold_keeps (ids : List String) (k : String) (w : World)
    (h : (mapFind w.m_procs k).isSome = true) :
    (mapFind (ids.foldl (fun acc id => (stopProcess id acc).2) w).m_procs k).isSome = true := by
  induction ids generalizing w with
  | nil => exact h
  | cons id rest ih =>
    simp only [List.foldl_cons]
    exact ih _ (stopProcess_keeps id k w h)

theorem startFold_keeps (os : Nat → LaunchOutcome) (ids : List String) (k : String)
    (acc : Nat × World) (h : (mapFind acc.2.m_procs k).isSome = true) :
    (mapFind (ids.foldl
      (fun (acc : Nat × World) id => (acc.1 + 1, (startProcess (os acc.1) id acc.2).2))
      acc).2.m_procs k).isSome = true := by
  induction ids generalizing acc with
  | nil => exact h
  | cons id rest ih =>
    simp only [List.foldl_cons]
    exact ih _ (startProcess_keeps (os acc.1) id k acc.2 h)

theorem run_keeps_key (op : Op) (k : String) (w : World)
    (h : (mapFind w.m_procs k).isSome = true) :
    (mapFind (op.run w).m_procs k).isSome = true := by
  cases op with
  | setMainWindow hwnd => exact h
  | setConfig procs => exact h
  | syncConfig => exact syncConfig_keeps_key k w h
  | startProcess o id => exact startProcess_keeps o id k w h
  | stopProcess id => exact stopProcess_keeps id k w h
  | startAll os =>
    simp only [Op.run, startAll]
    exact startFold_keeps os _ k (0, syncConfig w) (syncConfig_keeps_key k w h)
  | stopAll =>
    simp only [Op.run, stopAll]
    exact stopFold_keeps _ k w h
  | onProcessExited id pid exitCode => exact onProcessExited_keeps id k pid exitCode w h
  | wake i o snaps =>
    simp only [Op.run, wake]
    cases ht : w.threads[i]? with
    | none => simpa using h
    | some t =>
      simp only []
      by_cases hdue : t.due w.now
      · simp only [hdue, if_true, Option.getD_some]
        cases hb : t.body with
        | startDelay id2 => exact startDelayBody_keeps o id2 k _ h
        | guardDelay id2 => exact guardDelayBody_keeps o id2 k _ h
        | refreshChild id2 cmdPid => exact refreshChildPid_keeps snaps id2 k cmdPid _ h
      · simpa [hdue] using h
  | tick ms => exact h

theorem runOps_keeps_key (ops : List Op) (k : String) (w : World)
    (h : (mapFind w.m_procs k).isSome = true) :
    (mapFind (runOps ops w).m_procs k).isSome = true := by
  induction ops generalizing w with
  | nil => exact h
  | cons op rest ih => exact ih _ (run_keeps_key op k w h)

/-! ## Lemmas on `stopProcess` and `stopAll` -/

theorem stopProcess_entry (id : String) (w : World) (mp : ManagedProcess)
    (hmp : mapFind w.m_procs id = some mp) :
    mapFind (stopProcess id w).2.m_procs id = some (stoppedEntry mp) := by
  by_cases hlive : mp.hProcess ≠ HANDLE.INVALID_HANDLE_VALUE ∧ mp.hProcess ≠ HANDLE.nullptr
  · rw [stopProcess_live id w mp hmp hlive.1 hlive.2]
    simp [mapFind_mapSet_self, stoppedEntry, ManagedProcess.live, hlive.1, hlive.2]
  · have hno : mp.hProcess = HANDLE.INVALID_HANDLE_VALUE ∨ mp.hProcess = HANDLE.nullptr := by
      by_cases h1 : mp.hProcess = HANDLE.INVALID_HANDLE_VALUE
      · exact Or.inl h1
      · by_cases h3 : mp.hProcess = HANDLE.nullptr
        · exact Or.inr h3
        · exact absurd ⟨h1, h3⟩ hlive
    rw [stopProcess_idle id w mp hmp hno]
    have hl : ¬ mp.live := hlive
    simp [mapFind_mapSet_self, stoppedEntry, hl]

theorem stoppedEntry_idem (mp : ManagedProcess) :
    stoppedEntry (stoppedEntry mp) = stoppedEntry mp := by
  by_cases hl : mp.live
  · have hl2 : (stoppedEntry mp).live := hl
    simp [stoppedEntry, hl]
    intro h
    exact absurd hl h
  · have hl2 : ¬ (stoppedEntry mp).live := hl
    simp only [stoppedEntry, hl, if_false] at hl2 ⊢
    simp only [hl2, if_false]

theorem stopFold_entry (ids : List String) (w : World) (k : String) (mp : ManagedProcess)
    (hmp : mapFind w.m_procs k = some mp) :
    mapFind (ids.foldl (fun acc id => (stopProcess id acc).2) w).m_procs k =
      some (if k ∈ ids then stoppedEntry mp else mp) := by
  induction ids generalizing w mp with
  | nil => simpa using hmp
  | cons id rest ih =>
    simp only [List.foldl_cons]
    by_cases hk : id = k
    · subst hk
      rw [ih _ (stoppedEntry mp) (stopProcess_entry id w mp hmp)]
      by_cases hr : id ∈ rest
      · simp [hr, stoppedEntry_idem]
      · simp [hr]
    · have hk2 : ¬ k = id := fun e => hk e.symm
      rw [ih _ mp (by rw [stopProcess_frame id k w hk]; exact hmp)]
      simp [hk2]

/-! ## Lemmas on `startProcess` and `startAll` -/

theorem mapFind_mapIndex_self (m : List (String × ManagedProcess)) (id : String) :
    mapFind (mapIndex m id).2 id = some (mapIndex m id).1 := by
  unfold mapIndex
  cases h : mapFind m id with
  | none => simp [mapFind_mapSet_self]
  | some mp => simp [h]

theorem mapIndex_fst_congr (m m2 : List (String × ManagedProcess)) (id : String)
    (h : mapFind m id = mapFind m2 id) : (mapIndex m id).1 = (mapIndex m2 id).1 := by
  rw [mapIndex_fst, mapIndex_fst, h]

@[simp] theorem startProcess_config (o : LaunchOutcome) (id : String) (w : World) :
    (startProcess o id w).2.config = w.config := by
  unfold startProcess
  cases hcfg : findConfig w.config id with
  | none => rfl
  | some cfg =>
    simp only []
    split
    · rfl
    · split
      · simp
      · simp

theorem launchNow_entry_local (o : LaunchOutcome) (id : String) (w w2 : World)
    (hc : w.config = w2.config) (he : mapFind w.m_procs id = mapFind w2.m_procs id) :
    mapFind (launchNow o id w).2.m_procs id = mapFind (launchNow o id w2).2.m_procs id := by
  have hidx := mapIndex_fst_congr w.m_procs w2.m_procs id he
  cases hcfg : findConfig w.config id with
  | none =>
    rw [launchNow_no_definition o id w hcfg,
      launchNow_no_definition o id w2 (by rw [← hc]; exact hcfg)]
    exact he
  | some cfg =>
    have hcfg2 : findConfig w2.config id = some cfg := by rw [← hc]; exact hcfg
    cases hok : o.ok with
    | false =>
      rw [launchNow_failed o id w cfg hcfg hok, launchNow_failed o id w2 cfg hcfg2 hok]
      simp only [notifyStatus_m_procs, mapSet_mapIndex, mapFind_mapSet_self, hidx]
    | true =>
      rw [launchNow_ok_entry o id w cfg hcfg hok, launchNow_ok_entry o id w2 cfg hcfg2 hok,
        hidx]

theorem startProcess_entry_local (o : LaunchOutcome) (id : String) (w w2 : World)
    (hc : w.config = w2.config) (he : mapFind w.m_procs id = mapFind w2.m_procs id) :
    mapFind (startProcess o id w).2.m_procs id =
      mapFind (startProcess o id w2).2.m_procs id := by
  have hidx := mapIndex_fst_congr w.m_procs w2.m_procs id he
  unfold startProcess
  rw [← hc]
  cases hcfg : findConfig w.config id with
  | none => exact he
  | some cfg =>
    simp only []
    rw [← hidx]
    split
    · simp only [mapFind_mapIndex_self, hidx]
    · split
      · simp only [notifyStatus_m_procs, mapSet_mapIndex, mapFind_mapSet_self]
      · apply launchNow_entry_local
        · simp [hc]
        · simp only [notifyStatus_m_procs, mapSet_mapIndex, mapFind_mapSet_self]

theorem launchNow_posted (o : LaunchOutcome) (id : String) (w : World) :
    ∃ evs, (launchNow o id w).2.posted = w.posted ++ evs ∧ ∀ e ∈ evs, e.id = id := by
  cases hcfg : findConfig w.config id with
  | none => exact ⟨[], by simp [launchNow_no_definition o id w hcfg], by simp⟩
  | some cfg =>
    by_cases hw : w.m_hwnd = 0
    · cases hok : o.ok with
      | false =>
        exact ⟨[], by simp [launchNow_failed o id w cfg hcfg hok, notifyStatus, hw], by simp⟩
      | true =>
        exact ⟨[], by simp [launchNow_ok o id w cfg hcfg hok, notifyStatus, hw], by simp⟩
    · cases hok : o.ok with
      | false =>
        exact ⟨[{ id := id, status := ProcStatus.Failed }],
          by simp [launchNow_failed o id w cfg hcfg hok, notifyStatus, hw], by simp⟩
      | true =>
        exact ⟨[{ id := id, status := ProcStatus.Running }],
          by simp [launchNow_ok o id w cfg hcfg hok, notifyStatus, hw], by simp⟩

theorem startProcess_posted (o : LaunchOutcome) (id : String) (w : World) :
    ∃ evs, (startProcess o id w).2.posted = w.posted ++ evs ∧ ∀ e ∈ evs, e.id = id := by
  unfold startProcess
  cases hcfg : findConfig w.config id with
  | none => exact ⟨[], by simp, by simp⟩
  | some cfg =>
    simp only []
    split
    · exact ⟨[], by simp, by simp⟩
    · have hS : ∀ m : List (String × ManagedProcess), ∃ evs,
          (notifyStatus id ProcStatus.Starting { w with m_procs := m }).posted =
            w.posted ++ evs ∧ ∀ e ∈ evs, e.id = id := by
        intro m
        by_cases hw : w.m_hwnd = 0
        · exact ⟨[], by simp [notifyStatus, hw], by simp⟩
        · exact ⟨[{ id := id, status := ProcStatus.Starting }],
            by simp [notifyStatus, hw], by simp⟩
      split
      · obtain ⟨evs, h1, h2⟩ := hS (mapSet (mapIndex w.m_procs id).2 id
          { (mapIndex w.m_procs id).1 with
            guardStopped := false, status := ProcStatus.Starting })
        exact ⟨evs, by simpa using h1, h2⟩
      · obtain ⟨evs, h1, h2⟩ := hS (mapSet (mapIndex w.m_procs id).2 id
          { (mapIndex w.m_procs id).1 with
            guardStopped := false, status := ProcStatus.Starting })
        obtain ⟨evs2, h3, h4⟩ := launchNow_posted o id
          (notifyStatus id ProcStatus.Starting
            { w with
              m_procs := mapSet (mapIndex w.m_procs id).2 id
                { (mapIndex w.m_procs id).1 with
                  guardStopped := false, status := ProcStatus.Starting } })
        refine ⟨evs ++ evs2, ?_, ?_⟩
        · simp only []
          rw [h3, h1, List.append_assoc]
        · intro e he
          rcases List.mem_append.mp he with h | h
          · exact h2 e h
          · exact h4 e h

theorem startAll_eq_runOps (os : Nat → LaunchOutcome) (w : World) :
    startAll os w = runOps (startOps os 0 (enabledIds w.config)) (syncConfig w) := by
  have hfold : ∀ (ids : List String) (n : Nat) (w0 : World),
      (ids.foldl
        (fun (acc : Nat × World) id => (acc.1 + 1, (startProcess (os acc.1) id acc.2).2))
        (n, w0)).2 = runOps (startOps os n ids) w0 := by
    intro ids
    induction ids with
    | nil => intro n w0; rfl
    | cons id rest ih =>
      intro n w0
      simp only [List.foldl_cons, startOps, runOps, Op.run]
      exact ih (n + 1) _
  unfold startAll
  exact hfold _ 0 _

theorem startOps_config (os : Nat → LaunchOutcome) (ids : List String) (n : Nat)
    (w : World) : (runOps (startOps os n ids) w).config = w.config := by
  induction ids generalizing n w with
  | nil => rfl
  | cons id rest ih =>
    simp only [startOps, runOps, Op.run]
    rw [ih]
    simp

theorem startOps_frame (os : Nat → LaunchOutcome) (ids : List String) (n : Nat)
    (w : World) (k : String) (hk : k ∉ ids) :
    mapFind (runOps (startOps os n ids) w).m_procs k = mapFind w.m_procs k := by
  induction ids generalizing n w with
  | nil => rfl
  | cons id rest ih =>
    simp only [startOps, runOps, Op.run]
    have h1 : id ≠ k := fun e => hk (by simp [e])
    have h2 : k ∉ rest := fun e => hk (by simp [e])
    rw [ih _ _ h2, startProcess_frame _ _ _ _ h1]

theorem startOps_posted (os : Nat → LaunchOutcome) (ids : List String) (n : Nat)
    (w : World) :
    ∃ evs, (runOps (startOps os n ids) w).posted = w.posted ++ evs ∧
      ∀ e ∈ evs, e.id ∈ ids := by
  induction ids generalizing n w with
  | nil => exact ⟨[], by simp [startOps, runOps], by simp⟩
  | cons id rest ih =>
    simp only [startOps, runOps, Op.run]
    obtain ⟨evs1, h1, h2⟩ := startProcess_posted (os n) id w
    obtain ⟨evs2, h3, h4⟩ := ih (n + 1) (startProcess (os n) id w).2
    refine ⟨evs1 ++ evs2, ?_, ?_⟩
    · rw [h3, h1, List.append_assoc]
    · intro e he
      rcases List.mem_append.mp he with h | h
      · simp [h2 e h]
      · simp [h4 e h]

theorem startOps_entry (os : Nat → LaunchOutcome) (pre post : List String) (id : String)
    (n : Nat) (w : World) (hnd : (pre ++ id :: post).Nodup) :
    mapFind (runOps (startOps os n (pre ++ id :: post)) w).m_procs id =
      mapFind (startProcess (os (n + pre.length)) id w).2.m_procs id := by
  induction pre generalizing n w with
  | nil =>
    simp only [List.nil_append, startOps, runOps, Op.run, List.length_nil, Nat.add_zero]
    have hnot : id ∉ post := by
      simp only [List.nil_append, List.nodup_cons] at hnd
      exact hnd.1
    exact startOps_frame os post (n + 1) _ id hnot
  | cons a rest ih =>
    simp only [List.cons_append, startOps, runOps, Op.run, List.length_cons]
    simp only [List.cons_append, List.nodup_cons] at hnd
    have hne : a ≠ id := fun e => hnd.1 (by simp [e])
    have hih := ih (n + 1) (startProcess (os n) a w).2 hnd.2
    have hn : n + 1 + rest.length = n + (rest.length + 1) := by omega
    rw [hn] at hih
    show mapFind (runOps (startOps os (n + 1) (rest ++ id :: post))
      (startProcess (os n) a w).2).m_procs id = _
    rw [hih]
    apply startProcess_entry_local
    · simp
    · exact startProcess_frame (os n) a id w hne

/-! ## Lemmas on the child-PID probe -/

theorem scanSnapshot_found (cmdPid c : Nat) (snap : List PROCESSENTRY32W)
    (h : scanSnapshot cmdPid snap = some c) :
    ∃ pe ∈ snap, pe.th32ProcessID = c ∧ pe.th32ParentProcessID = cmdPid ∧ c ≠ cmdPid ∧
      pe.szExeFile ≠ "conhost.exe" ∧ pe.szExeFile ≠ "WerFault.exe" := by
  induction snap with
  | nil => simp [scanSnapshot] at h
  | cons pe rest ih =>
    unfold scanSnapshot at h
    by_cases h1 : pe.th32ParentProcessID ≠ cmdPid
    · rw [if_pos h1] at h
      obtain ⟨pe2, hm, hr⟩ := ih h
      exact ⟨pe2, List.mem_cons_of_mem _ hm, hr⟩
    · rw [if_neg h1] at h
      by_cases h2 : pe.th32ProcessID = cmdPid
      · rw [if_pos h2] at h
        obtain ⟨pe2, hm, hr⟩ := ih h
        exact ⟨pe2, List.mem_cons_of_mem _ hm, hr⟩
      · rw [if_neg h2] at h
        by_cases h3 : pe.szExeFile = "conhost.exe" ∨ pe.szExeFile = "WerFault.exe"
        · rw [if_pos h3] at h
          obtain ⟨pe2, hm, hr⟩ := ih h
          exact ⟨pe2, List.mem_cons_of_mem _ hm, hr⟩
        · rw [if_neg h3] at h
          have hc : pe.th32ProcessID = c := Option.some.inj h
          refine ⟨pe, List.mem_cons_self _ _, hc, ?_, ?_, ?_, ?_⟩
          · exact not_not.mp h1
          · rw [← hc]; exact h2
          · exact fun e => h3 (Or.inl e)
          · exact fun e => h3 (Or.inr e)

theorem probeChild_found (cmdPid : Nat) (n : Nat)
    (snaps : List (Option (List PROCESSENTRY32W)))
    (h : probeChild cmdPid n snaps ≠ 0) :
    ∃ (i : Nat) (snap : List PROCESSENTRY32W), i < n ∧ snaps[i]? = some (some snap) ∧
      scanSnapshot cmdPid snap = some (probeChild cmdPid n snaps) := by
  induction n generalizing snaps with
  | zero => simp [probeChild] at h
  | succ n ih =>
    unfold probeChild at h ⊢
    cases snaps with
    | nil =>
      simp only [List.head?_nil, List.tail_nil, if_true] at h ⊢
      obtain ⟨i, snap, _, hs, _⟩ := ih [] h
      simp at hs
    | cons s rest =>
      simp only [List.head?_cons, List.tail_cons] at h ⊢
      cases s with
      | none =>
        simp only [if_true] at h ⊢
        obtain ⟨i, snap, hi, hs, hc⟩ := ih rest h
        exact ⟨i + 1, snap, by omega, by simpa using hs, hc⟩
      | some snap =>
        simp only [] at h ⊢
        cases hsc : scanSnapshot cmdPid snap with
        | none =>
          simp only [hsc, Option.getD_none, if_true] at h ⊢
          obtain ⟨i, snap2, hi, hs, hc⟩ := ih rest h
          exact ⟨i + 1, snap2, by omega, by simpa using hs, hc⟩
        | some c =>
          simp only [hsc, Option.getD_some] at h ⊢
          by_cases hc0 : c = 0
          · simp only [hc0, if_true] at h ⊢
            obtain ⟨i, snap2, hi, hs, hc⟩ := ih rest h
            exact ⟨i + 1, snap2, by omega, by simpa using hs, hc⟩
          · simp only [hc0, if_false]
            exact ⟨0, snap, by omega, by simp, hsc⟩

/-! ## The ownership invariant of job handles -/

theorem mapFind_mem (m : List (String × ManagedProcess)) (id : String) (mp : ManagedProcess)
    (h : mapFind m id = some mp) : (id, mp) ∈ m := by
  induction m with
  | nil => simp [mapFind] at h
  | cons kv rest ih =>
    obtain ⟨k, v⟩ := kv
    by_cases hk : k = id
    · simp only [mapFind, hk, if_true, Option.some.injEq] at h
      simp [hk, h]
    · simp only [mapFind, hk, if_false] at h
      exact List.mem_cons_of_mem _ (ih h)

theorem mem_mapSet (m : List (String × ManagedProcess)) (id : String) (x : ManagedProcess)
    (kv : String × ManagedProcess) (h : kv ∈ mapSet m id x) : kv = (id, x) ∨ kv ∈ m := by
  induction m with
  | nil => simpa [mapSet] using h
  | cons kv2 rest ih =>
    obtain ⟨k, v⟩ := kv2
    by_cases hk : k = id
    · simp only [mapSet, hk, if_true, List.mem_cons] at h
      rcases h with h | h
      · exact Or.inl h
      · exact Or.inr (List.mem_cons_of_mem _ h)
    · by_cases hlt : id < k
      · simp only [mapSet, hk, if_false, hlt, if_true, List.mem_cons] at h
        rcases h with h | h | h
        · exact Or.inl h
        · exact Or.inr (by simp [h])
        · exact Or.inr (List.mem_cons_of_mem _ h)
      · simp only [mapSet, hk, if_false, hlt, List.mem_cons] at h
        rcases h with h | h
        · exact Or.inr (by simp [h])
        · rcases ih h with h2 | h2
          · exact Or.inl h2
          · exact Or.inr (List.mem_cons_of_mem _ h2)

theorem mapFind_none_of_lt (m : List (String × ManagedProcess)) (id : String)
    (h : ∀ kv ∈ m, id < kv.1) : mapFind m id = none := by
  induction m with
  | nil => rfl
  | cons kv rest ih =>
    obtain ⟨k, v⟩ := kv
    have hk : id < k := h (k, v) (List.mem_cons_self _ _)
    have hne : ¬ k = id := fun e => absurd (e ▸ hk) (lt_irrefl _)
    simp only [mapFind, hne, if_false]
    exact ih (fun kv hkv => h kv (List.mem_cons_of_mem _ hkv))

theorem keysAscending_mapSet (m : List (String × ManagedProcess)) (id : String)
    (x : ManagedProcess) (h : keysAscending m) : keysAscending (mapSet m id x) := by
  unfold keysAscending at h ⊢
  induction m with
  | nil => simp [mapSet]
  | cons kv rest ih =>
    obtain ⟨k, v⟩ := kv
    rw [List.pairwise_cons] at h
    by_cases hk : k = id
    · simp only [mapSet, hk, if_true]
      rw [List.pairwise_cons]
      exact ⟨fun kv hkv => hk ▸ h.1 kv hkv, h.2⟩
    · by_cases hlt : id < k
      · simp only [mapSet, hk, if_false, hlt, if_true]
        rw [List.pairwise_cons, List.pairwise_cons]
        refine ⟨?_, h.1, h.2⟩
        intro kv hkv
        rcases List.mem_cons.mp hkv with e | e
        · rw [e]; exact hlt
        · exact lt_trans hlt (h.1 kv e)
      · simp only [mapSet, hk, if_false, hlt]
        rw [List.pairwise_cons]
        refine ⟨?_, ih h.2⟩
        intro kv hkv
        rcases mem_mapSet rest id x kv hkv with e | e
        · rw [e]
          rcases lt_or_gt_of_ne hk with h3 | h3
          · exact h3
          · exact absurd h3 hlt
        · exact h.1 kv e

theorem heldCount_mapSet (m : List (String × ManagedProcess)) (id : String)
    (x : ManagedProcess) (h : HANDLE) (hs : keysAscending m) :
    heldCount h (mapSet m id x) + heldAt h (mapFind m id) =
      heldCount h m + (if x.hJob = h then 1 else 0) := by
  unfold keysAscending at hs
  induction m with
  | nil => simp [mapSet, mapFind, heldCount, heldAt, List.countP_cons]
  | cons kv rest ih =>
    obtain ⟨k, v⟩ := kv
    rw [List.pairwise_cons] at hs
    by_cases hk : k = id
    · simp only [mapSet, hk, if_true, mapFind, heldAt, heldCount, List.countP_cons]
      by_cases h1 : x.hJob = h <;> by_cases h2 : v.hJob = h <;> simp [h1, h2]
    · by_cases hlt : id < k
      · have hnone : mapFind rest id = none :=
          mapFind_none_of_lt rest id (fun kv hkv => lt_trans hlt (hs.1 kv hkv))
        simp only [mapSet, hk, if_false, hlt, if_true, mapFind, hnone, heldAt, heldCount,
          List.countP_cons]
        by_cases h1 : x.hJob = h <;> by_cases h2 : v.hJob = h <;> simp [h1, h2]
      · have hih := ih hs.2
        simp only [mapSet, hk, if_false, hlt, mapFind, heldCount, List.countP_cons] at hih ⊢
        by_cases h2 : v.hJob = h <;> simp [h2] at hih ⊢ <;> omega

theorem closeCount_append (h : HANDLE) (a b : List OsCall) :
    closeCount h (a ++ b) = closeCount h a + closeCount h b := by
  simp [closeCount]

theorem jobCreateCount_append (h : HANDLE) (a b : List OsCall) :
    jobCreateCount h (a ++ b) = jobCreateCount h a + jobCreateCount h b := by
  simp [jobCreateCount]

theorem cleanupProcess_snd (mp : ManagedProcess) (os : List OsCall) :
    (cleanupProcess mp os).2 = os ++ cleanupCalls mp := by
  unfold cleanupProcess cleanupCalls
  by_cases h1 : mp.hWait = HANDLE.nullptr <;> by_cases h2 : mp.hJob = HANDLE.nullptr <;>
    by_cases h3 : mp.hProcess = HANDLE.INVALID_HANDLE_VALUE <;>
    by_cases h4 : mp.hProcess = HANDLE.nullptr <;> simp [h1, h2, h3, h4]

theorem closeCount_closeJob (h j : HANDLE) (hn : h ≠ HANDLE.nullptr) :
    closeCount h (if j ≠ HANDLE.nullptr then [OsCall.CloseHandle j] else []) =
      if j = h then 1 else 0 := by
  by_cases h2 : j = HANDLE.nullptr
  · have hne : ¬ j = h := fun e => hn (e ▸ h2)
    rw [if_neg (not_not.mpr h2), if_neg hne]
    rfl
  · rw [if_pos h2]
    by_cases h5 : j = h
    · simp [h5, closeCount, OsCall.closes]
    · simp [h5, closeCount, OsCall.closes]

theorem closeCount_cleanupCalls (h : HANDLE) (mp : ManagedProcess)
    (hn : h ≠ HANDLE.nullptr) (hp : mp.hProcess ≠ h) :
    closeCount h (cleanupCalls mp) = if mp.hJob = h then 1 else 0 := by
  unfold cleanupCalls
  rw [closeCount_append, closeCount_append, closeCount_closeJob h mp.hJob hn]
  have h1 : closeCount h
      (if mp.hWait ≠ HANDLE.nullptr then [OsCall.UnregisterWaitEx mp.hWait] else []) = 0 := by
    split <;> simp [closeCount, OsCall.closes]
  have h3 : closeCount h
      (if mp.hProcess ≠ HANDLE.INVALID_HANDLE_VALUE ∧ mp.hProcess ≠ HANDLE.nullptr then
        [OsCall.CloseHandle mp.hProcess] else []) = 0 := by
    split <;> simp [closeCount, OsCall.closes, hp]
  rw [h1, h3]
  omega

theorem jobCreateCount_cleanupCalls (h : HANDLE) (mp : ManagedProcess) :
    jobCreateCount h (cleanupCalls mp) = 0 := by
  unfold cleanupCalls jobCreateCount
  by_cases h1 : mp.hWait = HANDLE.nullptr <;> by_cases h2 : mp.hJob = HANDLE.nullptr <;>
    by_cases h6 : mp.hProcess ≠ HANDLE.INVALID_HANDLE_VALUE ∧ mp.hProcess ≠ HANDLE.nullptr <;>
    simp [h1, h2, h6, OsCall.createsJob, List.countP_cons, List.countP_append]

theorem jobCreateCount_closeJob (h j : HANDLE) : jobCreateCount h (closeJob j) = 0 := by
  unfold closeJob
  split <;> simp [jobCreateCount, OsCall.createsJob]

theorem closeCount_launchCalls (h : HANDLE) (o : LaunchOutcome) (cfg : ProcessConfig)
    (ht : o.hThread ≠ h) : closeCount h (launchCalls o cfg) = 0 := by
  unfold launchCalls
  by_cases hj : o.hJob = HANDLE.nullptr <;>
    simp [hj, closeCount, OsCall.closes, List.countP_cons, ht]

theorem jobCreateCount_assign (h j p : HANDLE) (hn : h ≠ HANDLE.nullptr) :
    jobCreateCount h
      (if j ≠ HANDLE.nullptr then [OsCall.AssignProcessToJobObject j p] else []) =
      if j = h then 1 else 0 := by
  by_cases h2 : j = HANDLE.nullptr
  · have hne : ¬ j = h := fun e => hn (e ▸ h2)
    rw [if_neg (not_not.mpr h2), if_neg hne]
    rfl
  · rw [if_pos h2]
    by_cases h5 : j = h
    · simp [h5, jobCreateCount, OsCall.createsJob]
    · simp [h5, jobCreateCount, OsCall.createsJob]

theorem jobCreateCount_launchCalls (h : HANDLE) (o : LaunchOutcome) (cfg : ProcessConfig)
    (hn : h ≠ HANDLE.nullptr) :
    jobCreateCount h (launchCalls o cfg) = if o.hJob = h then 1 else 0 := by
  unfold launchCalls
  rw [jobCreateCount_append, jobCreateCount_append, jobCreateCount_assign h _ _ hn]
  simp [jobCreateCount, OsCall.createsJob, List.countP_cons]

/-- The invariant survives an assignment to one entry together with an extension of
the trace, when the new entry has no job-typed process handle and the extension
balances the job handle that goes out against the one that comes in. -/
theorem bal_update (J : HANDLE → Prop) (w w2 : World) (id : String) (x : ManagedProcess)
    (extra : List OsCall)
    (hm : w2.m_procs = mapSet w.m_procs id x) (ho : w2.os = w.os ++ extra)
    (hb : JobsBalanced J w) (hx : ¬ J x.hProcess)
    (hloc : ∀ h, J h → jobCreateCount h extra + heldAt h (mapFind w.m_procs id) =
      closeCount h extra + (if x.hJob = h then 1 else 0)) :
    JobsBalanced J w2 := by
  obtain ⟨hs, hp, hbal⟩ := hb
  refine ⟨?_, ?_, ?_⟩
  · rw [hm]; exact keysAscending_mapSet _ _ _ hs
  · intro kv hkv
    rw [hm] at hkv
    rcases mem_mapSet _ _ _ _ hkv with e | e
    · rw [e]; exact hx
    · exact hp kv e
  · intro h hJ
    rw [hm, ho, jobCreateCount_append, closeCount_append]
    have h1 := hbal h hJ
    have h2 := hloc h hJ
    have h3 := heldCount_mapSet w.m_procs id x h hs
    omega

theorem bal_same (J : HANDLE → Prop) (w w2 : World)
    (hm : w2.m_procs = w.m_procs) (ho : w2.os = w.os) (hb : JobsBalanced J w) :
    JobsBalanced J w2 := by
  unfold JobsBalanced at hb ⊢
  rw [hm, ho]
  exact hb

theorem bal_entry_process (J : HANDLE → Prop) (w : World) (id : String)
    (mp : ManagedProcess) (hb : JobsBalanced J w) (hmp : mapFind w.m_procs id = some mp) :
    ¬ J mp.hProcess :=
  hb.2.1 (id, mp) (mapFind_mem _ _ _ hmp)

theorem bal_mapIndex_process (J : HANDLE → Prop) (w : World) (id : String)
    (hinv : ¬ J HANDLE.INVALID_HANDLE_VALUE) (hb : JobsBalanced J w) :
    ¬ J (mapIndex w.m_procs id).1.hProcess := by
  rw [mapIndex_fst]
  cases hmp : mapFind w.m_procs id with
  | none => exact hinv
  | some mp => exact bal_entry_process J w id mp hb hmp

theorem heldAt_mapIndex (h : HANDLE) (m : List (String × ManagedProcess)) (id : String)
    (hn : h ≠ HANDLE.nullptr) :
    heldAt h (mapFind m id) = if (mapIndex m id).1.hJob = h then 1 else 0 := by
  rw [mapIndex_fst]
  cases hmp : mapFind m id with
  | none =>
    have : ¬ HANDLE.nullptr = h := fun e => hn e.symm
    simp [heldAt, this]
  | some mp => simp [heldAt]

theorem bal_launchNow (J : HANDLE → Prop) (hnull : ¬ J HANDLE.nullptr)
    (hinv : ¬ J HANDLE.INVALID_HANDLE_VALUE) (o : LaunchOutcome) (id : String) (w : World)
    (ho : o.typed J) (hb : JobsBalanced J w) : JobsBalanced J (launchNow o id w).2 := by
  cases hcfg : findConfig w.config id with
  | none => rw [launchNow_no_definition o id w hcfg]; exact hb
  | some cfg =>
    have hp0 := bal_mapIndex_process J w id hinv hb
    cases hok : o.ok with
    | false =>
      rw [launchNow_failed o id w cfg hcfg hok]
      apply bal_update J w _ id { (mapIndex w.m_procs id).1 with status := ProcStatus.Failed }
        [OsCall.CreateProcessW (buildCmdLine cfg) (workDirArg (buildWorkDir cfg))]
      · simp only [notifyStatus_m_procs, mapSet_mapIndex]
      · simp only [notifyStatus_os]
      · exact hb
      · exact hp0
      · intro h hJ
        have hn : h ≠ HANDLE.nullptr := fun e => hnull (e ▸ hJ)
        rw [heldAt_mapIndex h _ _ hn]
        simp [jobCreateCount, closeCount, OsCall.createsJob, OsCall.closes]
    | true =>
      rw [launchNow_ok o id w cfg hcfg hok]
      apply bal_update J w _ id
        { (cleanupProcess (mapIndex w.m_procs id).1 (w.os ++ launchCalls o cfg)).1 with
          hProcess := o.hProcess
          pid := o.dwProcessId
          hWait := o.hWait
          hJob := o.hJob
          guardStopped := false
          status := ProcStatus.Running }
        (launchCalls o cfg ++ cleanupCalls (mapIndex w.m_procs id).1)
      · simp only [notifyStatus_m_procs, mapSet_mapIndex]
      · simp only [notifyStatus_os, cleanupProcess_snd, List.append_assoc]
      · exact hb
      · exact ho.1
      · intro h hJ
        have hn : h ≠ HANDLE.nullptr := fun e => hnull (e ▸ hJ)
        have ht : o.hThread ≠ h := fun e => ho.2 (e ▸ hJ)
        have hp : (mapIndex w.m_procs id).1.hProcess ≠ h := fun e => hp0 (e ▸ hJ)
        rw [heldAt_mapIndex h _ _ hn, jobCreateCount_append, closeCount_append,
          jobCreateCount_launchCalls h o cfg hn, jobCreateCount_cleanupCalls,
          closeCount_launchCalls h o cfg ht, closeCount_cleanupCalls h _ hn hp]
        simp only []
        omega

theorem bal_stopProcess (J : HANDLE → Prop) (hnull : ¬ J HANDLE.nullptr)
    (id : String) (w : World) (hb : JobsBalanced J w) :
    JobsBalanced J (stopProcess id w).2 := by
  cases hmp : mapFind w.m_procs id with
  | none => simpa [stopProcess, hmp] using hb
  | some mp =>
    have hp0 := bal_entry_process J w id mp hb hmp
    have hloc : ∀ (extra2 : List OsCall), neutralCalls extra2 →
        ∀ h, J h → jobCreateCount h (closeJob mp.hJob ++ extra2) +
          heldAt h (mapFind w.m_procs id) =
          closeCount h (closeJob mp.hJob ++ extra2) +
            (if HANDLE.nullptr = h then 1 else 0) := by
      intro extra2 hz h hJ
      have hn : h ≠ HANDLE.nullptr := fun e => hnull (e ▸ hJ)
      have hn2 : ¬ HANDLE.nullptr = h := fun e => hn e.symm
      obtain ⟨hz1, hz2⟩ := hz h
      rw [hmp, jobCreateCount_append, closeCount_append, jobCreateCount_closeJob, hz1, hz2]
      unfold closeJob
      rw [closeCount_closeJob h mp.hJob hn]
      simp [heldAt, hn2]
    by_cases hlive : mp.hProcess ≠ HANDLE.INVALID_HANDLE_VALUE ∧ mp.hProcess ≠ HANDLE.nullptr
    · rw [stopProcess_live id w mp hmp hlive.1 hlive.2]
      apply bal_update J w _ id { mp with guardStopped := true, hJob := HANDLE.nullptr }
        (closeJob mp.hJob ++ [OsCall.TerminateProcess mp.hProcess])
      · rfl
      · simp only [List.append_assoc]
      · exact hb
      · exact hp0
      · exact hloc _ (fun h => by simp [jobCreateCount, closeCount, OsCall.createsJob,
          OsCall.closes])
    · have hno : mp.hProcess = HANDLE.INVALID_HANDLE_VALUE ∨ mp.hProcess = HANDLE.nullptr := by
        by_cases h1 : mp.hProcess = HANDLE.INVALID_HANDLE_VALUE
        · exact Or.inl h1
        · by_cases h3 : mp.hProcess = HANDLE.nullptr
          · exact Or.inr h3
          · exact absurd ⟨h1, h3⟩ hlive
      rw [stopProcess_idle id w mp hmp hno]
      apply bal_update J w _ id
        { mp with guardStopped := true, hJob := HANDLE.nullptr, status := ProcStatus.Stopped }
        (closeJob mp.hJob ++ [])
      · simp only [notifyStatus_m_procs]
      · simp only [notifyStatus_os, List.append_nil]
      · exact hb
      · exact hp0
      · exact hloc _ (fun h => by simp [jobCreateCount, closeCount])

theorem bal_set_same_job (J : HANDLE → Prop) (hnull : ¬ J HANDLE.nullptr)
    (w w2 : World) (id : String) (mp x : ManagedProcess)
    (hmp : mapFind w.m_procs id = some mp)
    (hm : w2.m_procs = mapSet w.m_procs id x) (ho : w2.os = w.os)
    (hj : x.hJob = mp.hJob) (hp : x.hProcess = mp.hProcess)
    (hb : JobsBalanced J w) : JobsBalanced J w2 := by
  apply bal_update J w w2 id x [] hm (by simp [ho]) hb
  · rw [hp]; exact bal_entry_process J w id mp hb hmp
  · intro h hJ
    simp [hmp, heldAt, hj, jobCreateCount, closeCount]

theorem bal_onProcessExited (J : HANDLE → Prop) (hnull : ¬ J HANDLE.nullptr)
    (hinv : ¬ J HANDLE.INVALID_HANDLE_VALUE)
    (id : String) (pid exitCode : Nat) (w : World) (hb : JobsBalanced J w) :
    JobsBalanced J (onProcessExited id pid exitCode w) := by
  cases hmp : mapFind w.m_procs id with
  | none => simpa [onProcessExited, hmp] using hb
  | some mp =>
    have hp0 := bal_entry_process J w id mp hb hmp
    have hgen : ∀ (s : ProcStatus) (w2 : World),
        w2.m_procs = mapSet w.m_procs id { (cleanupProcess mp w.os).1 with status := s } →
        w2.os = (cleanupProcess mp w.os).2 → JobsBalanced J w2 := by
      intro s w2 hm ho
      apply bal_update J w w2 id { (cleanupProcess mp w.os).1 with status := s }
        (cleanupCalls mp) hm (by rw [ho, cleanupProcess_snd]) hb
      · rcases cleanupProcess_hProcess mp w.os with e | e
        · simp only [e]; exact hinv
        · simp only [e]; exact hnull
      · intro h hJ
        have hn : h ≠ HANDLE.nullptr := fun e => hnull (e ▸ hJ)
        have hn2 : ¬ HANDLE.nullptr = h := fun e => hn e.symm
        have hp : mp.hProcess ≠ h := fun e => hp0 (e ▸ hJ)
        rw [hmp, jobCreateCount_cleanupCalls, closeCount_cleanupCalls h mp hn hp]
        simp [heldAt, hn2]
    unfold onProcessExited
    rw [hmp]
    simp only []
    split
    · exact hgen ProcStatus.Restarting _ (by simp) (by simp)
    · exact hgen ProcStatus.Stopped _ (by simp) (by simp)

theorem bal_startProcess (J : HANDLE → Prop) (hnull : ¬ J HANDLE.nullptr)
    (hinv : ¬ J HANDLE.INVALID_HANDLE_VALUE) (o : LaunchOutcome) (id : String) (w : World)
    (ho : o.typed J) (hb : JobsBalanced J w) : JobsBalanced J (startProcess o id w).2 := by
  have hidx : ∀ (x : ManagedProcess) (w2 : World),
      w2.m_procs = mapSet w.m_procs id x → w2.os = w.os →
      x.hJob = (mapIndex w.m_procs id).1.hJob →
      x.hProcess = (mapIndex w.m_procs id).1.hProcess → JobsBalanced J w2 := by
    intro x w2 hm hos hj hp
    apply bal_update J w w2 id x [] hm (by simp [hos]) hb
    · rw [hp]; exact bal_mapIndex_process J w id hinv hb
    · intro h hJ
      have hn : h ≠ HANDLE.nullptr := fun e => hnull (e ▸ hJ)
      rw [heldAt_mapIndex h _ _ hn, hj]
      simp [jobCreateCount, closeCount]
  unfold startProcess
  cases hcfg : findConfig w.config id with
  | none => exact hb
  | some cfg =>
    simp only []
    split
    · cases hmp : mapFind w.m_procs id with
      | none =>
        exact hidx {} _ (by simp [mapIndex, hmp]) rfl (by simp [mapIndex, hmp])
          (by simp [mapIndex, hmp])
      | some mp =>
        exact bal_same J w _ (by simp [mapIndex, hmp]) rfl hb
    · have hstart := hidx
        { (mapIndex w.m_procs id).1 with guardStopped := false, status := ProcStatus.Starting }
        (notifyStatus id ProcStatus.Starting
          { w with
            m_procs := mapSet (mapIndex w.m_procs id).2 id
              { (mapIndex w.m_procs id).1 with
                guardStopped := false, status := ProcStatus.Starting } })
        (by simp only [notifyStatus_m_procs, mapSet_mapIndex]) (by simp) rfl rfl
      split
      · exact bal_same J _ _ rfl rfl hstart
      · exact bal_launchNow J hnull hinv o id _ ho hstart

theorem bal_startDelayBody (J : HANDLE → Prop) (hnull : ¬ J HANDLE.nullptr)
    (hinv : ¬ J HANDLE.INVALID_HANDLE_VALUE) (o : LaunchOutcome) (id : String) (w : World)
    (ho : o.typed J) (hb : JobsBalanced J w) : JobsBalanced J (startDelayBody o id w) := by
  unfold startDelayBody
  cases hmp : mapFind w.m_procs id with
  | none => exact hb
  | some mp =>
    simp only []
    split
    · exact bal_set_same_job J hnull w _ id mp { mp with status := ProcStatus.Stopped }
        hmp rfl rfl rfl rfl hb
    · exact bal_launchNow J hnull hinv o id w ho hb

theorem bal_guardDelayBody (J : HANDLE → Prop) (hnull : ¬ J HANDLE.nullptr)
    (hinv : ¬ J HANDLE.INVALID_HANDLE_VALUE) (o : LaunchOutcome) (id : String) (w : World)
    (ho : o.typed J) (hb : JobsBalanced J w) : JobsBalanced J (guardDelayBody o id w) := by
  unfold guardDelayBody
  cases hmp : mapFind w.m_procs id with
  | none => exact hb
  | some mp =>
    simp only []
    split
    · exact bal_set_same_job J hnull w _ id mp { mp with status := ProcStatus.Stopped }
        hmp (by simp) (by simp) rfl rfl hb
    · exact bal_launchNow J hnull hinv o id w ho hb

theorem bal_refreshChildPid (J : HANDLE → Prop) (hnull : ¬ J HANDLE.nullptr)
    (snaps : List (Option (List PROCESSENTRY32W))) (id : String) (cmdPid : Nat) (w : World)
    (hb : JobsBalanced J w) : JobsBalanced J (refreshChildPid snaps id cmdPid w) := by
  unfold refreshChildPid
  simp only []
  split
  · exact hb
  · cases hmp : mapFind w.m_procs id with
    | none => exact hb
    | some mp =>
      simp only []
      split
      · exact hb
      · exact bal_set_same_job J hnull w _ id mp
          { mp with pid := probeChild cmdPid 5 snaps } hmp (by simp) (by simp) rfl rfl hb

theorem bal_syncConfig (J : HANDLE → Prop) (hnull : ¬ J HANDLE.nullptr)
    (hinv : ¬ J HANDLE.INVALID_HANDLE_VALUE) (w : World) (hb : JobsBalanced J w) :
    JobsBalanced J (syncConfig w) := by
  have hfold : ∀ (procs : List ProcessConfig) (w0 w2 : World), JobsBalanced J w0 →
      w2.os = w0.os →
      w2.m_procs = procs.foldl
        (fun m pc =>
          match mapFind m pc.id with
          | none => mapSet m pc.id { id := pc.id, status := ProcStatus.Stopped }
          | some _ => m) w0.m_procs →
      JobsBalanced J w2 := by
    intro procs
    induction procs with
    | nil =>
      intro w0 w2 h0 ho hm
      exact bal_same J w0 w2 hm ho h0
    | cons pc rest ih =>
      intro w0 w2 h0 ho hm
      simp only [List.foldl_cons] at hm
      cases hmp : mapFind w0.m_procs pc.id with
      | some v =>
        rw [hmp] at hm
        exact ih w0 w2 h0 ho hm
      | none =>
        rw [hmp] at hm
        simp only [] at hm
        have h1 : JobsBalanced J { w0 with
            m_procs := mapSet w0.m_procs pc.id
              { id := pc.id, status := ProcStatus.Stopped } } := by
          apply bal_update J w0 _ pc.id { id := pc.id, status := ProcStatus.Stopped } [] rfl
            (by simp) h0 hinv
          intro h hJ
          have hn2 : ¬ HANDLE.nullptr = h := fun e => hnull (e ▸ hJ)
          simp [hmp, heldAt, hn2, jobCreateCount, closeCount]
        exact ih _ w2 h1 ho hm
  exact hfold w.config w (syncConfig w) hb rfl rfl

theorem bal_stopFold (J : HANDLE → Prop) (hnull : ¬ J HANDLE.nullptr)
    (ids : List String) (w : World) (hb : JobsBalanced J w) :
    JobsBalanced J (ids.foldl (fun acc id => (stopProcess id acc).2) w) := by
  induction ids generalizing w with
  | nil => exact hb
  | cons id rest ih =>
    simp only [List.foldl_cons]
    exact ih _ (bal_stopProcess J hnull id w hb)

theorem bal_startFold (J : HANDLE → Prop) (hnull : ¬ J HANDLE.nullptr)
    (hinv : ¬ J HANDLE.INVALID_HANDLE_VALUE) (os : Nat → LaunchOutcome)
    (hos : ∀ n, (os n).typed J) (ids : List String) (acc : Nat × World)
    (hb : JobsBalanced J acc.2) :
    JobsBalanced J (ids.foldl
      (fun (acc : Nat × World) id => (acc.1 + 1, (startProcess (os acc.1) id acc.2).2))
      acc).2 := by
  induction ids generalizing acc with
  | nil => exact hb
  | cons id rest ih =>
    simp only [List.foldl_cons]
    exact ih _ (bal_startProcess J hnull hinv (os acc.1) id acc.2 (hos acc.1) hb)

theorem bal_run (J : HANDLE → Prop) (hnull : ¬ J HANDLE.nullptr)
    (hinv : ¬ J HANDLE.INVALID_HANDLE_VALUE) (op : Op) (w : World)
    (hop : op.typed J) (hb : JobsBalanced J w) : JobsBalanced J (op.run w) := by
  cases op with
  | setMainWindow hwnd => exact bal_same J w _ rfl rfl hb
  | setConfig procs => exact bal_same J w _ rfl rfl hb
  | syncConfig => exact bal_syncConfig J hnull hinv w hb
  | startProcess o id => exact bal_startProcess J hnull hinv o id w hop hb
  | stopProcess id => exact bal_stopProcess J hnull id w hb
  | startAll os =>
    simp only [Op.run, startAll]
    exact bal_startFold J hnull hinv os hop _ (0, syncConfig w)
      (bal_syncConfig J hnull hinv w hb)
  | stopAll =>
    simp only [Op.run, stopAll]
    exact bal_stopFold J hnull _ w hb
  | onProcessExited id pid exitCode =>
    exact bal_onProcessExited J hnull hinv id pid exitCode w hb
  | wake i o snaps =>
    simp only [Op.run, wake]
    cases ht : w.threads[i]? with
    | none => simpa using hb
    | some t =>
      simp only []
      by_cases hdue : t.due w.now
      · simp only [hdue, if_true, Option.getD_some]
        have hb2 : JobsBalanced J { w with threads := w.threads.eraseIdx i } :=
          bal_same J w _ rfl rfl hb
        cases hbody : t.body with
        | startDelay id2 => exact bal_startDelayBody J hnull hinv o id2 _ hop hb2
        | guardDelay id2 => exact bal_guardDelayBody J hnull hinv o id2 _ hop hb2
        | refreshChild id2 cmdPid => exact bal_refreshChildPid J hnull snaps id2 cmdPid _ hb2
      · simpa [hdue] using hb
  | tick ms => exact bal_same J w _ rfl rfl hb

theorem bal_runOps (J : HANDLE → Prop) (hnull : ¬ J HANDLE.nullptr)
    (hinv : ¬ J HANDLE.INVALID_HANDLE_VALUE) (ops : List Op) (w : World)
    (hops : ∀ op ∈ ops, op.typed J) (hb : JobsBalanced J w) :
    JobsBalanced J (runOps ops w) := by
  induction ops generalizing w with
  | nil => exact hb
  | cons op rest ih =>
    simp only [runOps]
    exact ih _ (fun op2 h2 => hops op2 (List.mem_cons_of_mem _ h2))
      (bal_run J hnull hinv op w (hops op (List.mem_cons_self _ _)) hb)

theorem bal_initialWorld (J : HANDLE → Prop) (hwnd : Nat) (procs : List ProcessConfig) :
    JobsBalanced J (initialWorld hwnd procs) := by
  refine ⟨?_, ?_, ?_⟩
  · simp [initialWorld, keysAscending]
  · simp [initialWorld]
  · intro h _
    simp [initialWorld, jobCreateCount, closeCount, heldCount]

/-! ## Status changes and posted messages -/

theorem launchNow_status_posted (o : LaunchOutcome) (id k : String) (w : World)
    (hw : w.m_hwnd ≠ 0) (s : ProcStatus)
    (h1 : statusOf (launchNow o id w).2 k = some s) (h2 : statusOf w k ≠ some s) :
    ∃ evs, (launchNow o id w).2.posted = w.posted ++ evs ∧
      { id := k, status := s } ∈ evs := by
  by_cases hk : id = k
  · subst hk
    cases hcfg : findConfig w.config id with
    | none =>
      rw [launchNow_no_definition o id w hcfg] at h1
      exact absurd h1 h2
    | some cfg =>
      cases hok : o.ok with
      | false =>
        rw [launchNow_failed o id w cfg hcfg hok] at h1 ⊢
        simp only [statusOf, notifyStatus_m_procs, mapSet_mapIndex, mapFind_mapSet_self,
          Option.map_some', Option.some.injEq] at h1
        exact ⟨[{ id := id, status := ProcStatus.Failed }],
          by simp [notifyStatus, hw], by simp [← h1]⟩
      | true =>
        rw [launchNow_ok o id w cfg hcfg hok] at h1 ⊢
        simp only [statusOf, notifyStatus_m_procs, mapSet_mapIndex, mapFind_mapSet_self,
          Option.map_some', Option.some.injEq] at h1
        exact ⟨[{ id := id, status := ProcStatus.Running }],
          by simp [notifyStatus, hw], by simp [← h1]⟩
  · simp only [statusOf, launchNow_frame o id k w hk] at h1
    exact absurd h1 h2

theorem startProcess_status_posted (o : LaunchOutcome) (id k : String) (w : World)
    (hw : w.m_hwnd ≠ 0) (s : ProcStatus)
    (h1 : statusOf (startProcess o id w).2 k = some s) (h2 : statusOf w k ≠ some s) :
    ∃ evs, (startProcess o id w).2.posted = w.posted ++ evs ∧
      { id := k, status := s } ∈ evs := by
  by_cases hk : id = k
  · subst hk
    unfold startProcess at h1 ⊢
    cases hcfg : findConfig w.config id with
    | none =>
      rw [hcfg] at h1
      exact absurd h1 h2
    | some cfg =>
      rw [hcfg] at h1
      simp only [] at h1 ⊢
      by_cases hrej : (mapIndex w.m_procs id).1.status = ProcStatus.Running ∨
          (mapIndex w.m_procs id).1.status = ProcStatus.Starting
      · rw [if_pos hrej] at h1
        exfalso
        cases hmp : mapFind w.m_procs id with
        | none =>
          simp [mapIndex, hmp] at hrej
        | some mp =>
          simp only [statusOf, mapIndex, hmp] at h1
          exact h2 (by simpa [statusOf, hmp] using h1)
      · rw [if_neg hrej] at h1 ⊢
        by_cases hd : cfg.delaySeconds > 0
        · rw [if_pos hd] at h1 ⊢
          simp only [statusOf, notifyStatus_m_procs, mapSet_mapIndex, mapFind_mapSet_self,
            Option.map_some', Option.some.injEq] at h1
          exact ⟨[{ id := id, status := ProcStatus.Starting }],
            by simp [notifyStatus, hw], by simp [← h1]⟩
        · rw [if_neg hd] at h1 ⊢
          simp only [] at h1 ⊢
          by_cases hs : s = ProcStatus.Starting
          · obtain ⟨evs, he, _⟩ := launchNow_posted o id
              (notifyStatus id ProcStatus.Starting
                { w with
                  m_procs := mapSet (mapIndex w.m_procs id).2 id
                    { (mapIndex w.m_procs id).1 with
                      guardStopped := false, status := ProcStatus.Starting } })
            refine ⟨{ id := id, status := ProcStatus.Starting } :: evs, ?_, by simp [hs]⟩
            rw [he]
            simp [notifyStatus, hw]
          · obtain ⟨evs, he, hmem⟩ := launchNow_status_posted o id id
              (notifyStatus id ProcStatus.Starting
                { w with
                  m_procs := mapSet (mapIndex w.m_procs id).2 id
                    { (mapIndex w.m_procs id).1 with
                      guardStopped := false, status := ProcStatus.Starting } })
              (by simpa using hw) s h1
              (by
                simp only [statusOf, notifyStatus_m_procs, mapSet_mapIndex,
                  mapFind_mapSet_self, Option.map_some']
                intro e
                exact hs (Option.some.inj e).symm)
            refine ⟨{ id := id, status := ProcStatus.Starting } :: evs, ?_, by simp [hmem]⟩
            rw [he]
            simp [notifyStatus, hw]
  · simp only [statusOf, startProcess_frame o id k w hk] at h1
    exact absurd h1 h2

theorem stopProcess_status_posted (id k : String) (w : World)
    (hw : w.m_hwnd ≠ 0) (s : ProcStatus)
    (h1 : statusOf (stopProcess id w).2 k = some s) (h2 : statusOf w k ≠ some s) :
    ∃ evs, (stopProcess id w).2.posted = w.posted ++ evs ∧
      { id := k, status := s } ∈ evs := by
  by_cases hk : id = k
  · subst hk
    cases hmp : mapFind w.m_procs id with
    | none =>
      simp only [stopProcess, hmp] at h1
      exact absurd h1 h2
    | some mp =>
      by_cases hlive : mp.hProcess ≠ HANDLE.INVALID_HANDLE_VALUE ∧
          mp.hProcess ≠ HANDLE.nullptr
      · rw [stopProcess_live id w mp hmp hlive.1 hlive.2] at h1
        simp only [statusOf, mapFind_mapSet_self, Option.map_some'] at h1
        exact absurd (by simpa [statusOf, hmp] using h1) h2
      · have hno : mp.hProcess = HANDLE.INVALID_HANDLE_VALUE ∨
            mp.hProcess = HANDLE.nullptr := by
          by_cases h3 : mp.hProcess = HANDLE.INVALID_HANDLE_VALUE
          · exact Or.inl h3
          · by_cases h4 : mp.hProcess = HANDLE.nullptr
            · exact Or.inr h4
            · exact absurd ⟨h3, h4⟩ hlive
        rw [stopProcess_idle id w mp hmp hno] at h1 ⊢
        simp only [statusOf, notifyStatus_m_procs, mapFind_mapSet_self, Option.map_some',
          Option.some.injEq] at h1
        exact ⟨[{ id := id, status := ProcStatus.Stopped }],
          by simp [notifyStatus, hw], by simp [← h1]⟩
  · simp only [statusOf, stopProcess_frame id k w hk] at h1
    exact absurd h1 h2

theorem onProcessExited_status_posted (id k : String) (pid exitCode : Nat) (w : World)
    (hw : w.m_hwnd ≠ 0) (s : ProcStatus)
    (h1 : statusOf (onProcessExited id pid exitCode w) k = some s)
    (h2 : statusOf w k ≠ some s) :
    ∃ evs, (onProcessExited id pid exitCode w).posted = w.posted ++ evs ∧
      { id := k, status := s } ∈ evs := by
  by_cases hk : id = k
  · subst hk
    cases hmp : mapFind w.m_procs id with
    | none =>
      simp only [onProcessExited, hmp] at h1
      exact absurd h1 h2
    | some mp =>
      have hstop : (mp.guardStopped = true ∨ findConfig w.config id = none ∨
          ∃ cfg, findConfig w.config id = some cfg ∧ cfg.guardEnabled = false) →
          ∃ evs, (onProcessExited id pid exitCode w).posted = w.posted ++ evs ∧
            { id := id, status := s } ∈ evs := by
        intro hc
        rw [onProcessExited_stopped id pid exitCode w mp hmp hc] at h1 ⊢
        simp only [statusOf, notifyStatus_m_procs, mapFind_mapSet_self, Option.map_some',
          Option.some.injEq] at h1
        exact ⟨[{ id := id, status := ProcStatus.Stopped }],
          by simp [notifyStatus, hw], by simp [← h1]⟩
      cases hgs : mp.guardStopped with
      | true => exact hstop (Or.inl hgs)
      | false =>
        cases hcfg : findConfig w.config id with
        | none => exact hstop (Or.inr (Or.inl hcfg))
        | some cfg =>
          cases hg : cfg.guardEnabled with
          | false => exact hstop (Or.inr (Or.inr ⟨cfg, hcfg, hg⟩))
          | true =>
            rw [onProcessExited_restarting id pid exitCode w mp cfg hmp hgs hcfg hg] at h1 ⊢
            simp only [statusOf, notifyStatus_m_procs, mapFind_mapSet_self, Option.map_some',
              Option.some.injEq] at h1
            exact ⟨[{ id := id, status := ProcStatus.Restarting }],
              by simp [notifyStatus, hw], by simp [← h1]⟩
  · simp only [statusOf, onProcessExited_frame id k pid exitCode w hk] at h1
    exact absurd h1 h2

theorem guardDelayBody_status_posted (o : LaunchOutcome) (id k : String) (w : World)
    (hw : w.m_hwnd ≠ 0) (s : ProcStatus)
    (h1 : statusOf (guardDelayBody o id w) k = some s) (h2 : statusOf w k ≠ some s) :
    ∃ evs, (guardDelayBody o id w).posted = w.posted ++ evs ∧
      { id := k, status := s } ∈ evs := by
  cases hmp : mapFind w.m_procs id with
  | none =>
    simp only [guardDelayBody, hmp] at h1
    exact absurd h1 h2
  | some mp =>
    cases hgs : mp.guardStopped with
    | false =>
      rw [guardDelayBody_launch o id w mp hmp hgs] at h1 ⊢
      exact launchNow_status_posted o id k w hw s h1 h2
    | true =>
      rw [guardDelayBody_cancelled o id w mp hmp hgs] at h1 ⊢
      by_cases hk : id = k
      · subst hk
        simp only [statusOf, notifyStatus_m_procs, mapFind_mapSet_self, Option.map_some',
          Option.some.injEq] at h1
        exact ⟨[{ id := id, status := ProcStatus.Stopped }],
          by simp [notifyStatus, hw], by simp [← h1]⟩
      · simp only [statusOf, notifyStatus_m_procs, mapFind_mapSet_ne _ _ _ _ hk] at h1
        exact absurd h1 h2

theorem startDelayBody_status_posted (o : LaunchOutcome) (id k : String) (w : World)
    (hw : w.m_hwnd ≠ 0) (s : ProcStatus)
    (hgs : ∀ mp, mapFind w.m_procs id = some mp → mp.guardStopped = false)
    (h1 : statusOf (startDelayBody o id w) k = some s) (h2 : statusOf w k ≠ some s) :
    ∃ evs, (startDelayBody o id w).posted = w.posted ++ evs ∧
      { id := k, status := s } ∈ evs := by
  cases hmp : mapFind w.m_procs id with
  | none =>
    simp only [startDelayBody, hmp] at h1
    exact absurd h1 h2
  | some mp =>
    have hl : startDelayBody o id w = (launchNow o id w).2 := by
      simp [startDelayBody, hmp, hgs mp hmp]
    rw [hl] at h1 ⊢
    exact launchNow_status_posted o id k w hw s h1 h2

/-- With a main window set, a start request, a stop request, the handling of an exit
notification and the wake-up of a guard-delay thread post a message carrying the new
status for every id whose status they change. -/
theorem status_change_is_posted (op : Op) (w : World) (k : String) (s : ProcStatus)
    (hw : w.m_hwnd ≠ 0)
    (hop : (∃ o id, op = Op.startProcess o id) ∨ (∃ id, op = Op.stopProcess id) ∨
      (∃ id pid exitCode, op = Op.onProcessExited id pid exitCode) ∨
      (∃ i o snaps t id, op = Op.wake i o snaps ∧ w.threads[i]? = some t ∧
        t.body = ThreadBody.guardDelay id))
    (h1 : statusOf (op.run w) k = some s) (h2 : statusOf w k ≠ some s) :
    ∃ evs, (op.run w).posted = w.posted ++ evs ∧ { id := k, status := s } ∈ evs := by
  rcases hop with ⟨o, id, rfl⟩ | ⟨id, rfl⟩ | ⟨id, pid, exitCode, rfl⟩ |
    ⟨i, o, snaps, t, id, rfl, ht, hb⟩
  · exact startProcess_status_posted o id k w hw s h1 h2
  · exact stopProcess_status_posted id k w hw s h1 h2
  · exact onProcessExited_status_posted id k pid exitCode w hw s h1 h2
  · simp only [Op.run, wake, ht] at h1 ⊢
    by_cases hdue : t.due w.now
    · simp only [hdue, if_true, Option.getD_some, hb, runBody] at h1 ⊢
      exact guardDelayBody_status_posted o id k
        { w with threads := w.threads.eraseIdx i } hw s h1 h2
    · simp only [hdue, if_false, Option.getD_none] at h1
      exact absurd h1 h2

/-! ## The flag `guardStopped` between a stop and the next start request -/

/-- The Win32 calls of a successful `launchNow`: the launch, then the release of what
the entry held. -/
theorem launchNow_ok_os (o : LaunchOutcome) (id : String) (w : World)
    (cfg : ProcessConfig) (hcfg : findConfig w.config id = some cfg)
    (hok : o.ok = true) :
    (launchNow o id w).2.os =
      w.os ++ launchCalls o cfg ++ cleanupCalls (mapIndex w.m_procs id).1 := by
  rw [launchNow_ok o id w cfg hcfg hok]
  simp [cleanupProcess_snd]

/-- A successful `launchNow` keeps every sleeping thread at its position. -/
theorem launchNow_ok_thread_kept (o : LaunchOutcome) (id : String) (w : World)
    (cfg : ProcessConfig) (hcfg : findConfig w.config id = some cfg)
    (hok : o.ok = true) (i : Nat) (t : SleepingThread) (ht : w.threads[i]? = some t) :
    (launchNow o id w).2.threads[i]? = some t := by
  rw [launchNow_ok o id w cfg hcfg hok]
  simp only [notifyStatus_threads]
  have hi : i < w.threads.length := by
    by_contra hge
    rw [List.getElem?_eq_none (by omega)] at ht
    cases ht
  rw [List.getElem?_append_left hi]
  exact ht

/-- What `cleanupProcess` releases of an entry that holds handles. -/
theorem cleanupCalls_mem (mp : ManagedProcess) :
    (mp.hWait ≠ HANDLE.nullptr → OsCall.UnregisterWaitEx mp.hWait ∈ cleanupCalls mp) ∧
    (mp.hJob ≠ HANDLE.nullptr → OsCall.CloseHandle mp.hJob ∈ cleanupCalls mp) ∧
    (mp.live → OsCall.CloseHandle mp.hProcess ∈ cleanupCalls mp) := by
  refine ⟨?_, ?_, ?_⟩
  · intro h
    simp [cleanupCalls, h]
  · intro h
    simp [cleanupCalls, h]
  · intro h
    have h2 : mp.hProcess ≠ HANDLE.INVALID_HANDLE_VALUE ∧
        mp.hProcess ≠ HANDLE.nullptr := h
    simp [cleanupCalls, h2]

/-- The entry `onProcessExited` leaves: what `cleanupProcess` made of it, with status
`Stopped` or `Restarting`. -/
theorem onProcessExited_entry (id : String) (pid exitCode : Nat) (w : World)
    (mp : ManagedProcess) (hmp : mapFind w.m_procs id = some mp) :
    (onProcessExited id pid exitCode w).os = w.os ++ cleanupCalls mp ∧
    ∃ s, (s = ProcStatus.Stopped ∨ s = ProcStatus.Restarting) ∧
      mapFind (onProcessExited id pid exitCode w).m_procs id =
        some { (cleanupProcess mp w.os).1 with status := s } := by
  by_cases hgs : mp.guardStopped = true
  · rw [onProcessExited_stopped id pid exitCode w mp hmp (Or.inl hgs)]
    exact ⟨by simp [cleanupProcess_snd],
      ProcStatus.Stopped, Or.inl rfl, by simp [mapFind_mapSet_self]⟩
  · cases hc : findConfig w.config id with
    | none =>
      rw [onProcessExited_stopped id pid exitCode w mp hmp (Or.inr (Or.inl hc))]
      exact ⟨by simp [cleanupProcess_snd],
        ProcStatus.Stopped, Or.inl rfl, by simp [mapFind_mapSet_self]⟩
    | some cfg =>
      by_cases hg : cfg.guardEnabled = true
      · rw [onProcessExited_restarting id pid exitCode w mp cfg hmp (by simpa using hgs)
          hc hg]
        exact ⟨by simp [cleanupProcess_snd],
          ProcStatus.Restarting, Or.inr rfl, by simp [mapFind_mapSet_self]⟩
      · rw [onProcessExited_stopped id pid exitCode w mp hmp
          (Or.inr (Or.inr ⟨cfg, hc, by simpa using hg⟩))]
        exact ⟨by simp [cleanupProcess_snd],
          ProcStatus.Stopped, Or.inl rfl, by simp [mapFind_mapSet_self]⟩

/-! ## The invocation built by `launchNow` -/

/-- The last separator of a text that ends in a separator-free part. -/
theorem findLastSep_split (pre post : List Char) (c : Char) (hc : isPathSep c)
    (hpost : ∀ d ∈ post, ¬ isPathSep d) :
    findLastSep (pre ++ c :: post) = some pre.length := by
  unfold findLastSep
  have hrev : (pre ++ c :: post).reverse = post.reverse ++ c :: pre.reverse := by simp
  rw [hrev, List.findIdx?_append]
  have hnone : post.reverse.findIdx? (fun c => c = Char.ofNat 92 ∨ c = Char.ofNat 47) = none := by
    rw [List.findIdx?_eq_none_iff]
    intro d hd
    have := hpost d (by simpa using hd)
    simpa [isPathSep] using this
  have hc2 : c = Char.ofNat 92 ∨ c = Char.ofNat 47 := hc
  rw [hnone]
  simp [List.findIdx?_cons, hc2]

/-- A text without separator has no last separator. -/
theorem findLastSep_none (cs : List Char) (h : ∀ d ∈ cs, ¬ isPathSep d) :
    findLastSep cs = none := by
  unfold findLastSep
  have hnone : cs.reverse.findIdx? (fun c => c = Char.ofNat 92 ∨ c = Char.ofNat 47) = none := by
    rw [List.findIdx?_eq_none_iff]
    intro d hd
    have := h d (by simpa using hd)
    simpa [isPathSep] using this
  rw [hnone]


/-- A string without NUL is converted whole. -/
theorem toWide_of_no_nul (s : String) (h : ∀ c ∈ s.toList, c ≠ Char.ofNat 0) :
    toWide s = s := by
  unfold toWide
  have ht : s.toList.takeWhile (fun c => c ≠ Char.ofNat 0) = s.toList := by
    rw [List.takeWhile_eq_self_iff]
    intro c hc
    simpa using h c hc
  rw [ht]
  cases s
  rfl

/-- A string is converted up to its first NUL. -/
theorem toWide_cut (s : String) (pre post : List Char)
    (hs : s.toList = pre ++ Char.ofNat 0 :: post) (hpre : ∀ c ∈ pre, c ≠ Char.ofNat 0) :
    toWide s = String.mk pre := by
  unfold toWide
  rw [hs, List.takeWhile_append]
  have ht : pre.takeWhile (fun c => c ≠ Char.ofNat 0) = pre := by
    rw [List.takeWhile_eq_self_iff]
    intro c hc
    simpa using hpre c hc
  rw [ht]
  simp

/-- The working directory is the text before the last separator of the path. -/
theorem buildWorkDir_split (cfg : ProcessConfig) (pre post : List Char) (c : Char)
    (hp : (toWide cfg.path).toList = pre ++ c :: post) (hc : isPathSep c)
    (hpost : ∀ d ∈ post, ¬ isPathSep d) : buildWorkDir cfg = String.mk pre := by
  unfold buildWorkDir
  simp only []
  rw [hp, findLastSep_split pre post c hc hpost]
  simp

/-- Without separator in the path the working directory stays empty. -/
theorem buildWorkDir_none (cfg : ProcessConfig)
    (h : ∀ d ∈ (toWide cfg.path).toList, ¬ isPathSep d) : buildWorkDir cfg = "" := by
  unfold buildWorkDir
  simp only []
  rw [findLastSep_none _ h]

/-- The command line: the quoted path, then a space and the arguments if any. -/
theorem buildCmdLine_eq (cfg : ProcessConfig) :
    buildCmdLine cfg =
      (if cfg.type = "bat" then "cmd.exe /c \"\"" ++ toWide cfg.path ++ "\"\""
        else "\"" ++ toWide cfg.path ++ "\"") ++
      (if toWide cfg.args = "" then "" else " " ++ toWide cfg.args) := by
  unfold buildCmdLine
  by_cases ht : cfg.type = "bat" <;> by_cases ha : toWide cfg.args = "" <;>
    simp only [ht, ha, if_true, if_false, ne_eq, not_true_eq_false, not_false_eq_true,
      String.append_assoc, String.append_empty]

/-- The argument `lpCurrentDirectory` for a working directory. -/
theorem workDirArg_mk (pre : List Char) :
    workDirArg (String.mk pre) = if pre = [] then none else some (String.mk pre) := by
  unfold workDirArg
  by_cases h : pre = []
  · subst h
    rfl
  · have : String.mk pre ≠ "" := by
      intro he
      apply h
      have := congrArg String.data he
      simpa using this
    simp [h, this]

/-- The first Win32 call of `launchNow` for a defined id is `CreateProcessW` with the
command line and the working directory built from the definition. -/
theorem launchNow_first_call (o : LaunchOutcome) (id : String) (w : World)
    (cfg : ProcessConfig) (hcfg : findConfig w.config id = some cfg) :
    ∃ rest, (launchNow o id w).2.os =
      w.os ++ OsCall.CreateProcessW (buildCmdLine cfg) (workDirArg (buildWorkDir cfg)) :: rest := by
  by_cases hok : o.ok = true
  · rw [launchNow_ok_os o id w cfg hcfg hok]
    exact ⟨_, by simp [launchCalls]; rfl⟩
  · rw [launchNow_failed o id w cfg hcfg (by simpa using hok)]
    exact ⟨[], by simp⟩

/-! ## Which step closes a job handle -/

theorem localTo_trans (id2 : String) (w w2 w3 : World) (h1 : LocalTo id2 w w2)
    (h2 : LocalTo id2 w2 w3) : LocalTo id2 w w3 := by
  obtain ⟨f1, ⟨x1, t1, b1⟩, ⟨e1, p1, q1⟩⟩ := h1
  obtain ⟨f2, ⟨x2, t2, b2⟩, ⟨e2, p2, q2⟩⟩ := h2
  refine ⟨fun k hk => by rw [f2 k hk, f1 k hk], ⟨x1 ++ x2, by rw [t2, t1, List.append_assoc], ?_⟩,
    ⟨e1 ++ e2, by rw [p2, p1, List.append_assoc], ?_⟩⟩
  · intro t ht
    rcases List.mem_append.mp ht with h | h
    · exact b1 t h
    · exact b2 t h
  · intro e he
    rcases List.mem_append.mp he with h | h
    · exact q1 e h
    · exact q2 e h

theorem rfind_split (pre post : List Nat) (c : Nat) (hpost : c ∉ post) :
    ConfigService.rfind (pre ++ c :: post) c = some pre.length := by
  unfold ConfigService.rfind
  have hrev : (pre ++ c :: post).reverse = post.reverse ++ c :: pre.reverse := by simp
  rw [hrev, List.findIdx?_append]
  have hnone : post.reverse.findIdx? (fun b => b = c) = none := by
    rw [List.findIdx?_eq_none_iff]
    intro d hd
    have hd2 : d ∈ post := by simpa using hd
    have : d ≠ c := fun h => hpost (h ▸ hd2)
    simpa using this
  rw [hnone]
  simp [List.findIdx?_cons]

theorem rfind_none (path : List Nat) (c : Nat) (h : c ∉ path) :
    ConfigService.rfind path c = none := by
  unfold ConfigService.rfind
  have hnone : path.reverse.findIdx? (fun b => b = c) = none := by
    rw [List.findIdx?_eq_none_iff]
    intro d hd
    have hd2 : d ∈ path := by simpa using hd
    have : d ≠ c := fun h2 => h (h2 ▸ hd2)
    simpa using this
  rw [hnone]

/-- Every byte string with a byte `c` splits at its last `c`. -/
theorem split_at_last (path : List Nat) (c : Nat) (h : c ∈ path) :
    ∃ pre post, path = pre ++ c :: post ∧ c ∉ post := by
  induction path with
  | nil => cases h
  | cons x rest ih =>
    by_cases hr : c ∈ rest
    · obtain ⟨pre, post, hp, hn⟩ := ih hr
      exact ⟨x :: pre, post, by rw [hp]; rfl, hn⟩
    · have hx : c = x := by
        rcases List.mem_cons.mp h with h1 | h1
        · exact h1
        · exact absurd h1 hr
      subst hx
      exact ⟨[], rest, rfl, hr⟩

theorem tolower_eq_iff (x y : Nat) (hy : 97 ≤ y ∧ y ≤ 122) :
    ConfigService.tolower x = y ↔ (x = y ∨ x + 32 = y) := by
  unfold ConfigService.tolower
  split <;> omega

theorem lower_eq_of_equalsIgnoringCase (a b : List Nat)
    (hb : ∀ y ∈ b, 97 ≤ y ∧ y ≤ 122) :
    equalsIgnoringCase a b ↔ a.map ConfigService.tolower = b := by
  unfold equalsIgnoringCase
  induction a generalizing b with
  | nil =>
    cases b with
    | nil => simp
    | cons y ys => simp
  | cons x xs ih =>
    cases b with
    | nil => simp
    | cons y ys =>
      have hy := hb y (by simp)
      have hys : ∀ z ∈ ys, 97 ≤ z ∧ z ≤ 122 := fun z hz => hb z (by simp [hz])
      simp only [List.forall₂_cons, List.map_cons, List.cons.injEq]
      rw [ih ys hys, tolower_eq_iff x y hy]
      constructor
      · rintro ⟨h1, h2⟩
        refine ⟨?_, h2⟩
        omega
      · rintro ⟨h1, h2⟩
        refine ⟨?_, h2⟩
        omega

theorem typeFromPath_split (pre ext : List Nat) (h : 46 ∉ ext) :
    ConfigService.typeFromPath (pre ++ 46 :: ext) =
      if ext.map ConfigService.tolower = ascii "bat" ∨
          ext.map ConfigService.tolower = ascii "cmd" then ascii "bat" else ascii "exe" := by
  unfold ConfigService.typeFromPath
  rw [rfind_split pre ext 46 h]
  simp

theorem typeFromPath_no_dot (path : List Nat) (h : 46 ∉ path) :
    ConfigService.typeFromPath path = ascii "exe" := by
  unfold ConfigService.typeFromPath
  rw [rfind_none path 46 h]

theorem ascii_bat_lower : ∀ y ∈ ascii "bat", 97 ≤ y ∧ y ≤ 122 := by decide

theorem ascii_cmd_lower : ∀ y ∈ ascii "cmd", 97 ≤ y ∧ y ≤ 122 := by decide


namespace sj

/-! ## The JSON codec: strings -/

theorem skip_allSpace (ws x : List Nat) (h : allSpace ws) : skip (ws ++ x) = skip x := by
  induction ws with
  | nil => rfl
  | cons b rest ih =>
    have hb := h b (by simp)
    have hr : allSpace rest := fun c hc => h c (by simp [hc])
    simp only [List.cons_append, skip, hb, if_true]
    exact ih hr

theorem skip_of_nonspace (c : Nat) (x : List Nat)
    (h : ¬ (c = 32 ∨ c = 9 ∨ c = 10 ∨ c = 13)) : skip (c :: x) = c :: x := by
  simp only [skip, h, if_false]

theorem allSpace_spaces (n : Nat) : allSpace (spaces n) := by
  intro b hb
  simp only [spaces, List.mem_replicate] at hb
  exact Or.inl hb.2

theorem allSpace_cons (b : Nat) (ws : List Nat)
    (hb : b = 32 ∨ b = 9 ∨ b = 10 ∨ b = 13) (h : allSpace ws) : allSpace (b :: ws) := by
  intro c hc
  rcases List.mem_cons.mp hc with h1 | h1
  · rw [h1]
    exact hb
  · exact h c h1

theorem skip_idem (x : List Nat) : skip (skip x) = skip x := by
  induction x with
  | nil => rfl
  | cons c rest ih =>
    by_cases h : c = 32 ∨ c = 9 ∨ c = 10 ∨ c = 13
    · simp only [skip, h, if_true]
      exact ih
    · simp only [skip, h, if_false]

/-- The hexadecimal escape of a control byte is read back as that byte. -/
theorem stoul16_hexPadded4 (c : Nat) (h : c < 32) :
    ∃ h1 h2 h3 h4, hexPadded4 c = [h1, h2, h3, h4] ∧ stoul16 [h1, h2, h3, h4] = some c ∧
      encodeCodePoint c = [c] := by
  interval_cases c <;> exact ⟨_, _, _, _, rfl, by decide, by decide⟩

theorem rawLoop_quote (rest s : List Nat) : rawLoop (34 :: rest) s = some (s, rest) := by
  rw [rawLoop.eq_def]
  simp

theorem rawLoop_plain (c : Nat) (rest s : List Nat) (h1 : c ≠ 34) (h2 : c ≠ 92) :
    rawLoop (c :: rest) s = rawLoop rest (s ++ [c]) := by
  rw [rawLoop.eq_def]
  simp [h1, h2]

theorem rawLoop_escape (e : Nat) (rest s : List Nat) (h : e ≠ 117) :
    rawLoop (92 :: e :: rest) s = rawLoop rest (s ++ [unescape e]) := by
  rw [rawLoop.eq_def]
  simp [h]

theorem rawLoop_unicode (h1 h2 h3 h4 cp : Nat) (rest s : List Nat)
    (h : stoul16 [h1, h2, h3, h4] = some cp) :
    rawLoop (92 :: 117 :: h1 :: h2 :: h3 :: h4 :: rest) s =
      rawLoop rest (s ++ encodeCodePoint cp) := by
  rw [rawLoop.eq_def]
  simp [h]

/-- One escaped byte is read back by the loop of `parseRawString`. -/
theorem rawLoop_escapeByte (c : Nat) (tail acc : List Nat) :
    rawLoop (escapeByte c ++ tail) acc = rawLoop tail (acc ++ [c]) := by
  unfold escapeByte
  by_cases h1 : c = 34
  · subst h1
    exact rawLoop_escape 34 tail acc (by decide)
  by_cases h2 : c = 92
  · subst h2
    exact rawLoop_escape 92 tail acc (by decide)
  by_cases h3 : c = 10
  · subst h3
    exact rawLoop_escape 110 tail acc (by decide)
  by_cases h4 : c = 13
  · subst h4
    exact rawLoop_escape 114 tail acc (by decide)
  by_cases h5 : c = 9
  · subst h5
    exact rawLoop_escape 116 tail acc (by decide)
  by_cases h6 : c < 32
  · obtain ⟨a, b, d, e, hh, hs, he⟩ := stoul16_hexPadded4 c h6
    simp only [h1, h2, h3, h4, h5, h6, if_false, if_true, hh]
    rw [← he]
    exact rawLoop_unicode a b d e c tail acc hs
  · simp only [h1, h2, h3, h4, h5, h6, if_false]
    exact rawLoop_plain c tail acc h1 h2

/-- The loop of `parseRawString` reads the escaped bytes of `s` back and stops after
the closing quote. -/
theorem rawLoop_escaped (s tail acc : List Nat) :
    rawLoop (s.flatMap escapeByte ++ 34 :: tail) acc = some (acc ++ s, tail) := by
  induction s generalizing acc with
  | nil => simpa using rawLoop_quote tail acc
  | cons c rest ih =>
    simp only [List.flatMap_cons, List.append_assoc]
    rw [rawLoop_escapeByte, ih]
    simp

/-- The method `parseRawString` reads a literal written by `escapeString` back,
whatever white space precedes it and whatever text follows it. -/
theorem parseRawString_escapeString (ws s tail : List Nat) (hws : allSpace ws) :
    parseRawString (ws ++ escapeString s ++ tail) = some (s, tail) := by
  unfold parseRawString expect next escapeString
  simp only [List.append_assoc, List.singleton_append, List.cons_append]
  rw [skip_allSpace _ _ hws, skip_of_nonspace 34 _ (by decide)]
  simp only [ne_eq, not_true_eq_false, if_false, List.nil_append]
  rw [rawLoop_escaped]
  simp

end sj

namespace sj

/-! ## The JSON codec: numbers -/

/-- The value of decimal digits written most significant first. -/
theorem digitsValue_reverse_map (ds : List Nat) :
    digitsValue (ds.reverse.map (fun d => 48 + d)) = Nat.ofDigits 10 ds := by
  unfold digitsValue
  induction ds with
  | nil => rfl
  | cons d rest ih =>
    simp only [List.reverse_cons, List.map_append, List.map_cons, List.map_nil,
      List.foldl_append, List.foldl_cons, List.foldl_nil, Nat.ofDigits_cons]
    rw [ih]
    omega

/-- The decimal digits of a number are digits, there is at least one, and they are
read back as the number. -/
theorem showNat_spec (n : Nat) :
    (∀ c ∈ showNat n, isDigit c = true) ∧ showNat n ≠ [] ∧ digitsValue (showNat n) = n := by
  unfold showNat
  by_cases h : n = 0
  · subst h
    simp [isDigit, digitsValue]
  · rw [if_neg h]
    refine ⟨?_, ?_, ?_⟩
    · intro c hc
      simp only [List.mem_map, List.mem_reverse] at hc
      obtain ⟨d, hd, rfl⟩ := hc
      have := Nat.digits_lt_base (by norm_num : 1 < 10) hd
      simp only [isDigit, decide_eq_true_eq]
      omega
    · intro he
      have h2 : Nat.digits 10 n = [] := by simpa using he
      exact h (Nat.digits_eq_nil_iff_eq_zero.mp h2)
    · rw [digitsValue_reverse_map, Nat.ofDigits_digits]

/-- Digits followed by a byte that is no digit are split off by `takeWhile` and
`dropWhile`. -/
theorem takeWhile_digits (ds rest : List Nat) (hds : ∀ c ∈ ds, isDigit c = true)
    (hrest : ∀ c, rest.head? = some c → isDigit c = false) :
    (ds ++ rest).takeWhile isDigit = ds ∧ (ds ++ rest).dropWhile isDigit = rest := by
  induction ds with
  | nil =>
    cases rest with
    | nil => simp
    | cons c r =>
      have := hrest c rfl
      simp [List.takeWhile, List.dropWhile, this]
  | cons d more ih =>
    have hd := hds d (by simp)
    have hm : ∀ c ∈ more, isDigit c = true := fun c hc => hds c (by simp [hc])
    have := ih hm
    simp [List.takeWhile, List.dropWhile, hd, this.1, this.2]

/-- The method `parseNumber` reads the digits written for a non-negative number. -/
theorem parseNumber_showInt (d : Int) (rest : List Nat)
    (hd : -9007199254740992 < d ∧ d < 9007199254740992)
    (hrest : ∀ c, rest.head? = some c → c = 44 ∨ c = 10) :
    parseNumber (showInt d ++ rest) = some (Value.number d, rest) := by
  have hr1 : ∀ c, rest.head? = some c → isDigit c = false := by
    intro c hc
    rcases hrest c hc with h | h <;> subst h <;> decide
  have hr2 : ¬ (rest.head? = some 46 ∨ rest.head? = some 101 ∨ rest.head? = some 69) := by
    intro h
    rcases h with h | h | h <;> rcases hrest _ h with h2 | h2 <;> omega
  obtain ⟨hdig, hne, hval⟩ := showNat_spec d.natAbs
  obtain ⟨c0, t0, hc0⟩ := List.exists_cons_of_ne_nil hne
  have hc0d : isDigit c0 = true := hdig c0 (by rw [hc0]; simp)
  have hc045 : c0 ≠ 45 := by
    intro h
    rw [h] at hc0d
    exact absurd hc0d (by decide)
  obtain ⟨htake, hdrop⟩ := takeWhile_digits (showNat d.natAbs) rest hdig hr1
  unfold parseNumber showInt
  by_cases hneg : d < 0
  · rw [if_pos hneg]
    simp only [List.cons_append, List.head?_cons, List.tail_cons, if_true, htake, hdrop,
      hr2, if_false, hne, hval]
    have hbig : ¬ (9007199254740992 ≤ d.natAbs) := by omega
    rw [if_neg hbig]
    have : -(d.natAbs : Int) = d := by omega
    rw [this]
  · rw [if_neg hneg]
    have hhead : (showNat d.natAbs ++ rest).head? ≠ some 45 := by
      rw [hc0]
      simpa using hc045
    simp only [hhead, if_false, htake, hdrop, hr2, hne, hval]
    have hbig : ¬ (9007199254740992 ≤ d.natAbs) := by omega
    rw [if_neg hbig]
    have : (d.natAbs : Int) = d := by omega
    rw [this]

/-- The text of a number starts with a minus sign or a digit. -/
theorem showInt_head (d : Int) :
    ∃ c t, showInt d = c :: t ∧ (c = 45 ∨ (48 ≤ c ∧ c ≤ 57)) := by
  obtain ⟨hdig, hne, _⟩ := showNat_spec d.natAbs
  obtain ⟨c0, t0, hc0⟩ := List.exists_cons_of_ne_nil hne
  have hc0d : isDigit c0 = true := hdig c0 (by rw [hc0]; simp)
  unfold showInt
  by_cases hneg : d < 0
  · rw [if_pos hneg]
    exact ⟨45, _, rfl, Or.inl rfl⟩
  · rw [if_neg hneg, hc0]
    exact ⟨c0, t0, rfl, Or.inr (by simpa [isDigit] using hc0d)⟩

end sj

namespace sj

/-! ## The JSON codec: values -/

theorem peek_eq (inp : List Nat) : peek inp = ((skip inp).headD 0, skip inp) := by
  unfold peek
  cases skip inp <;> rfl

theorem next_eq (inp : List Nat) : next inp = ((skip inp).headD 0, (skip inp).tail) := by
  unfold next
  cases skip inp <;> rfl

theorem peek_skip (inp : List Nat) : peek (skip inp) = peek inp := by
  rw [peek_eq, peek_eq, skip_idem]

theorem next_skip (inp : List Nat) : next (skip inp) = next inp := by
  rw [next_eq, next_eq, skip_idem]

theorem parseValue_succ (fuel : Nat) (inp : List Nat) :
    parseValue (fuel + 1) inp =
      if (peek inp).1 = 34 then parseString (peek inp).2
      else if (peek inp).1 = 123 then parseObject fuel (peek inp).2
      else if (peek inp).1 = 91 then parseArray fuel (peek inp).2
      else if (peek inp).1 = 116 then
        (if 4 ≤ (peek inp).2.length then some (Value.bool true, (peek inp).2.drop 4)
          else none)
      else if (peek inp).1 = 102 then
        (if 5 ≤ (peek inp).2.length then some (Value.bool false, (peek inp).2.drop 5)
          else none)
      else if (peek inp).1 = 110 then
        (if 4 ≤ (peek inp).2.length then some (Value.null, (peek inp).2.drop 4) else none)
      else if (peek inp).1 = 45 ∨ (48 ≤ (peek inp).1 ∧ (peek inp).1 ≤ 57) then
        parseNumber (peek inp).2
      else none := by
  rw [parseValue]

/-- The method `parseValue` starts by skipping white space. -/
theorem parseValue_skip (f : Nat) (inp : List Nat) :
    parseValue f (skip inp) = parseValue f inp := by
  cases f with
  | zero => rw [parseValue, parseValue]
  | succ n => rw [parseValue_succ, parseValue_succ, peek_skip]

theorem parseValue_allSpace (f : Nat) (ws x : List Nat) (h : allSpace ws) :
    parseValue f (ws ++ x) = parseValue f x := by
  rw [← parseValue_skip, skip_allSpace ws x h, parseValue_skip]

theorem parsesAt_string (s : List Nat) (indent step : Nat) :
    ParsesAt 1 (Value.string s) (stringify (Value.string s) indent step) := by
  intro f rest hf _
  obtain ⟨n, rfl⟩ : ∃ n, f = n + 1 := ⟨f - 1, by omega⟩
  have hs : stringify (Value.string s) indent step = escapeString s := by
    rw [stringify]
  have hskip : skip (escapeString s ++ rest) = escapeString s ++ rest := by
    unfold escapeString
    exact skip_of_nonspace 34 _ (by decide)
  have hhead : (escapeString s ++ rest).headD 0 = 34 := by
    unfold escapeString
    rfl
  rw [hs, parseValue_succ, peek_eq, hskip]
  simp only [hhead, if_true]
  unfold parseString
  have := parseRawString_escapeString [] s rest (by intro b hb; cases hb)
  simp only [List.nil_append] at this
  rw [this]

theorem parsesAt_bool (b : Bool) (indent step : Nat) :
    ParsesAt 1 (Value.bool b) (stringify (Value.bool b) indent step) := by
  intro f rest hf _
  obtain ⟨n, rfl⟩ : ∃ n, f = n + 1 := ⟨f - 1, by omega⟩
  cases b with
  | true =>
    have hs : stringify (Value.bool true) indent step = [116, 114, 117, 101] := by
      rw [stringify]
      decide
    rw [hs, parseValue_succ, peek_eq]
    simp [skip]
  | false =>
    have hs : stringify (Value.bool false) indent step = [102, 97, 108, 115, 101] := by
      rw [stringify]
      decide
    rw [hs, parseValue_succ, peek_eq]
    simp [skip]

theorem parsesAt_number (d : Int) (indent step : Nat)
    (hd : -9007199254740992 < d ∧ d < 9007199254740992) :
    ParsesAt 1 (Value.number d) (stringify (Value.number d) indent step) := by
  intro f rest hf hrest
  obtain ⟨n, rfl⟩ : ∃ n, f = n + 1 := ⟨f - 1, by omega⟩
  have hs : stringify (Value.number d) indent step = showInt d := by
    rw [stringify]
  obtain ⟨c, t, hct, hc⟩ := showInt_head d
  have hskip : skip (showInt d ++ rest) = showInt d ++ rest := by
    rw [hct]
    exact skip_of_nonspace c _ (by omega)
  have hhead : (showInt d ++ rest).headD 0 = c := by
    rw [hct]
    rfl
  rw [hs, parseValue_succ, peek_eq, hskip]
  simp only [hhead]
  have h1 : c ≠ 34 := by omega
  have h2 : c ≠ 123 := by omega
  have h3 : c ≠ 91 := by omega
  have h4 : c ≠ 116 := by omega
  have h5 : c ≠ 102 := by omega
  have h6 : c ≠ 110 := by omega
  simp only [h1, h2, h3, h4, h5, h6, if_false, hc, if_true]
  exact parseNumber_showInt d rest hd hrest

end sj

namespace sj

/-! ## The JSON codec: objects and arrays -/

theorem parseObjectLoop_succ (fuel : Nat) (obj : List (List Nat × Value)) (inp : List Nat) :
    parseObjectLoop (fuel + 1) obj inp =
      match parseRawString inp with
      | none => none
      | some (key, r1) =>
        match expect 58 r1 with
        | none => none
        | some r2 =>
          match parseValue fuel r2 with
          | none => none
          | some (v, r3) =>
            if (next r3).1 = 125 then some (Value.object (objSet obj key v), (next r3).2)
            else if (next r3).1 ≠ 44 then none
            else parseObjectLoop fuel (objSet obj key v) (next r3).2 := by
  rw [parseObjectLoop]

theorem parseArrayLoop_succ (fuel : Nat) (arr : List Value) (inp : List Nat) :
    parseArrayLoop (fuel + 1) arr inp =
      match parseValue fuel inp with
      | none => none
      | some (v, r1) =>
        if (next r1).1 = 93 then some (Value.array (arr ++ [v]), (next r1).2)
        else if (next r1).1 ≠ 44 then none
        else parseArrayLoop fuel (arr ++ [v]) (next r1).2 := by
  rw [parseArrayLoop]

theorem parseObject_succ (fuel : Nat) (inp : List Nat) :
    parseObject (fuel + 1) inp =
      match expect 123 inp with
      | none => none
      | some r =>
        if (peek r).1 = 125 then some (Value.object [], (peek r).2.tail)
        else parseObjectLoop fuel [] (peek r).2 := by
  rw [parseObject]

theorem parseArray_succ (fuel : Nat) (inp : List Nat) :
    parseArray (fuel + 1) inp =
      match expect 91 inp with
      | none => none
      | some r =>
        if (peek r).1 = 93 then some (Value.array [], (peek r).2.tail)
        else parseArrayLoop fuel [] (peek r).2 := by
  rw [parseArray]

theorem stringifyMembers_cons (key : List Nat) (val : Value)
    (rest : List (List Nat × Value)) (indent step : Nat) :
    stringifyMembers ((key, val) :: rest) indent step =
      spaces (indent + step) ++ escapeString key ++ [58, 32] ++
        stringify val (indent + step) step ++
        (if rest.isEmpty then [] else [44]) ++ [10] ++ stringifyMembers rest indent step := by
  rw [stringifyMembers]

theorem stringifyElems_cons (v : Value) (rest : List Value) (indent step : Nat) :
    stringifyElems (v :: rest) indent step =
      spaces (indent + step) ++ stringify v (indent + step) step ++
        (if rest.isEmpty then [] else [44]) ++ [10] ++ stringifyElems rest indent step := by
  rw [stringifyElems]

theorem stringifyMembers_nil (indent step : Nat) : stringifyMembers [] indent step = [] := by
  rw [stringifyMembers]

theorem stringifyElems_nil (indent step : Nat) : stringifyElems [] indent step = [] := by
  rw [stringifyElems]

theorem expect_head (c : Nat) (x : List Nat) (h : ¬ (c = 32 ∨ c = 9 ∨ c = 10 ∨ c = 13)) :
    expect c (c :: x) = some x := by
  unfold expect
  rw [next_eq, skip_of_nonspace c x h]
  simp

theorem parseRawString_skip (inp : List Nat) :
    parseRawString (skip inp) = parseRawString inp := by
  unfold parseRawString expect
  rw [next_skip]

theorem parseObjectLoop_skip (f : Nat) (obj : List (List Nat × Value)) (inp : List Nat) :
    parseObjectLoop f obj (skip inp) = parseObjectLoop f obj inp := by
  cases f with
  | zero => rw [parseObjectLoop, parseObjectLoop]
  | succ n => rw [parseObjectLoop_succ, parseObjectLoop_succ, parseRawString_skip]

theorem parseArrayLoop_skip (f : Nat) (arr : List Value) (inp : List Nat) :
    parseArrayLoop f arr (skip inp) = parseArrayLoop f arr inp := by
  cases f with
  | zero => rw [parseArrayLoop, parseArrayLoop]
  | succ n => rw [parseArrayLoop_succ, parseArrayLoop_succ, parseValue_skip]

theorem next_cons (c : Nat) (x : List Nat) (h : ¬ (c = 32 ∨ c = 9 ∨ c = 10 ∨ c = 13)) :
    next (c :: x) = (c, x) := by
  rw [next_eq, skip_of_nonspace c x h]
  rfl

theorem next_allSpace (ws : List Nat) (c : Nat) (x : List Nat) (hws : allSpace ws)
    (h : ¬ (c = 32 ∨ c = 9 ∨ c = 10 ∨ c = 13)) : next (ws ++ c :: x) = (c, x) := by
  rw [next_eq, skip_allSpace ws _ hws, skip_of_nonspace c x h]
  rfl

/-- The loop of `parseObject` reads the members written by `stringify` and stops after
the closing brace. -/
theorem parseObjectLoop_members (indent step K : Nat) (rest : List Nat)
    (ms : List (List Nat × Value)) (hne : ms ≠ [])
    (hv : ∀ kv ∈ ms, ParsesAt K kv.2 (stringify kv.2 (indent + step) step))
    (f : Nat) (obj : List (List Nat × Value)) (ws : List Nat) (hws : allSpace ws) :
    parseObjectLoop (f + ms.length + K) obj
        (ws ++ (stringifyMembers ms indent step ++ (spaces indent ++ 125 :: rest))) =
      some (Value.object (insertAll obj ms), rest) := by
  induction ms generalizing obj ws with
  | nil => exact absurd rfl hne
  | cons kv more ih =>
    obtain ⟨key, val⟩ := kv
    have hval := hv (key, val) (by simp)
    have hfuel : f + ((key, val) :: more).length + K = (f + more.length + K) + 1 := by
      simp only [List.length_cons]
      omega
    rw [hfuel, parseObjectLoop_succ, stringifyMembers_cons]
    have hws2 : allSpace (ws ++ spaces (indent + step)) := by
      intro b hb
      rcases List.mem_append.mp hb with h | h
      · exact hws b h
      · exact allSpace_spaces _ b h
    have hraw := parseRawString_escapeString (ws ++ spaces (indent + step)) key
      ([58, 32] ++ (stringify val (indent + step) step ++
        ((if more.isEmpty then [] else [44]) ++ ([10] ++ (stringifyMembers more indent step ++
          (spaces indent ++ 125 :: rest)))))) hws2
    simp only [List.append_assoc] at hraw ⊢
    rw [hraw]
    simp only []
    have hexp : expect 58 ([58, 32] ++ (stringify val (indent + step) step ++
        ((if more.isEmpty then [] else [44]) ++ ([10] ++ (stringifyMembers more indent step ++
          (spaces indent ++ 125 :: rest)))))) =
        some ([32] ++ (stringify val (indent + step) step ++
        ((if more.isEmpty then [] else [44]) ++ ([10] ++ (stringifyMembers more indent step ++
          (spaces indent ++ 125 :: rest)))))) := expect_head 58 _ (by decide)
    rw [hexp]
    simp only []
    rw [parseValue_allSpace _ [32] _ (by intro b hb; simp at hb; exact Or.inl hb)]
    cases more with
    | nil =>
      simp only [List.isEmpty_nil, if_true, List.nil_append, stringifyMembers_nil]
      rw [hval _ _ (by simp) (by intro c hc; simp at hc; exact Or.inr hc.symm)]
      simp only []
      have hnext : next ([10] ++ (spaces indent ++ 125 :: rest)) = (125, rest) := by
        have := next_allSpace ([10] ++ spaces indent) 125 rest
          (allSpace_cons 10 _ (by decide) (allSpace_spaces indent)) (by decide)
        simpa using this
      rw [hnext]
      simp [insertAll]
    | cons kv2 more2 =>
      simp only [List.isEmpty_cons, Bool.false_eq_true, if_false]
      rw [hval _ _ (by simp only [List.length_cons]; omega)
        (by intro c hc; simp at hc; exact Or.inl hc.symm)]
      simp only []
      have hnext : next ([44] ++ ([10] ++ (stringifyMembers (kv2 :: more2) indent step ++
          (spaces indent ++ 125 :: rest)))) =
          (44, [10] ++ (stringifyMembers (kv2 :: more2) indent step ++
          (spaces indent ++ 125 :: rest))) := next_cons 44 _ (by decide)
      rw [hnext]
      simp only [ne_eq, not_true_eq_false, if_false, Nat.reduceEqDiff]
      have hih := ih (by simp) (fun kv hkv => hv kv (by simp [hkv]))
        (objSet obj key val) [10] (allSpace_cons 10 [] (by decide) (by intro b hb; cases hb))
      rw [hih]
      simp [insertAll]

end sj

namespace sj

/-- The loop of `parseArray` reads the elements written by `stringify` and stops after
the closing bracket. -/
theorem parseArrayLoop_elems (indent step K : Nat) (rest : List Nat)
    (vs : List Value) (hne : vs ≠ [])
    (hv : ∀ v ∈ vs, ParsesAt K v (stringify v (indent + step) step))
    (f : Nat) (arr : List Value) (ws : List Nat) (hws : allSpace ws) :
    parseArrayLoop (f + vs.length + K) arr
        (ws ++ (stringifyElems vs indent step ++ (spaces indent ++ 93 :: rest))) =
      some (Value.array (arr ++ vs), rest) := by
  induction vs generalizing arr ws with
  | nil => exact absurd rfl hne
  | cons v more ih =>
    have hval := hv v (by simp)
    have hfuel : f + (v :: more).length + K = (f + more.length + K) + 1 := by
      simp only [List.length_cons]
      omega
    rw [hfuel, parseArrayLoop_succ, stringifyElems_cons]
    have hws2 : allSpace (ws ++ spaces (indent + step)) := by
      intro b hb
      rcases List.mem_append.mp hb with h | h
      · exact hws b h
      · exact allSpace_spaces _ b h
    have hpv := parseValue_allSpace (f + more.length + K) (ws ++ spaces (indent + step))
      (stringify v (indent + step) step ++
        ((if more.isEmpty then [] else [44]) ++ ([10] ++ (stringifyElems more indent step ++
          (spaces indent ++ 93 :: rest))))) hws2
    simp only [List.append_assoc] at hpv ⊢
    rw [hpv]
    cases more with
    | nil =>
      simp only [List.isEmpty_nil, if_true, List.nil_append, stringifyElems_nil]
      rw [hval _ _ (by simp) (by intro c hc; simp at hc; exact Or.inr hc.symm)]
      simp only []
      have hnext : next ([10] ++ (spaces indent ++ 93 :: rest)) = (93, rest) := by
        have := next_allSpace ([10] ++ spaces indent) 93 rest
          (allSpace_cons 10 _ (by decide) (allSpace_spaces indent)) (by decide)
        simpa using this
      rw [hnext]
      simp
    | cons v2 more2 =>
      simp only [List.isEmpty_cons, Bool.false_eq_true, if_false]
      rw [hval _ _ (by simp only [List.length_cons]; omega)
        (by intro c hc; simp at hc; exact Or.inl hc.symm)]
      simp only []
      have hnext : next ([44] ++ ([10] ++ (stringifyElems (v2 :: more2) indent step ++
          (spaces indent ++ 93 :: rest)))) =
          (44, [10] ++ (stringifyElems (v2 :: more2) indent step ++
          (spaces indent ++ 93 :: rest))) := next_cons 44 _ (by decide)
      rw [hnext]
      simp only [ne_eq, not_true_eq_false, if_false, Nat.reduceEqDiff]
      have hih := ih (by simp) (fun x hx => hv x (by simp [hx]))
        (arr ++ [v]) [10] (allSpace_cons 10 [] (by decide) (by intro b hb; cases hb))
      rw [hih]
      simp

/-- The text of an object with members is read back as the object that holds these
members, inserted in the order of the text. -/
theorem parsesAt_object (indent step K : Nat) (ms : List (List Nat × Value))
    (hne : ms ≠ [])
    (hv : ∀ kv ∈ ms, ParsesAt K kv.2 (stringify kv.2 (indent + step) step)) :
    ParsesAt (ms.length + K + 2) (Value.object (insertAll [] ms))
      (stringify (Value.object ms) indent step) := by
  intro f rest hf _
  obtain ⟨n, rfl⟩ : ∃ n, f = (n + ms.length + K) + 1 + 1 := ⟨f - (ms.length + K + 2), by omega⟩
  obtain ⟨kv, more, rfl⟩ := List.exists_cons_of_ne_nil hne
  obtain ⟨key, val⟩ := kv
  have hs : stringify (Value.object ((key, val) :: more)) indent step =
      [123, 10] ++ stringifyMembers ((key, val) :: more) indent step ++ spaces indent ++
        [125] := by
    rw [stringify]
  rw [hs, parseValue_succ, peek_eq]
  simp only [List.append_assoc, List.cons_append, List.nil_append]
  rw [skip_of_nonspace 123 _ (by decide)]
  simp only [List.headD_cons, Nat.reduceEqDiff, if_false, if_true]
  rw [parseObject_succ, expect_head 123 _ (by decide)]
  simp only []
  have hpeek : (peek (10 :: (stringifyMembers ((key, val) :: more) indent step ++
      (spaces indent ++ 125 :: rest)))).1 = 34 := by
    rw [peek_eq, stringifyMembers_cons]
    simp only [List.append_assoc, List.cons_append, List.nil_append]
    have := skip_allSpace ([10] ++ spaces (indent + step))
      (escapeString key ++ ([58, 32] ++ (stringify val (indent + step) step ++
        ((if more.isEmpty then [] else [44]) ++ ([10] ++ (stringifyMembers more indent step ++
          (spaces indent ++ 125 :: rest)))))))
      (allSpace_cons 10 _ (by decide) (allSpace_spaces _))
    simp only [List.append_assoc, List.cons_append, List.nil_append] at this
    rw [this]
    unfold escapeString
    simp only [List.append_assoc, List.cons_append, List.nil_append]
    rw [skip_of_nonspace 34 _ (by decide)]
    rfl
  rw [hpeek]
  simp only [Nat.reduceEqDiff, if_false]
  rw [peek_eq]
  simp only []
  rw [parseObjectLoop_skip]
  have := parseObjectLoop_members indent step K rest ((key, val) :: more) (by simp) hv n []
    [10] (allSpace_cons 10 [] (by decide) (by intro b hb; cases hb))
  simpa using this

/-- The text of an array with elements, none of which starts with a closing bracket,
is read back as the array. -/
theorem parsesAt_array (indent step K : Nat) (vs : List Value) (hne : vs ≠ [])
    (hv : ∀ v ∈ vs, ParsesAt K v (stringify v (indent + step) step))
    (hfirst : ∀ v ∈ vs, ∀ tail, ∃ c t, stringify v (indent + step) step ++ tail = c :: t ∧
      c ≠ 93 ∧ ¬ (c = 32 ∨ c = 9 ∨ c = 10 ∨ c = 13)) :
    ParsesAt (vs.length + K + 2) (Value.array vs)
      (stringify (Value.array vs) indent step) := by
  intro f rest hf _
  obtain ⟨n, rfl⟩ : ∃ n, f = (n + vs.length + K) + 1 + 1 := ⟨f - (vs.length + K + 2), by omega⟩
  obtain ⟨v, more, rfl⟩ := List.exists_cons_of_ne_nil hne
  have hs : stringify (Value.array (v :: more)) indent step =
      [91, 10] ++ stringifyElems (v :: more) indent step ++ spaces indent ++ [93] := by
    rw [stringify]
    rfl
  rw [hs, parseValue_succ, peek_eq]
  simp only [List.append_assoc, List.cons_append, List.nil_append]
  rw [skip_of_nonspace 91 _ (by decide)]
  simp only [List.headD_cons, Nat.reduceEqDiff, if_false, if_true]
  rw [parseArray_succ, expect_head 91 _ (by decide)]
  simp only []
  have hpeek : (peek (10 :: (stringifyElems (v :: more) indent step ++
      (spaces indent ++ 93 :: rest)))).1 ≠ 93 := by
    rw [peek_eq, stringifyElems_cons]
    simp only [List.append_assoc, List.cons_append, List.nil_append]
    have := skip_allSpace ([10] ++ spaces (indent + step))
      (stringify v (indent + step) step ++
        ((if more.isEmpty then [] else [44]) ++ ([10] ++ (stringifyElems more indent step ++
          (spaces indent ++ 93 :: rest)))))
      (allSpace_cons 10 _ (by decide) (allSpace_spaces _))
    simp only [List.append_assoc, List.cons_append, List.nil_append] at this
    rw [this]
    obtain ⟨c, t, hct, hc93, hcs⟩ := hfirst v (by simp)
      ((if more.isEmpty then [] else [44]) ++ ([10] ++ (stringifyElems more indent step ++
          (spaces indent ++ 93 :: rest))))
    simp only [List.append_assoc, List.cons_append, List.nil_append] at hct
    rw [hct, skip_of_nonspace c t hcs]
    exact hc93
  rw [if_neg hpeek, peek_eq]
  simp only []
  rw [parseArrayLoop_skip]
  have := parseArrayLoop_elems indent step K rest (v :: more) (by simp) hv n []
    [10] (allSpace_cons 10 [] (by decide) (by intro b hb; cases hb))
  simpa using this

/-- The text `[]` of an empty array is read back as the empty array. -/
theorem parsesAt_empty_array (indent step : Nat) :
    ParsesAt 2 (Value.array []) (stringify (Value.array []) indent step) := by
  intro f rest hf _
  obtain ⟨n, rfl⟩ : ∃ n, f = n + 1 + 1 := ⟨f - 2, by omega⟩
  have hs : stringify (Value.array []) indent step = [91, 93] := by
    rw [stringify]
    rfl
  rw [hs, parseValue_succ, peek_eq]
  simp only [List.cons_append, List.nil_append]
  rw [skip_of_nonspace 91 _ (by decide)]
  simp only [List.headD_cons, Nat.reduceEqDiff, if_false, if_true]
  rw [parseArray_succ, expect_head 91 _ (by decide)]
  simp only []
  rw [peek_eq, skip_of_nonspace 93 _ (by decide)]
  simp

end sj

/-! ## The configuration store: the text of a configuration read back -/

namespace ConfigService

theorem parsesAt_mono (K K2 : Nat) (v : sj.Value) (txt : List Nat) (h : K ≤ K2)
    (hp : sj.ParsesAt K v txt) : sj.ParsesAt K2 v txt := by
  intro f rest hf hrest
  exact hp f rest (by omega) hrest

theorem insertAll_processMembers (p : ProcessConfig) :
    sj.insertAll [] (processMembers p) = sortedMembers p := rfl

theorem insertAll_sortedMembers (p : ProcessConfig) :
    sj.insertAll [] (sortedMembers p) = sortedMembers p := rfl

theorem isInt32_small (d : Int) (h : isInt32 d) :
    -9007199254740992 < d ∧ d < 9007199254740992 := by
  unfold isInt32 at h
  omega

/-- The text of the object of a process is read back as that object. -/
theorem parsesAt_processObject (p : ProcessConfig) (indent step : Nat)
    (h1 : isInt32 p.delaySeconds) (h2 : isInt32 p.guardDelaySeconds) :
    sj.ParsesAt 12 (processObject p) (sj.stringify (processObject p) indent step) := by
  have hleaf : ∀ kv ∈ sortedMembers p,
      sj.ParsesAt 1 kv.2 (sj.stringify kv.2 (indent + step) step) := by
    intro kv hkv
    simp only [sortedMembers, List.mem_cons, List.mem_singleton, List.not_mem_nil,
      or_false] at hkv
    rcases hkv with h | h | h | h | h | h | h | h | h <;> subst h
    · exact sj.parsesAt_string _ _ _
    · exact sj.parsesAt_number _ _ _ (isInt32_small _ h1)
    · exact sj.parsesAt_bool _ _ _
    · exact sj.parsesAt_number _ _ _ (isInt32_small _ h2)
    · exact sj.parsesAt_bool _ _ _
    · exact sj.parsesAt_string _ _ _
    · exact sj.parsesAt_string _ _ _
    · exact sj.parsesAt_string _ _ _
    · exact sj.parsesAt_string _ _ _
  have h := sj.parsesAt_object indent step 1 (sortedMembers p) (by simp [sortedMembers])
    hleaf
  rw [insertAll_sortedMembers] at h
  unfold processObject
  rw [insertAll_processMembers]
  exact h

/-- The text of the object of a process starts with an opening brace. -/
theorem processObject_head (p : ProcessConfig) (indent step : Nat) (tail : List Nat) :
    ∃ c t, sj.stringify (processObject p) indent step ++ tail = c :: t ∧
      c ≠ 93 ∧ ¬ (c = 32 ∨ c = 9 ∨ c = 10 ∨ c = 13) := by
  unfold processObject
  rw [insertAll_processMembers]
  unfold sortedMembers
  rw [sj.stringify]
  exact ⟨123, _, rfl, by decide, by decide⟩

/-- The text of the array of the processes is read back as that array. -/
theorem parsesAt_processes (ps : List ProcessConfig) (indent step : Nat)
    (h : ∀ p ∈ ps, isInt32 p.delaySeconds ∧ isInt32 p.guardDelaySeconds) :
    sj.ParsesAt (ps.length + 14) (sj.Value.array (ps.map processObject))
      (sj.stringify (sj.Value.array (ps.map processObject)) indent step) := by
  cases ps with
  | nil => exact parsesAt_mono 2 _ _ _ (by simp) (sj.parsesAt_empty_array indent step)
  | cons p more =>
    have hv : ∀ v ∈ (p :: more).map processObject,
        sj.ParsesAt 12 v (sj.stringify v (indent + step) step) := by
      intro v hv
      obtain ⟨q, hq, rfl⟩ := List.mem_map.mp hv
      exact parsesAt_processObject q _ _ (h q hq).1 (h q hq).2
    have hfirst : ∀ v ∈ (p :: more).map processObject, ∀ tail, ∃ c t,
        sj.stringify v (indent + step) step ++ tail = c :: t ∧
        c ≠ 93 ∧ ¬ (c = 32 ∨ c = 9 ∨ c = 10 ∨ c = 13) := by
      intro v hv tail
      obtain ⟨q, hq, rfl⟩ := List.mem_map.mp hv
      exact processObject_head q _ _ tail
    have := sj.parsesAt_array indent step 12 ((p :: more).map processObject) (by simp)
      hv hfirst
    exact parsesAt_mono _ _ _ _ (by simp) this

theorem rootObject_eq (cfg : AppConfig) :
    rootObject cfg = sj.Value.object
      [(ascii "autoStartOnOpen", sj.Value.bool cfg.autoStartOnOpen),
        (ascii "processes", sj.Value.array (cfg.processes.map processObject))] := rfl

/-- The text of a configuration is read back as the object it was written from. -/
theorem parsesAt_rootObject (cfg : AppConfig)
    (h : ∀ p ∈ cfg.processes, isInt32 p.delaySeconds ∧ isInt32 p.guardDelaySeconds) :
    sj.ParsesAt (cfg.processes.length + 18) (rootObject cfg) (appConfigToJson cfg) := by
  have hv : ∀ kv ∈ [(ascii "autoStartOnOpen", sj.Value.bool cfg.autoStartOnOpen),
        (ascii "processes", sj.Value.array (cfg.processes.map processObject))],
      sj.ParsesAt (cfg.processes.length + 14) kv.2 (sj.stringify kv.2 (0 + 2) 2) := by
    intro kv hkv
    simp only [List.mem_cons, List.mem_singleton, List.not_mem_nil, or_false] at hkv
    rcases hkv with h1 | h1 <;> subst h1
    · exact parsesAt_mono 1 _ _ _ (by omega) (sj.parsesAt_bool _ _ _)
    · exact parsesAt_processes cfg.processes _ _ h
  have := sj.parsesAt_object 0 2 (cfg.processes.length + 14) _ (by simp) hv
  unfold appConfigToJson
  rw [rootObject_eq]
  exact parsesAt_mono _ _ _ _ (by simp only [List.length_cons, List.length_nil]; omega) this

theorem stringifyElems_length (vs : List sj.Value) (indent step : Nat) :
    vs.length ≤ (sj.stringifyElems vs indent step).length := by
  induction vs with
  | nil => simp
  | cons v more ih =>
    rw [sj.stringifyElems_cons]
    simp only [List.length_append, List.length_cons, List.length_nil]
    omega

/-- The text of a configuration is longer than the number of its processes. -/
theorem appConfigToJson_length (cfg : AppConfig) :
    cfg.processes.length + 17 ≤ (appConfigToJson cfg).length := by
  unfold appConfigToJson
  rw [rootObject_eq, sj.stringify, sj.stringifyMembers_cons, sj.stringifyMembers_cons]
  have hkey : (sj.escapeString (ascii "autoStartOnOpen")).length = 17 := by decide
  have harr : cfg.processes.length ≤
      (sj.stringify (sj.Value.array (cfg.processes.map processObject)) (0 + 2) 2).length := by
    cases hps : cfg.processes with
    | nil => simp
    | cons p more =>
      rw [List.map_cons, sj.stringify]
      have := stringifyElems_length (processObject p :: more.map processObject) (0 + 2) 2
      simp only [List.length_cons, List.length_map] at this
      simp only [List.length_append, List.length_cons]
      omega
  simp only [List.length_append, hkey]
  omega

theorem loadProcesses_processObject (newId : Nat → List Nat) (ps : List ProcessConfig)
    (i : Nat) (h : ∀ p ∈ ps, isInt32 p.delaySeconds ∧ isInt32 p.guardDelaySeconds) :
    loadProcesses newId i (ps.map processObject) = ps := by
  induction ps generalizing i with
  | nil => rfl
  | cons p more ih =>
    have hp := h p (by simp)
    have h1 : sj.toInt32 p.delaySeconds = p.delaySeconds := by
      unfold sj.toInt32
      exact if_pos hp.1
    have h2 : sj.toInt32 p.guardDelaySeconds = p.guardDelaySeconds := by
      unfold sj.toInt32
      exact if_pos hp.2
    have hone : processFromValue (newId i) (processObject p) =
        { p with delaySeconds := sj.toInt32 p.delaySeconds,
                 guardDelaySeconds := sj.toInt32 p.guardDelaySeconds } := rfl
    simp only [List.map_cons, loadProcesses]
    rw [hone, h1, h2, ih (i + 1) (fun q hq => h q (by simp [hq]))]

/-- The configuration `load` reads from the text that `appConfigToJson` wrote. -/
theorem load_appConfigToJson (newId : Nat → List Nat) (cfg : AppConfig)
    (h : ∀ p ∈ cfg.processes, isInt32 p.delaySeconds ∧ isInt32 p.guardDelaySeconds) :
    sj.parse (appConfigToJson cfg) = some (rootObject cfg) ∧
    load newId (appConfigToJson cfg) = (true, cfg) := by
  have hlen := appConfigToJson_length cfg
  have hparse : sj.parse (appConfigToJson cfg) = some (rootObject cfg) := by
    unfold sj.parse
    have := parsesAt_rootObject cfg h (2 * (appConfigToJson cfg).length + 2) [] (by omega)
      (by intro c hc; cases hc)
    rw [List.append_nil] at this
    rw [this]
  refine ⟨hparse, ?_⟩
  have hne : appConfigToJson cfg ≠ [] := by
    intro he
    rw [he] at hlen
    simp at hlen
  unfold load
  rw [if_neg hne, hparse]
  simp only []
  have hauto : (if (rootObject cfg).contains (ascii "autoStartOnOpen") then
      ((rootObject cfg).member (ascii "autoStartOnOpen")).get_bool_or false else false) =
      cfg.autoStartOnOpen := rfl
  have hprocs : (if (rootObject cfg).contains (ascii "processes") then
      (match (rootObject cfg).member (ascii "processes") with
        | sj.Value.array arr => loadProcesses newId 0 arr
        | _ => [])
      else []) = loadProcesses newId 0 (cfg.processes.map processObject) := rfl
  rw [hauto, hprocs, loadProcesses_processObject newId cfg.processes 0 h]

end ConfigService
/-! ## C1 to C4: rejected and trivial requests -/

/-- C1: when `id` has a definition and its runtime entry is `Starting` or `Running`,
`startProcess id` returns `false` and leaves the whole world as it was: nothing is
launched, no status message is posted, and the entry keeps its pid, its process, job
and wait handles, its `guardStopped` flag and its status. -/
theorem C1_startProcess_duplicate_rejected (o : LaunchOutcome) (id : String) (w : World)
    (cfg : ProcessConfig) (mp : ManagedProcess)
    (hcfg : findConfig w.config id = some cfg)
    (hmp : mapFind w.m_procs id = some mp)
    (hst : mp.status = ProcStatus.Starting ∨ mp.status = ProcStatus.Running) :
    startProcess o id w = (false, w) := by
  unfold startProcess
  rw [hcfg]
  simp only [mapIndex_of_some hmp]
  rcases hst with h | h <;> simp [h]

/-- C1 at `p1` while it is `Running`: a second start is rejected and changes nothing. -/
theorem C1_startProcess_duplicate_rejected_witness :
    findConfig runningWorld.config "p1" = some sampleConfig ∧
    mapFind runningWorld.m_procs "p1" = some runningEntry ∧
    runningEntry.status = ProcStatus.Running ∧
    startProcess (sampleOutcome 2) "p1" runningWorld = (false, runningWorld) :=
  ⟨by decide, by decide, by decide,
    C1_startProcess_duplicate_rejected (sampleOutcome 2) "p1" runningWorld sampleConfig
      runningEntry (by decide) (by decide) (Or.inr (by decide))⟩

/-- C2 as stated fails: `p1` has a definition but no runtime entry (no `syncConfig`
has run), and `startProcess` creates the entry, returns `true` and posts `Starting`
and `Running`. -/
theorem C2_counterexample :
    mapFind freshWorld.m_procs "p1" = none ∧
    (startProcess (sampleOutcome 1) "p1" freshWorld).1 = true ∧
    (startProcess (sampleOutcome 1) "p1" freshWorld).2.posted =
      [{ id := "p1", status := ProcStatus.Starting },
        { id := "p1", status := ProcStatus.Running }] := by
  decide

/-- C2, amended: when `id` has neither a runtime entry nor a definition,
`startProcess id` returns `false` and leaves the world as it was; in particular no
status message is posted and no entry is created. -/
theorem C2_startProcess_unknown_id (o : LaunchOutcome) (id : String) (w : World)
    (habs : mapFind w.m_procs id = none)
    (hcfg : findConfig w.config id = none) :
    (startProcess o id w).1 = false ∧ (startProcess o id w).2.posted = w.posted ∧
      (startProcess o id w).2 = w := by
  simp [startProcess, hcfg]

/-- C2 amended, at the id `missing-id` in a world that only defines `p1`. -/
theorem C2_startProcess_unknown_id_witness :
    mapFind freshWorld.m_procs "missing-id" = none ∧
    findConfig freshWorld.config "missing-id" = none ∧
    (startProcess (sampleOutcome 1) "missing-id" freshWorld).1 = false ∧
    (startProcess (sampleOutcome 1) "missing-id" freshWorld).2.posted = freshWorld.posted ∧
    (startProcess (sampleOutcome 1) "missing-id" freshWorld).2 = freshWorld :=
  ⟨by decide, by decide,
    C2_startProcess_unknown_id (sampleOutcome 1) "missing-id" freshWorld
      (by decide) (by decide)⟩

/-- C3: when `id` has no runtime entry, `stopProcess id` returns `false` and leaves
the whole world as it was: no status message is posted, no Win32 call releases a
handle, and the runtime table is unchanged, so that `id` still has no entry. -/
theorem C3_stopProcess_unknown_id (id : String) (w : World)
    (habs : mapFind w.m_procs id = none) :
    stopProcess id w = (false, w) ∧ mapFind (stopProcess id w).2.m_procs id = none := by
  simp [stopProcess, habs]

/-- C3 at the id `missing-id` while `p1` is running. -/
theorem C3_stopProcess_unknown_id_witness :
    mapFind runningWorld.m_procs "missing-id" = none ∧
    stopProcess "missing-id" runningWorld = (false, runningWorld) ∧
    mapFind (stopProcess "missing-id" runningWorld).2.m_procs "missing-id" = none :=
  ⟨by decide, C3_stopProcess_unknown_id "missing-id" runningWorld (by decide)⟩

/-- C4 as stated fails: `p1` has a `Stopped` entry without process handle, but no
main window is set, and `stopProcess` posts no status message. -/
theorem C4_counterexample :
    mapFind windowlessSynced.m_procs "p1" =
      some { id := "p1", status := ProcStatus.Stopped } ∧
    (stopProcess "p1" windowlessSynced).1 = true ∧
    (stopProcess "p1" windowlessSynced).2.posted = [] := by
  decide

/-- C4, amended: when the entry of `id` holds no valid process handle, whatever its
status, `stopProcess id` returns `true` and within the call sets the status to
`Stopped` (setting `guardStopped` and clearing the job handle on the way); it posts
exactly one `Stopped` message for `id` when a main window is set, and none when no
main window is set. -/
theorem C4_stopProcess_without_process (id : String) (w : World) (mp : ManagedProcess)
    (hmp : mapFind w.m_procs id = some mp)
    (hno : mp.hProcess = HANDLE.INVALID_HANDLE_VALUE ∨ mp.hProcess = HANDLE.nullptr) :
    (stopProcess id w).1 = true ∧
    mapFind (stopProcess id w).2.m_procs id =
      some { mp with guardStopped := true, hJob := HANDLE.nullptr,
                     status := ProcStatus.Stopped } ∧
    (w.m_hwnd ≠ 0 → (stopProcess id w).2.posted =
      w.posted ++ [{ id := id, status := ProcStatus.Stopped }]) ∧
    (w.m_hwnd = 0 → (stopProcess id w).2.posted = w.posted) := by
  have hcond : ¬ (mp.hProcess ≠ HANDLE.INVALID_HANDLE_VALUE ∧ mp.hProcess ≠ HANDLE.nullptr) := by
    rcases hno with h | h <;> simp [h]
  unfold stopProcess
  rw [hmp]
  simp only [hcond, if_false]
  by_cases hj : mp.hJob = HANDLE.nullptr <;> by_cases hw : w.m_hwnd = 0 <;>
    simp [hj, hw, mapIndex, mapFind_mapSet_self, notifyStatus]

/-- C4 amended, at `p1` while it waits in `Restarting` for its guard delay. -/
theorem C4_stopProcess_without_process_witness :
    mapFind restartingWorld.m_procs "p1" = some restartingEntry ∧
    restartingEntry.hProcess = HANDLE.INVALID_HANDLE_VALUE ∧
    restartingWorld.m_hwnd ≠ 0 ∧
    (stopProcess "p1" restartingWorld).1 = true ∧
    mapFind (stopProcess "p1" restartingWorld).2.m_procs "p1" =
      some { guardStopped := true, status := ProcStatus.Stopped } ∧
    (stopProcess "p1" restartingWorld).2.posted =
      restartingWorld.posted ++ [{ id := "p1", status := ProcStatus.Stopped }] :=
  have h := C4_stopProcess_without_process "p1" restartingWorld restartingEntry
    (by decide) (Or.inl (by decide))
  ⟨by decide, by decide, by decide, h.1, h.2.1, h.2.2.1 (by decide)⟩

/-! ## C5 to C7: exit handling -/

/-- C5 as stated fails: `p1` runs unguarded and was not stopped by the user, but no
main window is set, and `onProcessExited` posts no status message. -/
theorem C5_counterexample :
    mapFind windowlessUnguarded.m_procs "p1" = some runningEntry ∧
    runningEntry.guardStopped = false ∧
    findConfig windowlessUnguarded.config "p1" = some unguardedConfig ∧
    unguardedConfig.guardEnabled = false ∧
    statusOf (onProcessExited "p1" 101 1 windowlessUnguarded) "p1" =
      some ProcStatus.Stopped ∧
    (onProcessExited "p1" 101 1 windowlessUnguarded).posted =
      windowlessUnguarded.posted := by
  decide

/-- C5, amended: when the entry of `id` has `guardStopped = false` and the definition
of `id` has `guardEnabled = false`, `onProcessExited id` sets the status to `Stopped`,
spawns no thread (no delayed restart) and creates no process; it posts exactly one
`Stopped` message for `id` when a main window is set, and none when no main window is
set. -/
theorem C5_exit_without_guard (id : String) (pid exitCode : Nat) (w : World)
    (mp : ManagedProcess) (cfg : ProcessConfig)
    (hmp : mapFind w.m_procs id = some mp) (hgs : mp.guardStopped = false)
    (hcfg : findConfig w.config id = some cfg) (hg : cfg.guardEnabled = false) :
    statusOf (onProcessExited id pid exitCode w) id = some ProcStatus.Stopped ∧
    (onProcessExited id pid exitCode w).threads = w.threads ∧
    launchCount (onProcessExited id pid exitCode w).os = launchCount w.os ∧
    (w.m_hwnd ≠ 0 → (onProcessExited id pid exitCode w).posted =
      w.posted ++ [{ id := id, status := ProcStatus.Stopped }]) ∧
    (w.m_hwnd = 0 → (onProcessExited id pid exitCode w).posted = w.posted) := by
  rw [onProcessExited_stopped id pid exitCode w mp hmp (Or.inr (Or.inr ⟨cfg, hcfg, hg⟩))]
  refine ⟨?_, ?_, ?_, ?_, ?_⟩
  · simp [statusOf, mapFind_mapSet_self]
  · simp
  · simp
  · intro hw
    simp [notifyStatus, hw]
  · intro hw
    simp [notifyStatus, hw]

/-- C5 amended, at `p1` running with its guard switched off. -/
theorem C5_exit_without_guard_witness :
    mapFind unguardedRunning.m_procs "p1" = some runningEntry ∧
    runningEntry.guardStopped = false ∧
    findConfig unguardedRunning.config "p1" = some unguardedConfig ∧
    unguardedConfig.guardEnabled = false ∧
    unguardedRunning.m_hwnd ≠ 0 ∧
    statusOf (onProcessExited "p1" 101 1 unguardedRunning) "p1" = some ProcStatus.Stopped ∧
    (onProcessExited "p1" 101 1 unguardedRunning).threads = unguardedRunning.threads ∧
    launchCount (onProcessExited "p1" 101 1 unguardedRunning).os =
      launchCount unguardedRunning.os ∧
    (onProcessExited "p1" 101 1 unguardedRunning).posted =
      unguardedRunning.posted ++ [{ id := "p1", status := ProcStatus.Stopped }] :=
  have h := C5_exit_without_guard "p1" 101 1 unguardedRunning runningEntry unguardedConfig
    (by decide) (by decide) (by decide) (by decide)
  ⟨by decide, by decide, by decide, by decide, by decide, h.1, h.2.1, h.2.2.1,
    h.2.2.2.1 (by decide)⟩

/-- C6 as stated fails: `p1` runs guarded and was not stopped by the user, but no
main window is set; `onProcessExited` sets `Restarting` and spawns the guard-delay
thread, yet posts no status message. -/
theorem C6_counterexample :
    mapFind windowlessRunning.m_procs "p1" = some runningEntry ∧
    runningEntry.guardStopped = false ∧
    findConfig windowlessRunning.config "p1" = some sampleConfig ∧
    sampleConfig.guardEnabled = true ∧
    statusOf (onProcessExited "p1" 101 1 windowlessRunning) "p1" =
      some ProcStatus.Restarting ∧
    (onProcessExited "p1" 101 1 windowlessRunning).posted = [] := by
  decide

/-- C6, amended: when the entry of `id` has `guardStopped = false` and the definition
of `id` has `guardEnabled = true` and `guardDelaySeconds = N`, `onProcessExited id`
sets the status to `Restarting` in that step, creates no process itself, and spawns
exactly one thread: the guard-delay thread of `id`, sleeping `N` seconds from now.
That thread cannot wake, hence cannot launch, in any world whose clock has not yet
advanced by `N` seconds. A `Restarting` message for `id` is posted when a main window
is set, and none when no main window is set. -/
theorem C6_exit_with_guard (id : String) (pid exitCode : Nat) (w : World)
    (mp : ManagedProcess) (cfg : ProcessConfig) (N : Int)
    (hmp : mapFind w.m_procs id = some mp) (hgs : mp.guardStopped = false)
    (hcfg : findConfig w.config id = some cfg) (hg : cfg.guardEnabled = true)
    (hN : cfg.guardDelaySeconds = N) :
    statusOf (onProcessExited id pid exitCode w) id = some ProcStatus.Restarting ∧
    (onProcessExited id pid exitCode w).threads = w.threads ++
      [{ body := ThreadBody.guardDelay id, sleepMs := N * 1000, spawnedAt := w.now }] ∧
    launchCount (onProcessExited id pid exitCode w).os = launchCount w.os ∧
    (∀ (w2 : World) (i : Nat) (o : LaunchOutcome)
        (snaps : List (Option (List PROCESSENTRY32W))),
      w2.threads[i]? = some
        { body := ThreadBody.guardDelay id, sleepMs := N * 1000, spawnedAt := w.now } →
      (w2.now : Int) < (w.now : Int) + N * 1000 →
      wake i o snaps w2 = none) ∧
    (w.m_hwnd ≠ 0 → (onProcessExited id pid exitCode w).posted =
      w.posted ++ [{ id := id, status := ProcStatus.Restarting }]) ∧
    (w.m_hwnd = 0 → (onProcessExited id pid exitCode w).posted = w.posted) := by
  rw [onProcessExited_restarting id pid exitCode w mp cfg hmp hgs hcfg hg]
  refine ⟨?_, ?_, ?_, ?_, ?_, ?_⟩
  · simp [statusOf, mapFind_mapSet_self]
  · simp [hN]
  · simp
  · intro w2 i o snaps ht hlt
    apply wake_asleep i o snaps w2 _ ht
    simp only [SleepingThread.due]
    omega
  · intro hw
    simp [notifyStatus, hw]
  · intro hw
    simp [notifyStatus, hw]

/-- C6 amended, at `p1` running guarded with a delay of three seconds. -/
theorem C6_exit_with_guard_witness :
    mapFind runningWorld.m_procs "p1" = some runningEntry ∧
    runningEntry.guardStopped = false ∧
    findConfig runningWorld.config "p1" = some sampleConfig ∧
    sampleConfig.guardEnabled = true ∧ sampleConfig.guardDelaySeconds = 3 ∧
    runningWorld.m_hwnd ≠ 0 ∧
    statusOf (onProcessExited "p1" 101 1 runningWorld) "p1" = some ProcStatus.Restarting ∧
    (onProcessExited "p1" 101 1 runningWorld).threads = runningWorld.threads ++
      [{ body := ThreadBody.guardDelay "p1", sleepMs := 3 * 1000,
         spawnedAt := runningWorld.now }] ∧
    launchCount (onProcessExited "p1" 101 1 runningWorld).os = launchCount runningWorld.os ∧
    wake 0 (sampleOutcome 2) [] (tick 2999 (onProcessExited "p1" 101 1 runningWorld)) = none ∧
    (onProcessExited "p1" 101 1 runningWorld).posted =
      runningWorld.posted ++ [{ id := "p1", status := ProcStatus.Restarting }] :=
  have h := C6_exit_with_guard "p1" 101 1 runningWorld runningEntry sampleConfig 3
    (by decide) (by decide) (by decide) (by decide) (by decide)
  ⟨by decide, by decide, by decide, by decide, by decide, by decide, h.1, h.2.1, h.2.2.1,
    h.2.2.2.1 (tick 2999 (onProcessExited "p1" 101 1 runningWorld)) 0 (sampleOutcome 2) []
      (by decide) (by decide),
    h.2.2.2.2.1 (by decide)⟩

/-- C7 as stated fails: `p1` is `Running` with a live process handle, but no main
window is set; `stopProcess` followed by `onProcessExited` ends in `Stopped` without
any status message having been posted. -/
theorem C7_counterexample :
    mapFind windowlessRunning.m_procs "p1" = some runningEntry ∧
    runningEntry.status = ProcStatus.Running ∧
    runningEntry.hProcess = HANDLE.h 10 ∧
    statusOf (onProcessExited "p1" 101 0 (stopProcess "p1" windowlessRunning).2) "p1" =
      some ProcStatus.Stopped ∧
    (onProcessExited "p1" 101 0 (stopProcess "p1" windowlessRunning).2).posted = [] := by
  decide

/-- C7, amended: when the entry of `id` is `Running` with a live process handle,
`stopProcess id` followed by `onProcessExited id` ends with status `Stopped`, with
`guardStopped` set and every handle of the entry released, with no thread spawned (no
restart scheduled) and no process created, whatever the definition of `id` says about
the guard. Exactly one `Stopped` message for `id` is posted when a main window is
set, and none when no main window is set. The release is in the trace of Win32
calls: the stop closes the job handle the entry held (if any) and terminates the
process, the exit handler unregisters the wait (if one was registered) and closes the
process handle, and no other call is made. -/
theorem C7_stop_wins_over_guard (id : String) (pid exitCode : Nat) (w : World)
    (mp : ManagedProcess)
    (hmp : mapFind w.m_procs id = some mp) (hst : mp.status = ProcStatus.Running)
    (h1 : mp.hProcess ≠ HANDLE.INVALID_HANDLE_VALUE) (h2 : mp.hProcess ≠ HANDLE.nullptr) :
    (stopProcess id w).1 = true ∧
    mapFind (onProcessExited id pid exitCode (stopProcess id w).2).m_procs id =
      some { mp with hProcess := HANDLE.INVALID_HANDLE_VALUE, pid := 0,
                     hWait := HANDLE.nullptr, hJob := HANDLE.nullptr,
                     guardStopped := true, status := ProcStatus.Stopped } ∧
    (onProcessExited id pid exitCode (stopProcess id w).2).threads = w.threads ∧
    launchCount (onProcessExited id pid exitCode (stopProcess id w).2).os =
      launchCount w.os ∧
    (w.m_hwnd ≠ 0 → (onProcessExited id pid exitCode (stopProcess id w).2).posted =
      w.posted ++ [{ id := id, status := ProcStatus.Stopped }]) ∧
    (w.m_hwnd = 0 → (onProcessExited id pid exitCode (stopProcess id w).2).posted =
      w.posted) ∧
    (onProcessExited id pid exitCode (stopProcess id w).2).os =
      w.os ++ closeJob mp.hJob ++ [OsCall.TerminateProcess mp.hProcess] ++
        (if mp.hWait ≠ HANDLE.nullptr then [OsCall.UnregisterWaitEx mp.hWait] else []) ++
        [OsCall.CloseHandle mp.hProcess] ∧
    (mp.hJob ≠ HANDLE.nullptr → OsCall.CloseHandle mp.hJob ∈
      (onProcessExited id pid exitCode (stopProcess id w).2).os) ∧
    (mp.hWait ≠ HANDLE.nullptr → OsCall.UnregisterWaitEx mp.hWait ∈
      (onProcessExited id pid exitCode (stopProcess id w).2).os) ∧
    OsCall.CloseHandle mp.hProcess ∈
      (onProcessExited id pid exitCode (stopProcess id w).2).os := by
  have hos : (onProcessExited id pid exitCode (stopProcess id w).2).os =
      w.os ++ closeJob mp.hJob ++ [OsCall.TerminateProcess mp.hProcess] ++
        (if mp.hWait ≠ HANDLE.nullptr then [OsCall.UnregisterWaitEx mp.hWait] else []) ++
        [OsCall.CloseHandle mp.hProcess] := by
    have hentry := stopProcess_entry id w mp hmp
    rw [(onProcessExited_entry id pid exitCode (stopProcess id w).2 (stoppedEntry mp)
      hentry).1, stopProcess_live id w mp hmp h1 h2]
    simp [cleanupCalls, stoppedEntry, h1, h2]
  rw [hos]
  rw [stopProcess_live id w mp hmp h1 h2]
  have hmp1 : mapFind (mapSet w.m_procs id
      { mp with guardStopped := true, hJob := HANDLE.nullptr }) id =
      some { mp with guardStopped := true, hJob := HANDLE.nullptr } :=
    mapFind_mapSet_self _ _ _
  rw [onProcessExited_stopped id pid exitCode _ _ hmp1 (Or.inl rfl)]
  refine ⟨rfl, ?_, ?_, ?_, ?_, ?_, rfl, ?_, ?_, ?_⟩
  rotate_left 5
  · intro hj
    simp [closeJob, hj]
  · intro hw
    simp [hw]
  · simp
  · simp only [notifyStatus_m_procs, mapSet_mapSet, mapFind_mapSet_self]
    by_cases hw : mp.hWait = HANDLE.nullptr <;>
      simp [cleanupProcess, hw, h1, h2]
  · simp
  · simp only [notifyStatus_os, cleanupProcess_launchCount, launchCount_append,
      launchCount_closeJob]
    simp [launchCount, OsCall.isLaunch]
  · intro hw
    simp [notifyStatus, hw]
  · intro hw
    simp [notifyStatus, hw]

/-- C7 amended, at `p1` running under an enabled guard. -/
theorem C7_stop_wins_over_guard_witness :
    mapFind runningWorld.m_procs "p1" = some runningEntry ∧
    runningEntry.status = ProcStatus.Running ∧
    runningEntry.hProcess = HANDLE.h 10 ∧
    findConfig runningWorld.config "p1" = some sampleConfig ∧
    sampleConfig.guardEnabled = true ∧
    runningWorld.m_hwnd ≠ 0 ∧
    (stopProcess "p1" runningWorld).1 = true ∧
    mapFind (onProcessExited "p1" 101 0 (stopProcess "p1" runningWorld).2).m_procs "p1" =
      some { guardStopped := true, status := ProcStatus.Stopped } ∧
    (onProcessExited "p1" 101 0 (stopProcess "p1" runningWorld).2).threads =
      runningWorld.threads ∧
    launchCount (onProcessExited "p1" 101 0 (stopProcess "p1" runningWorld).2).os =
      launchCount runningWorld.os ∧
    (onProcessExited "p1" 101 0 (stopProcess "p1" runningWorld).2).posted =
      runningWorld.posted ++ [{ id := "p1", status := ProcStatus.Stopped }] ∧
    (onProcessExited "p1" 101 0 (stopProcess "p1" runningWorld).2).os =
      runningWorld.os ++ [OsCall.CloseHandle (HANDLE.h 12),
        OsCall.TerminateProcess (HANDLE.h 10), OsCall.UnregisterWaitEx (HANDLE.h 13),
        OsCall.CloseHandle (HANDLE.h 10)] :=
  have h := C7_stop_wins_over_guard "p1" 101 0 runningWorld runningEntry
    (by decide) (by decide) (by decide) (by decide)
  ⟨by decide, by decide, by decide, by decide, by decide, by decide, h.1, h.2.1, h.2.2.1,
    h.2.2.2.1, h.2.2.2.2.1 (by decide), h.2.2.2.2.2.2.1⟩

/-! ## C8 and C9: the guard delay -/

/-- C9 as stated fails in two ways. Without a main window the three steps post no
status message at all. With a main window but `p1` already `Running`, the start is
rejected and the messages posted are `Restarting`, `Running` only. -/
theorem C9_counterexample :
    (∃ w3, wake 0 (sampleOutcome 2) []
        (tick 3000 (onProcessExited "p1" 101 1
          (startProcess (sampleOutcome 1) "p1" windowlessWorld).2)) = some w3 ∧
      statusOf w3 "p1" = some ProcStatus.Running ∧ w3.posted = []) ∧
    (∃ w3, wake 0 (sampleOutcome 3) []
        (tick 3000 (onProcessExited "p1" 101 1
          (startProcess (sampleOutcome 2) "p1" runningWorld).2)) = some w3 ∧
      (startProcess (sampleOutcome 2) "p1" runningWorld).1 = false ∧
      w3.posted = runningWorld.posted ++
        [{ id := "p1", status := ProcStatus.Restarting },
          { id := "p1", status := ProcStatus.Running }]) :=
  ⟨⟨_, rfl, by decide, by decide⟩, ⟨_, rfl, by decide, by decide⟩⟩

/-- C9, amended: with a main window set, for a definition of `id` of type `exe` with
start delay 0, guard enabled and guard delay 3, an entry of `id` that is absent or
neither `Starting` nor `Running`, and process creation succeeding both times:
`startProcess id` is accepted and posts `Starting`, `Running`; the exit notification
posts `Restarting` and spawns one guard-delay thread sleeping 3000 ms, so that the
messages so far are `Starting`, `Running`, `Restarting`; that thread cannot wake
before 3000 ms have passed; when it wakes afterwards it posts the second `Running`,
for a second created process whose id and handles are then stored in the entry. -/
theorem C9_guarded_restart_scenario (id : String) (w : World) (cfg : ProcessConfig)
    (o1 o2 : LaunchOutcome) (pid exitCode : Nat)
    (snaps : List (Option (List PROCESSENTRY32W)))
    (hw : w.m_hwnd ≠ 0)
    (hcfg : findConfig w.config id = some cfg)
    (hty : cfg.type = "exe") (hdelay : cfg.delaySeconds = 0)
    (hg : cfg.guardEnabled = true) (hN : cfg.guardDelaySeconds = 3)
    (hst : ∀ mp, mapFind w.m_procs id = some mp →
      mp.status ≠ ProcStatus.Running ∧ mp.status ≠ ProcStatus.Starting)
    (hok1 : o1.ok = true) (hok2 : o2.ok = true) :
    (startProcess o1 id w).1 = true ∧
    (startProcess o1 id w).2.posted = w.posted ++
      [{ id := id, status := ProcStatus.Starting },
        { id := id, status := ProcStatus.Running }] ∧
    (onProcessExited id pid exitCode (startProcess o1 id w).2).posted = w.posted ++
      [{ id := id, status := ProcStatus.Starting },
        { id := id, status := ProcStatus.Running },
        { id := id, status := ProcStatus.Restarting }] ∧
    (onProcessExited id pid exitCode (startProcess o1 id w).2).threads = w.threads ++
      [{ body := ThreadBody.guardDelay id, sleepMs := 3000, spawnedAt := w.now }] ∧
    launchCount (onProcessExited id pid exitCode (startProcess o1 id w).2).os =
      launchCount w.os + 1 ∧
    (∀ ms : Nat, ms < 3000 →
      wake w.threads.length o2 snaps
        (tick ms (onProcessExited id pid exitCode (startProcess o1 id w).2)) = none) ∧
    (∀ ms : Nat, 3000 ≤ ms →
      ∃ w3, wake w.threads.length o2 snaps
          (tick ms (onProcessExited id pid exitCode (startProcess o1 id w).2)) = some w3 ∧
        w3.posted = w.posted ++
          [{ id := id, status := ProcStatus.Starting },
            { id := id, status := ProcStatus.Running },
            { id := id, status := ProcStatus.Restarting },
            { id := id, status := ProcStatus.Running }] ∧
        (∃ e, mapFind w3.m_procs id = some e ∧ e.status = ProcStatus.Running ∧
          e.pid = o2.dwProcessId ∧ e.hProcess = o2.hProcess ∧ e.hJob = o2.hJob ∧
          e.hWait = o2.hWait) ∧
        launchCount w3.os = launchCount w.os + 2 ∧
        w3.threads = w.threads) := by
  have hbat : cfg.type ≠ "bat" := by rw [hty]; decide
  rw [startProcess_accepted_now o1 id w cfg hcfg (by omega) hst]
  simp only []
  generalize hwS : notifyStatus id ProcStatus.Starting
    { w with
      m_procs := mapSet w.m_procs id
        { (mapIndex w.m_procs id).1 with
          guardStopped := false, status := ProcStatus.Starting } } = wS
  have hSposted : wS.posted = w.posted ++ [{ id := id, status := ProcStatus.Starting }] := by
    rw [← hwS]; simp [notifyStatus, hw]
  have hSthreads : wS.threads = w.threads := by rw [← hwS]; simp
  have hSconfig : wS.config = w.config := by rw [← hwS]; simp
  have hShwnd : wS.m_hwnd = w.m_hwnd := by rw [← hwS]; simp
  have hSnow : wS.now = w.now := by rw [← hwS]; simp
  have hSos : wS.os = w.os := by rw [← hwS]; simp
  have hScfg : findConfig wS.config id = some cfg := by rw [hSconfig]; exact hcfg
  have h1entry := launchNow_ok_entry o1 id wS cfg hScfg hok1
  have h1posted := launchNow_ok_posted o1 id wS cfg hScfg hok1 (by rw [hShwnd]; exact hw)
  have h1threads := launchNow_ok_threads o1 id wS cfg hScfg hok1 hbat
  have h1count := launchNow_ok_launchCount o1 id wS cfg hScfg hok1
  generalize hw1 : (launchNow o1 id wS).2 = w1 at h1entry h1posted h1threads h1count
  have h1config : w1.config = w.config := by rw [← hw1, launchNow_config, hSconfig]
  have h1hwnd : w1.m_hwnd = w.m_hwnd := by rw [← hw1, launchNow_m_hwnd, hShwnd]
  have h1now : w1.now = w.now := by rw [← hw1, launchNow_now, hSnow]
  have h1cfg : findConfig w1.config id = some cfg := by rw [h1config]; exact hcfg
  have hw1ne : w1.m_hwnd ≠ 0 := by rw [h1hwnd]; exact hw
  have h2 := onProcessExited_restarting id pid exitCode w1 _ cfg h1entry rfl h1cfg hg
  have h2posted : (onProcessExited id pid exitCode w1).posted = w.posted ++
      [{ id := id, status := ProcStatus.Starting },
        { id := id, status := ProcStatus.Running },
        { id := id, status := ProcStatus.Restarting }] := by
    rw [h2]; simp [notifyStatus, hw1ne, h1posted, hSposted]
  have h2threads : (onProcessExited id pid exitCode w1).threads = w.threads ++
      [{ body := ThreadBody.guardDelay id, sleepMs := 3000, spawnedAt := w.now }] := by
    rw [h2]; simp [hN, h1threads, hSthreads, h1now]
  have h2count : launchCount (onProcessExited id pid exitCode w1).os =
      launchCount w.os + 1 := by
    rw [h2]
    simp only [notifyStatus_os, cleanupProcess_launchCount, h1count, hSos]
  have h2entry : mapFind (onProcessExited id pid exitCode w1).m_procs id =
      some { (cleanupProcess
          { id := (mapIndex wS.m_procs id).1.id, hProcess := o1.hProcess,
            pid := o1.dwProcessId, hWait := o1.hWait, hJob := o1.hJob,
            guardStopped := false, status := ProcStatus.Running } w1.os).1 with
        status := ProcStatus.Restarting } := by
    rw [h2]; simp [mapFind_mapSet_self]
  have h2cfg : findConfig (onProcessExited id pid exitCode w1).config id = some cfg := by
    rw [h2]; simpa using h1cfg
  have h2hwnd : (onProcessExited id pid exitCode w1).m_hwnd ≠ 0 := by
    rw [h2]; simpa using hw1ne
  have h2now : (onProcessExited id pid exitCode w1).now = w.now := by
    rw [h2]; simpa using h1now
  clear h2
  generalize onProcessExited id pid exitCode w1 = w2 at *
  refine ⟨trivial, ?_, h2posted, h2threads, h2count, ?_, ?_⟩
  · rw [h1posted, hSposted]; simp
  · intro ms hms
    apply wake_asleep w.threads.length o2 snaps _
      { body := ThreadBody.guardDelay id, sleepMs := 3000, spawnedAt := w.now }
    · simp [tick, h2threads]
    · simp only [SleepingThread.due, tick, h2now]
      omega
  · intro ms hms
    obtain ⟨w3, hwake, hp, he, hl, hth⟩ := wake_guard_relaunch id w.threads.length o2 snaps
      (tick ms w2)
      { body := ThreadBody.guardDelay id, sleepMs := 3000, spawnedAt := w.now }
      _ cfg (by simp [tick, h2threads]) rfl
      (by simp only [SleepingThread.due, tick, h2now]; omega)
      (by simp only [tick]; exact h2entry)
      (by simp)
      (by simp only [tick]; exact h2cfg) hok2
      (by simp only [tick]; exact h2hwnd) hbat
    refine ⟨w3, hwake, ?_, ⟨_, he, rfl, rfl, rfl, rfl, rfl⟩, ?_, ?_⟩
    · rw [hp]
      simp [tick, h2posted]
    · rw [hl]
      simp only [tick, h2count]
    · rw [hth]
      simp [tick, h2threads, List.eraseIdx_append_of_length_le (Nat.le_refl _)]

/-- C9 amended, at `p1` in a world with a main window and an empty runtime table. -/
theorem C9_guarded_restart_scenario_witness :
    freshWorld.m_hwnd ≠ 0 ∧
    findConfig freshWorld.config "p1" = some sampleConfig ∧
    sampleConfig.type = "exe" ∧ sampleConfig.delaySeconds = 0 ∧
    sampleConfig.guardEnabled = true ∧ sampleConfig.guardDelaySeconds = 3 ∧
    mapFind freshWorld.m_procs "p1" = none ∧
    (startProcess (sampleOutcome 1) "p1" freshWorld).2.posted =
      [{ id := "p1", status := ProcStatus.Starting },
        { id := "p1", status := ProcStatus.Running }] ∧
    wake 0 (sampleOutcome 2) [] (tick 2999 (onProcessExited "p1" 101 1
      (startProcess (sampleOutcome 1) "p1" freshWorld).2)) = none ∧
    ∃ w3, wake 0 (sampleOutcome 2) [] (tick 3000 (onProcessExited "p1" 101 1
        (startProcess (sampleOutcome 1) "p1" freshWorld).2)) = some w3 ∧
      w3.posted =
        [{ id := "p1", status := ProcStatus.Starting },
          { id := "p1", status := ProcStatus.Running },
          { id := "p1", status := ProcStatus.Restarting },
          { id := "p1", status := ProcStatus.Running }] ∧
      (∃ e, mapFind w3.m_procs "p1" = some e ∧ e.status = ProcStatus.Running ∧
        e.pid = 102 ∧ e.hProcess = HANDLE.h 20 ∧ e.hJob = HANDLE.h 22 ∧
        e.hWait = HANDLE.h 23) ∧
      launchCount w3.os = 2 ∧ w3.threads = [] :=
  have h := C9_guarded_restart_scenario "p1" freshWorld sampleConfig (sampleOutcome 1)
    (sampleOutcome 2) 101 1 [] (by decide) (by decide) (by decide) (by decide)
    (by decide) (by decide) (by decide) (by decide) (by decide)
  ⟨by decide, by decide, by decide, by decide, by decide, by decide, by decide,
    h.2.1, h.2.2.2.2.2.1 2999 (by decide), h.2.2.2.2.2.2 3000 (by decide)⟩

/-! ## C10: a failed launch -/

/-- C10 as stated fails in two ways. Without a main window a failing `launchNow`
sets `Failed` but posts no message. And the entry does not always stay `Failed`
until a start or stop request: `p1` is `Restarting` with its guard-delay thread
asleep, a start request is accepted and its launch fails, leaving `Failed` with the
thread still asleep; when the thread wakes it launches again and `p1` is `Running`,
with no request in between. -/
theorem C10_counterexample :
    (findConfig windowlessSynced.config "p1" = some sampleConfig ∧
      statusOf (launchNow failedOutcome "p1" windowlessSynced).2 "p1" =
        some ProcStatus.Failed ∧
      (launchNow failedOutcome "p1" windowlessSynced).2.posted = []) ∧
    (statusOf (startProcess failedOutcome "p1" restartingWorld).2 "p1" =
        some ProcStatus.Failed ∧
      (startProcess failedOutcome "p1" restartingWorld).2.threads = [sampleGuardThread] ∧
      ∃ w3, wake 0 (sampleOutcome 2) []
          (tick 3000 (startProcess failedOutcome "p1" restartingWorld).2) = some w3 ∧
        statusOf w3 "p1" = some ProcStatus.Running) :=
  ⟨⟨by decide, by decide, by decide⟩, by decide, by decide, _, rfl, by decide⟩

/-- C10, amended: when `id` has a definition and process creation fails inside
`launchNow id`, the call returns `false`, the status of `id` becomes `Failed`, and no
thread is spawned (no restart is scheduled); this is also what a guard-delay thread
does when it relaunches and the creation fails. Exactly one `Failed` message is
posted when a main window is set, and none when no main window is set. Afterwards
the entry stays `Failed` through every sequence of steps in which no step is a start
or stop request that may reach `id` (`startAll` and `stopAll` included), an exit
notification for `id`, or the wake-up of a start-delay or guard-delay thread of `id`
that was already asleep. -/
theorem C10_launch_failure (o : LaunchOutcome) (id : String) (w : World)
    (cfg : ProcessConfig) (hcfg : findConfig w.config id = some cfg)
    (hok : o.ok = false) :
    (launchNow o id w).1 = false ∧
    statusOf (launchNow o id w).2 id = some ProcStatus.Failed ∧
    (launchNow o id w).2.threads = w.threads ∧
    (w.m_hwnd ≠ 0 → (launchNow o id w).2.posted =
      w.posted ++ [{ id := id, status := ProcStatus.Failed }]) ∧
    (w.m_hwnd = 0 → (launchNow o id w).2.posted = w.posted) ∧
    (∀ (i : Nat) (t : SleepingThread) (mp : ManagedProcess)
        (snaps : List (Option (List PROCESSENTRY32W))),
      w.threads[i]? = some t → t.body = ThreadBody.guardDelay id → t.due w.now →
      mapFind w.m_procs id = some mp → mp.guardStopped = false →
      ∃ w2, wake i o snaps w = some w2 ∧ statusOf w2 id = some ProcStatus.Failed ∧
        w2.threads = w.threads.eraseIdx i) ∧
    (∀ ops : List Op, quietFor id ops (launchNow o id w).2 →
      statusOf (runOps ops (launchNow o id w).2) id = some ProcStatus.Failed) := by
  have hfailed : ∀ w0 : World, findConfig w0.config id = some cfg →
      statusOf (launchNow o id w0).2 id = some ProcStatus.Failed ∧
      (launchNow o id w0).2.threads = w0.threads := by
    intro w0 h0
    rw [launchNow_failed o id w0 cfg h0 hok]
    simp [statusOf, mapSet_mapIndex, mapFind_mapSet_self]
  refine ⟨?_, (hfailed w hcfg).1, (hfailed w hcfg).2, ?_, ?_, ?_, ?_⟩
  · rw [launchNow_failed o id w cfg hcfg hok]
  · intro hw
    rw [launchNow_failed o id w cfg hcfg hok]
    simp [notifyStatus, hw]
  · intro hw
    rw [launchNow_failed o id w cfg hcfg hok]
    simp [notifyStatus, hw]
  · intro i t mp snaps ht hbody hdue hmp hgs
    refine ⟨_, wake_due i o snaps w t ht hdue, ?_⟩
    rw [hbody]
    simp only [runBody]
    rw [guardDelayBody_launch o id { w with threads := w.threads.eraseIdx i } mp hmp hgs]
    exact hfailed { w with threads := w.threads.eraseIdx i } hcfg
  · intro ops hq
    exact runOps_keeps_status ops id _ ProcStatus.Failed (hfailed w hcfg).1 hq

/-- C10 amended, at `p1` whose launch fails in a world with a main window; afterwards
time passes, `syncConfig` runs and a request for another id arrives, and `p1` is
still `Failed`. -/
theorem C10_launch_failure_witness :
    findConfig syncedWorld.config "p1" = some sampleConfig ∧
    failedOutcome.ok = false ∧ syncedWorld.m_hwnd ≠ 0 ∧
    (launchNow failedOutcome "p1" syncedWorld).1 = false ∧
    statusOf (launchNow failedOutcome "p1" syncedWorld).2 "p1" = some ProcStatus.Failed ∧
    (launchNow failedOutcome "p1" syncedWorld).2.threads = syncedWorld.threads ∧
    (launchNow failedOutcome "p1" syncedWorld).2.posted =
      syncedWorld.posted ++ [{ id := "p1", status := ProcStatus.Failed }] ∧
    statusOf (runOps [Op.tick 5000, Op.syncConfig, Op.stopProcess "p2"]
      (launchNow failedOutcome "p1" syncedWorld).2) "p1" = some ProcStatus.Failed :=
  have h := C10_launch_failure failedOutcome "p1" syncedWorld sampleConfig
    (by decide) (by decide)
  ⟨by decide, by decide, by decide, h.1, h.2.1, h.2.2.1, h.2.2.2.1 (by decide),
    h.2.2.2.2.2.2 [Op.tick 5000, Op.syncConfig, Op.stopProcess "p2"]
      (by simp [quietFor, Op.actsOn])⟩

/-! ## C11: status and handles after a stale delay thread -/

/-- C11 fails on the code. From the supervisor as constructed, the steps
`staleStartOps` followed by the wake-up of the second start-delay thread leave `p1`
with status `Stopped` while its entry still holds the live process handle, the wait
handle and the pid 101, so that `getPid` returns 101; and the steps `staleGuardOps`
followed by the wake-up of the guard-delay thread with a failing launch leave `p1`
with status `Failed` while its entry holds the process handle, the job handle and the
pid of the process started in between. -/
theorem C11_status_without_cleanup :
    Reachable (runOps (staleStartOps ++ [Op.wake 0 (sampleOutcome 2) []])
      (initialWorld 1 [delayedConfig])) ∧
    mapFind (runOps (staleStartOps ++ [Op.wake 0 (sampleOutcome 2) []])
        (initialWorld 1 [delayedConfig])).m_procs "p1" =
      some { hProcess := HANDLE.h 10, pid := 101, hWait := HANDLE.h 13,
             hJob := HANDLE.nullptr, guardStopped := true,
             status := ProcStatus.Stopped } ∧
    getStatus "p1" (runOps (staleStartOps ++ [Op.wake 0 (sampleOutcome 2) []])
      (initialWorld 1 [delayedConfig])) = ProcStatus.Stopped ∧
    getPid "p1" (runOps (staleStartOps ++ [Op.wake 0 (sampleOutcome 2) []])
      (initialWorld 1 [delayedConfig])) = 101 ∧
    Reachable (runOps (staleGuardOps ++ [Op.wake 0 failedOutcome []])
      (initialWorld 1 [sampleConfig])) ∧
    mapFind (runOps (staleGuardOps ++ [Op.wake 0 failedOutcome []])
        (initialWorld 1 [sampleConfig])).m_procs "p1" =
      some { hProcess := HANDLE.h 20, pid := 102, hWait := HANDLE.h 23,
             hJob := HANDLE.h 22, guardStopped := false,
             status := ProcStatus.Failed } ∧
    getPid "p1" (runOps (staleGuardOps ++ [Op.wake 0 failedOutcome []])
      (initialWorld 1 [sampleConfig])) = 102 :=
  ⟨⟨1, [delayedConfig], _, rfl⟩, by decide, by decide, by decide,
    ⟨1, [sampleConfig], _, rfl⟩, by decide, by decide⟩

/-! ## C12: when a termination group is released -/

/-- C14 fails on the code. With a main window set, after the steps `staleStartOps`
the entry of `p1` is `Running` with `guardStopped` set and one start-delay thread of
`p1` is asleep. When that thread wakes it sets the status to `Stopped` and posts
nothing: the step changes the status of `p1` without a status message. -/
theorem C14_silent_start_delay_cancel :
    (runOps staleStartOps (initialWorld 1 [delayedConfig])).m_hwnd = 1 ∧
    statusOf (runOps staleStartOps (initialWorld 1 [delayedConfig])) "p1" =
      some ProcStatus.Running ∧
    (runOps staleStartOps (initialWorld 1 [delayedConfig])).threads =
      [{ body := ThreadBody.startDelay "p1", sleepMs := 2000, spawnedAt := 1000 }] ∧
    (∃ w2, wake 0 (sampleOutcome 2) []
        (runOps staleStartOps (initialWorld 1 [delayedConfig])) = some w2 ∧
      statusOf w2 "p1" = some ProcStatus.Stopped ∧
      w2.posted = (runOps staleStartOps (initialWorld 1 [delayedConfig])).posted) :=
  ⟨by decide, by decide, by decide, _, rfl, by decide, by decide⟩

/-! ## C13: job handles are released once -/

/-- C13: for an id with an entry, `stopProcess` leaves the job handle of the entry
empty and closes the handle it took out exactly once: its Win32 calls are the one
`CloseHandle` on that handle (none when the entry held no job handle) followed by
`TerminateProcess` when a process handle is live. Over sequences of steps, for every
set `J` of handle values that the operating system uses for job objects only (never
for a process or thread, and neither `nullptr` nor `INVALID_HANDLE_VALUE`), the
ownership invariant `JobsBalanced` is preserved by every step and holds in the
supervisor as constructed: the job objects created with a handle are as many as the
`CloseHandle` calls on it plus the entries that hold it. Hence no job handle is closed
more often than it was created, and a handle value handed out once is closed at most
once, whatever the order of stops, exit notifications and launches. -/
theorem C13_job_handle_released_once :
    (∀ (id : String) (w : World) (mp : ManagedProcess),
      mapFind w.m_procs id = some mp →
      mapFind (stopProcess id w).2.m_procs id = some (stoppedEntry mp) ∧
      (stoppedEntry mp).hJob = HANDLE.nullptr ∧
      (stopProcess id w).2.os = w.os ++ closeJob mp.hJob ++
        (if mp.live then [OsCall.TerminateProcess mp.hProcess] else []) ∧
      (mp.hJob ≠ HANDLE.nullptr → closeJob mp.hJob = [OsCall.CloseHandle mp.hJob]) ∧
      (mp.hJob = HANDLE.nullptr → closeJob mp.hJob = [])) ∧
    (∀ (J : HANDLE → Prop) (w : World) (ops : List Op),
      ¬ J HANDLE.nullptr → ¬ J HANDLE.INVALID_HANDLE_VALUE →
      JobsBalanced J w → (∀ op ∈ ops, op.typed J) →
      JobsBalanced J (runOps ops w) ∧
      ∀ h, J h →
        closeCount h (runOps ops w).os ≤ jobCreateCount h (runOps ops w).os ∧
        (jobCreateCount h (runOps ops w).os ≤ 1 → closeCount h (runOps ops w).os ≤ 1)) ∧
    (∀ (J : HANDLE → Prop) (hwnd : Nat) (procs : List ProcessConfig),
      JobsBalanced J (initialWorld hwnd procs)) := by
  refine ⟨?_, ?_, ?_⟩
  · intro id w mp hmp
    refine ⟨stopProcess_entry id w mp hmp, rfl, ?_, ?_, ?_⟩
    · by_cases hlive : mp.hProcess ≠ HANDLE.INVALID_HANDLE_VALUE ∧
          mp.hProcess ≠ HANDLE.nullptr
      · rw [stopProcess_live id w mp hmp hlive.1 hlive.2]
        have hl : mp.live := hlive
        simp [hl]
      · have hno : mp.hProcess = HANDLE.INVALID_HANDLE_VALUE ∨
            mp.hProcess = HANDLE.nullptr := by
          by_cases h1 : mp.hProcess = HANDLE.INVALID_HANDLE_VALUE
          · exact Or.inl h1
          · by_cases h3 : mp.hProcess = HANDLE.nullptr
            · exact Or.inr h3
            · exact absurd ⟨h1, h3⟩ hlive
        rw [stopProcess_idle id w mp hmp hno]
        have hl : ¬ mp.live := hlive
        simp [hl]
    · intro h
      simp [closeJob, h]
    · intro h
      simp [closeJob, h]
  · intro J w ops hnull hinv hb hops
    have hfin := bal_runOps J hnull hinv ops w hops hb
    refine ⟨hfin, ?_⟩
    intro h hJ
    have hbal := hfin.2.2 h hJ
    exact ⟨by omega, by omega⟩
  · intro J hwnd procs
    exact bal_initialWorld J hwnd procs

/-- C13 at `p1`: a stop of the running `p1` closes its job handle once; and along the
sequence `ownershipOps` from the supervisor as constructed, the three job handles
handed out are each closed exactly once. -/
theorem C13_job_handle_released_once_witness :
    mapFind runningWorld.m_procs "p1" = some runningEntry ∧
    (stopProcess "p1" runningWorld).2.os = runningWorld.os ++
      [OsCall.CloseHandle (HANDLE.h 12)] ++ [OsCall.TerminateProcess (HANDLE.h 10)] ∧
    (∀ op ∈ ownershipOps, op.typed sampleJobs) ∧
    JobsBalanced sampleJobs (runOps ownershipOps (initialWorld 1 [sampleConfig])) ∧
    closeCount (HANDLE.h 12) (runOps ownershipOps (initialWorld 1 [sampleConfig])).os ≤
      jobCreateCount (HANDLE.h 12) (runOps ownershipOps (initialWorld 1 [sampleConfig])).os ∧
    jobCreateCount (HANDLE.h 12) (runOps ownershipOps (initialWorld 1 [sampleConfig])).os = 1 ∧
    closeCount (HANDLE.h 12) (runOps ownershipOps (initialWorld 1 [sampleConfig])).os = 1 ∧
    closeCount (HANDLE.h 22) (runOps ownershipOps (initialWorld 1 [sampleConfig])).os = 1 ∧
    closeCount (HANDLE.h 32) (runOps ownershipOps (initialWorld 1 [sampleConfig])).os = 1 :=
  have hA := C13_job_handle_released_once.1 "p1" runningWorld runningEntry (by decide)
  have htyped : ∀ op ∈ ownershipOps, op.typed sampleJobs := by
    simp [ownershipOps, Op.typed, LaunchOutcome.typed, sampleOutcome, sampleJobs]
  have hB := C13_job_handle_released_once.2.1 sampleJobs (initialWorld 1 [sampleConfig])
    ownershipOps (by simp [sampleJobs]) (by simp [sampleJobs])
    (C13_job_handle_released_once.2.2 sampleJobs 1 [sampleConfig]) htyped
  ⟨by decide, hA.2.2.1, htyped, hB.1, (hB.2 (HANDLE.h 12) (Or.inl rfl)).1, by decide,
    by decide, by decide, by decide⟩

/-! ## C15 and C16: synchronisation and queries -/

/-- C15: for every runtime table and definition list, `syncConfig` yields a table
whose keys are the old keys together with the ids of the definitions; every id that
was present keeps its entry exactly, and every id that is added gets the entry with
status `Stopped`, pid 0, no process, wait or job handle and `guardStopped = false`.
Nothing else in the world changes. -/
theorem C15_syncConfig_reconciles (w : World) :
    (∀ k : String, k ∈ mapKeys (syncConfig w).m_procs ↔
      (k ∈ mapKeys w.m_procs ∨ k ∈ w.config.map (fun pc => pc.id))) ∧
    (∀ (k : String) (mp : ManagedProcess), mapFind w.m_procs k = some mp →
      mapFind (syncConfig w).m_procs k = some mp) ∧
    (∀ k : String, mapFind w.m_procs k = none → k ∈ w.config.map (fun pc => pc.id) →
      mapFind (syncConfig w).m_procs k =
        some { id := k, hProcess := HANDLE.INVALID_HANDLE_VALUE, pid := 0,
               hWait := HANDLE.nullptr, hJob := HANDLE.nullptr, guardStopped := false,
               status := ProcStatus.Stopped }) ∧
    (syncConfig w).config = w.config ∧ (syncConfig w).posted = w.posted ∧
    (syncConfig w).threads = w.threads ∧ (syncConfig w).os = w.os ∧
    (syncConfig w).m_hwnd = w.m_hwnd ∧ (syncConfig w).now = w.now := by
  have hfind : ∀ k : String, mapFind (syncConfig w).m_procs k =
      match mapFind w.m_procs k with
      | some mp => some mp
      | none =>
        if k ∈ w.config.map (fun pc => pc.id) then
          some { id := k, status := ProcStatus.Stopped }
        else none := fun k => syncFold_find w.config w.m_procs k
  refine ⟨?_, ?_, ?_, rfl, rfl, rfl, rfl, rfl, rfl⟩
  · intro k
    rw [mem_mapKeys_iff, mem_mapKeys_iff, hfind k]
    cases h : mapFind w.m_procs k with
    | some mp => simp
    | none =>
      by_cases hk : k ∈ w.config.map (fun pc => pc.id)
      · simp only [hk, if_true, Option.isSome_some, Option.isSome_none, or_true]
      · simp [hk]
  · intro k mp h
    rw [hfind k, h]
  · intro k h hk
    rw [hfind k, h]
    simp only [hk, if_true]

/-- C15 at a world where `p1` runs and the definition list names `p1` and `p2`: the
entry of `p1` is kept and `p2` gets a fresh `Stopped` entry. -/
theorem C15_syncConfig_reconciles_witness :
    mapFind (syncConfig { runningWorld with
        config := [sampleConfig, { sampleConfig with id := "p2" }] }).m_procs "p1" =
      some runningEntry ∧
    mapFind (syncConfig { runningWorld with
        config := [sampleConfig, { sampleConfig with id := "p2" }] }).m_procs "p2" =
      some { id := "p2", hProcess := HANDLE.INVALID_HANDLE_VALUE, pid := 0,
             hWait := HANDLE.nullptr, hJob := HANDLE.nullptr, guardStopped := false,
             status := ProcStatus.Stopped } :=
  have h := C15_syncConfig_reconciles { runningWorld with
    config := [sampleConfig, { sampleConfig with id := "p2" }] }
  ⟨h.2.1 "p1" runningEntry (by decide), h.2.2.1 "p2" (by decide) (by decide)⟩

/-- C16: `getStatus id` is the status of the entry of `id` when there is one and
`Stopped` when there is none; `getPid id` is the pid of the entry when there is one
and 0 when there is none. Both are read through `find`, which inserts nothing: as
functions of the world they yield a value and no new world. -/
theorem C16_queries (id : String) (w : World) :
    (∀ mp : ManagedProcess, mapFind w.m_procs id = some mp →
      getStatus id w = mp.status ∧ getPid id w = mp.pid) ∧
    (mapFind w.m_procs id = none →
      getStatus id w = ProcStatus.Stopped ∧ getPid id w = 0) := by
  refine ⟨?_, ?_⟩
  · intro mp h
    simp [getStatus, getPid, h]
  · intro h
    simp [getStatus, getPid, h]

/-- C16 at `p1` while it runs, and at an id without entry. -/
theorem C16_queries_witness :
    mapFind runningWorld.m_procs "p1" = some runningEntry ∧
    getStatus "p1" runningWorld = ProcStatus.Running ∧ getPid "p1" runningWorld = 101 ∧
    mapFind runningWorld.m_procs "missing-id" = none ∧
    getStatus "missing-id" runningWorld = ProcStatus.Stopped ∧
    getPid "missing-id" runningWorld = 0 :=
  have h1 := (C16_queries "p1" runningWorld).1 runningEntry (by decide)
  have h2 := (C16_queries "missing-id" runningWorld).2 (by decide)
  ⟨by decide, h1.1, h1.2, by decide, h2.1, h2.2⟩

/-! ## C17: `startAll` -/

/-- C17: `startAll` is `syncConfig` followed by one `startProcess` for the id of each
enabled definition, in definition order, every one of them issued whatever the
earlier ones returned. When the ids of the definition list are unique, a disabled
definition is not started: its entry is the one it had after the synchronisation and
no posted message carries its id; and each enabled id ends with the entry that a
`startProcess` of that id alone, right after the synchronisation, would give it, so
that a failed or rejected start of another id does not affect it. -/
theorem C17_startAll (os : Nat → LaunchOutcome) (w : World)
    (hnd : (w.config.map (fun pc => pc.id)).Nodup) :
    startAll os w = runOps (startOps os 0 (enabledIds w.config)) (syncConfig w) ∧
    (∀ pc ∈ w.config, pc.enabled = false →
      mapFind (startAll os w).m_procs pc.id = mapFind (syncConfig w).m_procs pc.id ∧
      ∃ evs, (startAll os w).posted = w.posted ++ evs ∧ ∀ e ∈ evs, e.id ≠ pc.id) ∧
    (∀ (pre post : List String) (id : String),
      enabledIds w.config = pre ++ id :: post →
      mapFind (startAll os w).m_procs id =
        mapFind (startProcess (os pre.length) id (syncConfig w)).2.m_procs id) := by
  have heq := startAll_eq_runOps os w
  have hnd2 : (enabledIds w.config).Nodup := by
    unfold enabledIds
    exact hnd.sublist (List.Sublist.map _ (List.filter_sublist _))
  refine ⟨heq, ?_, ?_⟩
  · intro pc hpc hdis
    have hnot : pc.id ∉ enabledIds w.config := by
      intro hmem
      simp only [enabledIds, List.mem_map, List.mem_filter] at hmem
      obtain ⟨pc2, ⟨hpc2, hen⟩, hid⟩ := hmem
      have := List.inj_on_of_nodup_map hnd hpc2 hpc hid
      rw [this, hdis] at hen
      exact Bool.noConfusion hen
    rw [heq]
    refine ⟨startOps_frame os _ 0 _ pc.id hnot, ?_⟩
    obtain ⟨evs, h1, h2⟩ := startOps_posted os (enabledIds w.config) 0 (syncConfig w)
    refine ⟨evs, h1, ?_⟩
    intro e he hid
    exact hnot (hid ▸ h2 e he)
  · intro pre post id hsplit
    rw [heq, hsplit]
    have h := startOps_entry os pre post id 0 (syncConfig w) (hsplit ▸ hnd2)
    simpa using h

/-- C17 at the definition list `p0`, `p1` (enabled) and `p2` (disabled), the launch
of `p0` failing: `p2` keeps its entry from the synchronisation, and `p1` gets the
entry of a start of `p1` alone. -/
theorem C17_startAll_witness :
    (bulkWorld.config.map (fun pc => pc.id)).Nodup ∧
    enabledIds bulkWorld.config = ["p0"] ++ "p1" :: [] ∧
    (bulkOutcomes 0).ok = false ∧
    startAll bulkOutcomes bulkWorld =
      runOps [Op.startProcess (bulkOutcomes 0) "p0", Op.startProcess (bulkOutcomes 1) "p1"]
        (syncConfig bulkWorld) ∧
    mapFind (startAll bulkOutcomes bulkWorld).m_procs "p2" =
      mapFind (syncConfig bulkWorld).m_procs "p2" ∧
    (∃ evs, (startAll bulkOutcomes bulkWorld).posted = bulkWorld.posted ++ evs ∧
      ∀ e ∈ evs, e.id ≠ "p2") ∧
    mapFind (startAll bulkOutcomes bulkWorld).m_procs "p1" =
      mapFind (startProcess (bulkOutcomes 1) "p1" (syncConfig bulkWorld)).2.m_procs "p1" :=
  have h := C17_startAll bulkOutcomes bulkWorld (by decide)
  have h2 := h.2.1 { sampleConfig with id := "p2", enabled := false } (by decide) rfl
  ⟨by decide, by decide, by decide, h.1, h2.1, h2.2, h.2.2 ["p0"] [] "p1" (by decide)⟩

/-! ## C18: `stopAll` -/

/-- C18: after `stopAll`, every entry of the runtime table, whatever the definition
list says about its id, is the entry it was with `guardStopped` set and the job
handle empty, and with status `Stopped` when it held no live process handle (an
entry with a live process handle keeps its status until the exit is handled). -/
theorem C18_stopAll_stops_every_entry (w : World) (id : String) (mp : ManagedProcess)
    (hmp : mapFind w.m_procs id = some mp) :
    mapFind (stopAll w).m_procs id = some (stoppedEntry mp) ∧
    (stoppedEntry mp).guardStopped = true ∧
    (stoppedEntry mp).hJob = HANDLE.nullptr ∧
    (¬ mp.live → (stoppedEntry mp).status = ProcStatus.Stopped) ∧
    (mp.live → (stoppedEntry mp).status = mp.status) := by
  have hmem : id ∈ mapKeys w.m_procs := by
    rw [mem_mapKeys_iff, hmp]
    rfl
  refine ⟨?_, rfl, rfl, ?_, ?_⟩
  · unfold stopAll
    rw [stopFold_entry (mapKeys w.m_procs) w id mp hmp]
    simp [hmem]
  · intro h
    simp [stoppedEntry, h]
  · intro h
    simp [stoppedEntry, h]

/-- C18 at a table with a running `p1` and an orphaned `Failed` entry `old` that has
no definition: after `stopAll` both have the flag set and no job handle, `old` is
`Stopped` and `p1`, whose process handle is live, is still `Running`. -/
theorem C18_stopAll_stops_every_entry_witness :
    findConfig orphanWorld.config "old" = none ∧
    mapFind orphanWorld.m_procs "old" = some { status := ProcStatus.Failed } ∧
    mapFind orphanWorld.m_procs "p1" = some runningEntry ∧
    mapFind (stopAll orphanWorld).m_procs "old" =
      some (stoppedEntry { status := ProcStatus.Failed }) ∧
    stoppedEntry { status := ProcStatus.Failed } =
      { guardStopped := true, status := ProcStatus.Stopped } ∧
    mapFind (stopAll orphanWorld).m_procs "p1" = some (stoppedEntry runningEntry) ∧
    stoppedEntry runningEntry =
      { runningEntry with guardStopped := true, hJob := HANDLE.nullptr } :=
  have h1 := C18_stopAll_stops_every_entry orphanWorld "old" { status := ProcStatus.Failed }
    (by decide)
  have h2 := C18_stopAll_stops_every_entry orphanWorld "p1" runningEntry (by decide)
  ⟨by decide, by decide, by decide, h1.1, by decide, h2.1, by decide⟩

/-! ## C19: entries are never removed -/

/-- C19: an id that has a runtime entry keeps one through every step of the
supervisor (`setMainWindow`, an edit of the definition list, `syncConfig`,
`startProcess`, `stopProcess`, `startAll`, `stopAll`, `onProcessExited`, the wake-up
of a start-delay, guard-delay or child-PID thread, the passing of time), through
`launchNow`, through the thread bodies and `refreshChildPid` run directly, through
the deletion of a definition by `handleDeleteProcess` (of this or of another id),
and hence through every sequence of steps. -/
theorem C19_entries_never_removed (k : String) (w : World)
    (hk : k ∈ mapKeys w.m_procs) :
    (∀ op : Op, k ∈ mapKeys (op.run w).m_procs) ∧
    (∀ (o : LaunchOutcome) (id : String), k ∈ mapKeys (launchNow o id w).2.m_procs) ∧
    (∀ (o : LaunchOutcome) (id : String), k ∈ mapKeys (startDelayBody o id w).m_procs) ∧
    (∀ (o : LaunchOutcome) (id : String), k ∈ mapKeys (guardDelayBody o id w).m_procs) ∧
    (∀ (snaps : List (Option (List PROCESSENTRY32W))) (id : String) (cmdPid : Nat),
      k ∈ mapKeys (refreshChildPid snaps id cmdPid w).m_procs) ∧
    (∀ id : String, k ∈ mapKeys (handleDeleteProcess id w).m_procs) ∧
    (∀ ops : List Op, k ∈ mapKeys (runOps ops w).m_procs) := by
  rw [mem_mapKeys_iff] at hk
  refine ⟨?_, ?_, ?_, ?_, ?_, ?_, ?_⟩
  · intro op
    rw [mem_mapKeys_iff]
    exact run_keeps_key op k w hk
  · intro o id
    rw [mem_mapKeys_iff]
    exact launchNow_keeps o id k w hk
  · intro o id
    rw [mem_mapKeys_iff]
    exact startDelayBody_keeps o id k w hk
  · intro o id
    rw [mem_mapKeys_iff]
    exact guardDelayBody_keeps o id k w hk
  · intro snaps id cmdPid
    rw [mem_mapKeys_iff]
    exact refreshChildPid_keeps snaps id k cmdPid w hk
  · intro id
    rw [mem_mapKeys_iff]
    unfold handleDeleteProcess
    split
    · exact hk
    · exact stopProcess_keeps id k w hk
  · intro ops
    rw [mem_mapKeys_iff]
    exact runOps_keeps_key ops k w hk

/-- C19 at `p1` while it runs: its definition is deleted, and after further steps
`p1` still has its entry. -/
theorem C19_entries_never_removed_witness :
    "p1" ∈ mapKeys runningWorld.m_procs ∧
    (handleDeleteProcess "p1" runningWorld).config = [] ∧
    "p1" ∈ mapKeys (handleDeleteProcess "p1" runningWorld).m_procs ∧
    "p1" ∈ mapKeys (runOps [Op.setConfig [], Op.onProcessExited "p1" 101 0, Op.syncConfig,
      Op.stopAll] runningWorld).m_procs :=
  have h := C19_entries_never_removed "p1" runningWorld (by decide)
  ⟨by decide, by decide, h.2.2.2.2.2.1 "p1",
    h.2.2.2.2.2.2 [Op.setConfig [], Op.onProcessExited "p1" 101 0, Op.syncConfig,
      Op.stopAll]⟩

/-! ## C20: the child-PID update -/

/-- C20 as stated fails: `p1` runs with pid 101 and the probe finds the child 200,
but no main window is set; the pid of the entry is updated and no status message is
posted. -/
theorem C20_counterexample :
    probeChild 101 5 sampleSnaps = 200 ∧
    mapFind windowlessRunning.m_procs "p1" = some runningEntry ∧
    runningEntry.pid = 101 ∧
    mapFind (refreshChildPid sampleSnaps "p1" 101 windowlessRunning).m_procs "p1" =
      some { runningEntry with pid := 200 } ∧
    (refreshChildPid sampleSnaps "p1" 101 windowlessRunning).posted =
      windowlessRunning.posted := by
  decide

/-- C20, amended: `refreshChildPid` changes the world only when the probe found a
child (a non-zero process id, which is then the id of a direct child of `cmdPid` in
one of the first five snapshots, not an auxiliary process), `id` has an entry and the
pid of that entry still equals `cmdPid`. In that case only the pid field of that
entry changes, to the pid of the child, every other entry and the rest of the world
stay as they were, and one status message for `id` (carrying `Running`) is posted
when a main window is set, none when no main window is set. In every other case (no
child found, `id` absent, pid different) the world is unchanged and nothing is
posted. -/
theorem C20_refreshChildPid_frame (snaps : List (Option (List PROCESSENTRY32W)))
    (id : String) (cmdPid : Nat) (w : World) :
    (∀ mp : ManagedProcess, probeChild cmdPid 5 snaps ≠ 0 →
      mapFind w.m_procs id = some mp → mp.pid = cmdPid →
      refreshChildPid snaps id cmdPid w =
        notifyStatus id ProcStatus.Running
          { w with
            m_procs := mapSet w.m_procs id { mp with pid := probeChild cmdPid 5 snaps } } ∧
      mapFind (refreshChildPid snaps id cmdPid w).m_procs id =
        some { mp with pid := probeChild cmdPid 5 snaps } ∧
      (∀ k : String, k ≠ id →
        mapFind (refreshChildPid snaps id cmdPid w).m_procs k = mapFind w.m_procs k) ∧
      (w.m_hwnd ≠ 0 → (refreshChildPid snaps id cmdPid w).posted =
        w.posted ++ [{ id := id, status := ProcStatus.Running }]) ∧
      (w.m_hwnd = 0 → (refreshChildPid snaps id cmdPid w).posted = w.posted) ∧
      (refreshChildPid snaps id cmdPid w).threads = w.threads ∧
      (refreshChildPid snaps id cmdPid w).os = w.os ∧
      (refreshChildPid snaps id cmdPid w).config = w.config ∧
      ∃ (i : Nat) (snap : List PROCESSENTRY32W), i < 5 ∧ snaps[i]? = some (some snap) ∧
        ∃ pe ∈ snap, pe.th32ProcessID = probeChild cmdPid 5 snaps ∧
          pe.th32ParentProcessID = cmdPid ∧ pe.th32ProcessID ≠ cmdPid ∧
          pe.szExeFile ≠ "conhost.exe" ∧ pe.szExeFile ≠ "WerFault.exe") ∧
    ((probeChild cmdPid 5 snaps = 0 ∨ mapFind w.m_procs id = none ∨
        ∃ mp, mapFind w.m_procs id = some mp ∧ mp.pid ≠ cmdPid) →
      refreshChildPid snaps id cmdPid w = w) := by
  refine ⟨?_, ?_⟩
  · intro mp hc hmp hpid
    have heq : refreshChildPid snaps id cmdPid w =
        notifyStatus id ProcStatus.Running
          { w with
            m_procs := mapSet w.m_procs id
              { mp with pid := probeChild cmdPid 5 snaps } } := by
      simp [refreshChildPid, hc, hmp, hpid]
    rw [heq]
    refine ⟨rfl, ?_, ?_, ?_, ?_, ?_, ?_, ?_, ?_⟩
    · simp [mapFind_mapSet_self]
    · intro k hk
      simp [mapFind_mapSet_ne _ _ _ _ (Ne.symm hk)]
    · intro hw
      simp [notifyStatus, hw]
    · intro hw
      simp [notifyStatus, hw]
    · simp
    · simp
    · simp
    · obtain ⟨i, snap, hi, hs, hsc⟩ := probeChild_found cmdPid 5 snaps hc
      obtain ⟨pe, hm, h1, h2, h3, h4, h5⟩ := scanSnapshot_found cmdPid _ snap hsc
      exact ⟨i, snap, hi, hs, pe, hm, h1, h2, by rw [h1]; exact h3, h4, h5⟩
  · intro h
    rcases h with h | h | ⟨mp, h, hp⟩
    · simp [refreshChildPid, h]
    · simp [refreshChildPid, h]
    · simp [refreshChildPid, h, hp]

/-- C20 amended, at `p1` running with pid 101 in a world with a main window: the
probe finds the child 200; and at a probe that finds nothing. -/
theorem C20_refreshChildPid_frame_witness :
    probeChild 101 5 sampleSnaps ≠ 0 ∧
    mapFind runningWorld.m_procs "p1" = some runningEntry ∧ runningEntry.pid = 101 ∧
    runningWorld.m_hwnd ≠ 0 ∧
    mapFind (refreshChildPid sampleSnaps "p1" 101 runningWorld).m_procs "p1" =
      some { runningEntry with pid := probeChild 101 5 sampleSnaps } ∧
    (refreshChildPid sampleSnaps "p1" 101 runningWorld).posted =
      runningWorld.posted ++ [{ id := "p1", status := ProcStatus.Running }] ∧
    probeChild 101 5 [] = 0 ∧
    refreshChildPid [] "p1" 101 runningWorld = runningWorld :=
  have h := (C20_refreshChildPid_frame sampleSnaps "p1" 101 runningWorld).1 runningEntry
    (by decide) (by decide) (by decide)
  have h2 := (C20_refreshChildPid_frame [] "p1" 101 runningWorld).2 (Or.inl (by decide))
  ⟨by decide, by decide, by decide, by decide, h.2.1, h.2.2.2.1 (by decide), by decide, h2⟩

/-! ## C21: a successful launch -/

/-- C21 as stated fails: `p1` is defined and process creation succeeds, but no main
window is set; `launchNow` returns `true`, stores the new handles with status
`Running`, and posts no status message. -/
theorem C21_counterexample :
    findConfig windowlessSynced.config "p1" = some sampleConfig ∧
    (sampleOutcome 1).ok = true ∧
    (launchNow (sampleOutcome 1) "p1" windowlessSynced).1 = true ∧
    statusOf (launchNow (sampleOutcome 1) "p1" windowlessSynced).2 "p1" =
      some ProcStatus.Running ∧
    (launchNow (sampleOutcome 1) "p1" windowlessSynced).2.posted = [] := by
  decide

/-- C21, amended: when `id` has a definition and process creation succeeds,
`launchNow` returns `true`. The Win32 calls it adds to the trace are those of the
launch followed by the release of everything the entry held before: the wait handle
is unregistered when it is not `nullptr`, the job handle is closed when it is not
`nullptr`, the process handle is closed when it is neither `INVALID_HANDLE_VALUE` nor
`nullptr`. The entry ends with status `Running`, the new process id, the new
process, job and wait handles, and `guardStopped = false`. One `Running` message for
`id` is posted when a main window is set, none when no main window is set. -/
theorem C21_launch_success (o : LaunchOutcome) (id : String) (w : World)
    (cfg : ProcessConfig) (hcfg : findConfig w.config id = some cfg)
    (hok : o.ok = true) :
    (launchNow o id w).1 = true ∧
    (launchNow o id w).2.os =
      w.os ++ launchCalls o cfg ++ cleanupCalls (mapIndex w.m_procs id).1 ∧
    (∀ mp, mapFind w.m_procs id = some mp →
      (mp.hWait ≠ HANDLE.nullptr →
        OsCall.UnregisterWaitEx mp.hWait ∈ cleanupCalls (mapIndex w.m_procs id).1) ∧
      (mp.hJob ≠ HANDLE.nullptr →
        OsCall.CloseHandle mp.hJob ∈ cleanupCalls (mapIndex w.m_procs id).1) ∧
      (mp.live →
        OsCall.CloseHandle mp.hProcess ∈ cleanupCalls (mapIndex w.m_procs id).1)) ∧
    mapFind (launchNow o id w).2.m_procs id =
      some { id := (mapIndex w.m_procs id).1.id, hProcess := o.hProcess,
             pid := o.dwProcessId, hWait := o.hWait, hJob := o.hJob,
             guardStopped := false, status := ProcStatus.Running } ∧
    getStatus id (launchNow o id w).2 = ProcStatus.Running ∧
    getPid id (launchNow o id w).2 = o.dwProcessId ∧
    (w.m_hwnd ≠ 0 → (launchNow o id w).2.posted =
      w.posted ++ [{ id := id, status := ProcStatus.Running }]) ∧
    (w.m_hwnd = 0 → (launchNow o id w).2.posted = w.posted) := by
  have hentry := launchNow_ok_entry o id w cfg hcfg hok
  refine ⟨?_, launchNow_ok_os o id w cfg hcfg hok, ?_, hentry, ?_, ?_, ?_, ?_⟩
  · rw [launchNow_ok o id w cfg hcfg hok]
  · intro mp hmp
    rw [mapIndex_of_some hmp]
    exact cleanupCalls_mem mp
  · simp [getStatus, hentry]
  · simp [getPid, hentry]
  · intro hw
    exact launchNow_ok_posted o id w cfg hcfg hok hw
  · intro hw
    rw [launchNow_ok o id w cfg hcfg hok]
    simp [notifyStatus, hw]

/-- C21 amended, at `p1` relaunched while its entry still holds the handles of the
previous process, with a main window: the three old handles are released after the
launch calls and one `Running` message is posted. -/
theorem C21_launch_success_witness :
    findConfig runningWorld.config "p1" = some sampleConfig ∧
    (sampleOutcome 2).ok = true ∧
    (launchNow (sampleOutcome 2) "p1" runningWorld).2.os =
      runningWorld.os ++ launchCalls (sampleOutcome 2) sampleConfig ++
        [OsCall.UnregisterWaitEx (HANDLE.h 13), OsCall.CloseHandle (HANDLE.h 12),
          OsCall.CloseHandle (HANDLE.h 10)] ∧
    getPid "p1" (launchNow (sampleOutcome 2) "p1" runningWorld).2 = 102 ∧
    (launchNow (sampleOutcome 2) "p1" runningWorld).2.posted =
      runningWorld.posted ++ [{ id := "p1", status := ProcStatus.Running }] :=
  have h := C21_launch_success (sampleOutcome 2) "p1" runningWorld sampleConfig
    (by decide) (by decide)
  ⟨by decide, by decide, h.2.1, h.2.2.2.2.2.1, h.2.2.2.2.2.2.1 (by decide)⟩

/-! ## C22: a stop during the start delay -/

/-- C23: when the definition list holds no definition of `id`, `startProcess(id)` and
`launchNow(id)` return `false` and leave the whole world as it was: nothing is posted,
no Win32 call is made, no thread is spawned, and the runtime table is the same table,
so that no entry is created for `id` and an entry that `id` already has is not
modified. -/
theorem C23_no_definition (o : LaunchOutcome) (id : String) (w : World)
    (hno : ∀ c ∈ w.config, c.id ≠ id) :
    startProcess o id w = (false, w) ∧
    launchNow o id w = (false, w) ∧
    (startProcess o id w).2.posted = w.posted ∧
    (launchNow o id w).2.posted = w.posted ∧
    launchCount (startProcess o id w).2.os = launchCount w.os ∧
    launchCount (launchNow o id w).2.os = launchCount w.os ∧
    mapFind (startProcess o id w).2.m_procs id = mapFind w.m_procs id ∧
    mapFind (launchNow o id w).2.m_procs id = mapFind w.m_procs id ∧
    mapKeys (startProcess o id w).2.m_procs = mapKeys w.m_procs ∧
    mapKeys (launchNow o id w).2.m_procs = mapKeys w.m_procs := by
  have hcfg : findConfig w.config id = none := by
    simp only [findConfig, List.find?_eq_none]
    intro c hc
    simpa using hno c hc
  have h1 : startProcess o id w = (false, w) := by
    simp [startProcess, hcfg]
  have h2 : launchNow o id w = (false, w) := launchNow_no_definition o id w hcfg
  refine ⟨h1, h2, ?_, ?_, ?_, ?_, ?_, ?_, ?_, ?_⟩ <;> simp [h1, h2]

/-- C23 at `orphanWorld`: the id `missing` has neither entry nor definition and gets
no entry; the id `old` has an orphaned `Failed` entry and no definition, and the entry
stays as it is. -/
theorem C23_no_definition_witness :
    (∀ c ∈ orphanWorld.config, c.id ≠ "missing") ∧
    startProcess (sampleOutcome 2) "missing" orphanWorld = (false, orphanWorld) ∧
    mapFind (launchNow (sampleOutcome 2) "missing" orphanWorld).2.m_procs "missing" = none ∧
    (∀ c ∈ orphanWorld.config, c.id ≠ "old") ∧
    launchNow (sampleOutcome 2) "old" orphanWorld = (false, orphanWorld) ∧
    mapFind (startProcess (sampleOutcome 2) "old" orphanWorld).2.m_procs "old" =
      some { status := ProcStatus.Failed } :=
  have h1 := C23_no_definition (sampleOutcome 2) "missing" orphanWorld (by decide)
  have h2 := C23_no_definition (sampleOutcome 2) "old" orphanWorld (by decide)
  ⟨by decide, h1.1, h1.2.2.2.2.2.2.2.1, by decide, h2.2.1, h2.2.2.2.2.2.2.1⟩

/-! ## C24: the command line and the working directory -/

/-- C24 as stated fails in two ways. The arguments consisting of a NUL followed by
`-v` are not empty, yet the command line is the quoted path alone, with neither the
space nor the arguments appended, because `launchNow` reads its strings through
`c_str()` up to the first NUL. And the path `/p1.exe` contains a separator; the text
before its last separator is empty and `launchNow` passes no working directory at
all, although that text is what the claim names as working directory. -/
theorem C24_counterexample :
    ("\x00-v" : String) ≠ "" ∧
    buildCmdLine { path := "C:/a.exe", type := "exe", args := "\x00-v" } = "\"C:/a.exe\"" ∧
    buildCmdLine { path := "C:/a.exe", type := "exe", args := "\x00-v" } ≠
      "\"C:/a.exe\"" ++ " " ++ "\x00-v" ∧
    ("/p1.exe" : String).toList = [] ++ Char.ofNat 47 :: ("p1.exe" : String).toList ∧
    isPathSep (Char.ofNat 47) ∧
    (∀ d ∈ ("p1.exe" : String).toList, ¬ isPathSep d) ∧
    workDirArg (buildWorkDir { path := "/p1.exe" }) = none ∧
    workDirArg (buildWorkDir { path := "/p1.exe" }) ≠ some (String.mk []) := by
  decide

/-- C24, amended. Let `P` and `A` be the path and the arguments of the definition,
each read up to its first NUL (`toWide`; a string without NUL is read whole). The
command line `launchNow` builds is `cmd.exe /c ""P""` when the type is `bat` and `"P"`
otherwise, followed by one space and `A` exactly when `A` is not empty. When `P`
contains a backslash or slash and the text of `P` before the last of them is not
empty, that text, the directory of the script or executable, is the working
directory passed to `CreateProcessW`; when `P` contains neither separator, no
working directory is passed. This command line and working directory are the
arguments of the first Win32 call `launchNow` makes. (Nothing is stated for a path
whose last separator is its first character.) -/
theorem C24_invocation (cfg : ProcessConfig) :
    buildCmdLine cfg =
      (if cfg.type = "bat" then "cmd.exe /c \"\"" ++ toWide cfg.path ++ "\"\""
        else "\"" ++ toWide cfg.path ++ "\"") ++
      (if toWide cfg.args = "" then "" else " " ++ toWide cfg.args) ∧
    (∀ s : String, (∀ c ∈ s.toList, c ≠ Char.ofNat 0) → toWide s = s) ∧
    (∀ (s : String) (pre post : List Char), s.toList = pre ++ Char.ofNat 0 :: post →
      (∀ c ∈ pre, c ≠ Char.ofNat 0) → toWide s = String.mk pre) ∧
    (∀ (pre post : List Char) (c : Char),
      (toWide cfg.path).toList = pre ++ c :: post → isPathSep c →
      (∀ d ∈ post, ¬ isPathSep d) → pre ≠ [] →
      buildWorkDir cfg = String.mk pre ∧
      workDirArg (buildWorkDir cfg) = some (String.mk pre)) ∧
    ((∀ d ∈ (toWide cfg.path).toList, ¬ isPathSep d) →
      workDirArg (buildWorkDir cfg) = none) ∧
    (∀ (o : LaunchOutcome) (id : String) (w : World),
      findConfig w.config id = some cfg →
      ∃ rest, (launchNow o id w).2.os =
        w.os ++ OsCall.CreateProcessW (buildCmdLine cfg) (workDirArg (buildWorkDir cfg))
          :: rest) := by
  refine ⟨buildCmdLine_eq cfg, toWide_of_no_nul, toWide_cut, ?_, ?_, ?_⟩
  · intro pre post c hp hc hpost hne
    have hw := buildWorkDir_split cfg pre post c hp hc hpost
    refine ⟨hw, ?_⟩
    rw [hw, workDirArg_mk, if_neg hne]
  · intro h
    rw [buildWorkDir_none cfg h]
    rfl
  · intro o id w hcfg
    exact launchNow_first_call o id w cfg hcfg

/-- C24 amended, at the script `C:/apps/run.bat` with arguments `-v 2`, and at the
executable of `p1` without arguments. -/
theorem C24_invocation_witness :
    (∀ c ∈ scriptConfig.path.toList, c ≠ Char.ofNat 0) ∧
    (toWide scriptConfig.path).toList =
      ("C:/apps" : String).toList ++ Char.ofNat 47 :: ("run.bat" : String).toList ∧
    isPathSep (Char.ofNat 47) ∧
    (∀ d ∈ ("run.bat" : String).toList, ¬ isPathSep d) ∧
    ("C:/apps" : String).toList ≠ [] ∧
    buildCmdLine scriptConfig = "cmd.exe /c \"\"C:/apps/run.bat\"\" -v 2" ∧
    workDirArg (buildWorkDir scriptConfig) = some "C:/apps" ∧
    buildCmdLine sampleConfig = "\"C:/apps/p1.exe\"" ∧
    (∀ d ∈ (toWide "run.bat").toList, ¬ isPathSep d) ∧
    workDirArg (buildWorkDir { path := "run.bat" }) = none ∧
    findConfig freshWorld.config "p1" = some sampleConfig ∧
    (∃ rest, (launchNow (sampleOutcome 1) "p1" freshWorld).2.os =
      freshWorld.os ++ OsCall.CreateProcessW (buildCmdLine sampleConfig)
        (workDirArg (buildWorkDir sampleConfig)) :: rest) :=
  have h := C24_invocation scriptConfig
  have h2 := C24_invocation { path := "run.bat" }
  have h3 := C24_invocation sampleConfig
  ⟨by decide, by decide, by decide, by decide, by decide, by decide,
    (h.2.2.2.1 ("C:/apps" : String).toList ("run.bat" : String).toList (Char.ofNat 47)
      (by decide) (by decide) (by decide) (by decide)).2,
    by decide, by decide, h2.2.2.2.2.1 (by decide), by decide,
    h3.2.2.2.2.2 (sampleOutcome 1) "p1" freshWorld (by decide)⟩

/-! ## C25: the type derived from a path -/

/-- C25: `typeFromPath` returns `bat` exactly when the path contains a `.` and the
bytes after its last `.` equal `bat` or `cmd` compared case-insensitively; in every
other case, in particular when the path contains no `.`, it returns `exe`; the result
is always one of the two. -/
theorem C25_typeFromPath (path : List Nat) :
    (ConfigService.typeFromPath path = ascii "bat" ↔
      ∃ pre ext, path = pre ++ 46 :: ext ∧ 46 ∉ ext ∧
        (equalsIgnoringCase ext (ascii "bat") ∨ equalsIgnoringCase ext (ascii "cmd"))) ∧
    (ConfigService.typeFromPath path ≠ ascii "bat" →
      ConfigService.typeFromPath path = ascii "exe") ∧
    (46 ∉ path → ConfigService.typeFromPath path = ascii "exe") ∧
    (ConfigService.typeFromPath path = ascii "bat" ∨
      ConfigService.typeFromPath path = ascii "exe") := by
  have hcases : ConfigService.typeFromPath path = ascii "bat" ∨
      ConfigService.typeFromPath path = ascii "exe" := by
    by_cases hdot : 46 ∈ path
    · obtain ⟨pre, ext, hp, hn⟩ := split_at_last path 46 hdot
      rw [hp, typeFromPath_split pre ext hn]
      split
      · exact Or.inl rfl
      · exact Or.inr rfl
    · exact Or.inr (typeFromPath_no_dot path hdot)
  refine ⟨?_, ?_, typeFromPath_no_dot path, hcases⟩
  · constructor
    · intro hbat
      by_cases hdot : 46 ∈ path
      · obtain ⟨pre, ext, hp, hn⟩ := split_at_last path 46 hdot
        refine ⟨pre, ext, hp, hn, ?_⟩
        rw [hp, typeFromPath_split pre ext hn] at hbat
        rw [lower_eq_of_equalsIgnoringCase ext _ ascii_bat_lower,
          lower_eq_of_equalsIgnoringCase ext _ ascii_cmd_lower]
        by_contra hne
        rw [if_neg hne] at hbat
        exact absurd hbat (by decide)
      · rw [typeFromPath_no_dot path hdot] at hbat
        exact absurd hbat (by decide)
    · rintro ⟨pre, ext, hp, hn, hcase⟩
      rw [lower_eq_of_equalsIgnoringCase ext _ ascii_bat_lower,
        lower_eq_of_equalsIgnoringCase ext _ ascii_cmd_lower] at hcase
      rw [hp, typeFromPath_split pre ext hn, if_pos hcase]
  · intro hne
    rcases hcases with h | h
    · exact absurd h hne
    · exact h

/-- C25 at paths with the extensions `BaT` and `cmd`, at a path whose last `.` lies in
a directory name, and at a path without `.`. -/
theorem C25_typeFromPath_witness :
    ConfigService.typeFromPath (ascii "C:/a.b/run.BaT") = ascii "bat" ∧
    equalsIgnoringCase (ascii "BaT") (ascii "bat") ∧
    ConfigService.typeFromPath (ascii "run.cmd") = ascii "bat" ∧
    ConfigService.typeFromPath (ascii "C:/a.bat/run") = ascii "exe" ∧
    ConfigService.typeFromPath (ascii "C:/apps/run") = ascii "exe" :=
  have h := C25_typeFromPath (ascii "C:/a.b/run.BaT")
  have hic : equalsIgnoringCase (ascii "BaT") (ascii "bat") :=
    (lower_eq_of_equalsIgnoringCase _ _ ascii_bat_lower).mpr (by decide)
  ⟨h.1.mpr ⟨ascii "C:/a.b/run", ascii "BaT", by decide, by decide, Or.inl hic⟩, hic,
    by decide,
    (C25_typeFromPath (ascii "C:/a.bat/run")).2.1 (by decide),
    (C25_typeFromPath (ascii "C:/apps/run")).2.2.1 (by decide)⟩

/-! ## C26: a start right after the stop of a running process -/

/-- C26: when the entry of `id` is `Running` and holds a live process handle,
`stopProcess(id)` returns `true` and changes, of the entry, only the flag
`guardStopped` (set) and the job handle (taken out): the status stays `Running`. It
posts nothing and spawns no thread. A `startProcess(id)` issued next, before the exit
notification is handled, returns `false` and leaves the whole world as the stop left
it: no process is created and nothing is posted. -/
theorem C26_start_after_stop_rejected (o : LaunchOutcome) (id : String) (w : World)
    (mp : ManagedProcess) (hmp : mapFind w.m_procs id = some mp)
    (hrun : mp.status = ProcStatus.Running) (hlive : mp.live) :
    (stopProcess id w).1 = true ∧
    mapFind (stopProcess id w).2.m_procs id =
      some { mp with guardStopped := true, hJob := HANDLE.nullptr } ∧
    statusOf (stopProcess id w).2 id = some ProcStatus.Running ∧
    (stopProcess id w).2.posted = w.posted ∧
    (stopProcess id w).2.threads = w.threads ∧
    (stopProcess id w).2.os =
      w.os ++ closeJob mp.hJob ++ [OsCall.TerminateProcess mp.hProcess] ∧
    startProcess o id (stopProcess id w).2 = (false, (stopProcess id w).2) ∧
    launchCount (startProcess o id (stopProcess id w).2).2.os =
      launchCount (stopProcess id w).2.os ∧
    (startProcess o id (stopProcess id w).2).2.posted = w.posted := by
  have hstop := stopProcess_live id w mp hmp hlive.1 hlive.2
  have hentry : mapFind (stopProcess id w).2.m_procs id =
      some { mp with guardStopped := true, hJob := HANDLE.nullptr } := by
    rw [hstop]
    simp [mapFind_mapSet_self]
  have hstart : startProcess o id (stopProcess id w).2 = (false, (stopProcess id w).2) := by
    unfold startProcess
    cases hc : findConfig (stopProcess id w).2.config id with
    | none => rfl
    | some cfg =>
      simp only []
      rw [mapIndex_of_some hentry]
      simp [hrun]
  refine ⟨?_, hentry, ?_, ?_, ?_, ?_, hstart, ?_, ?_⟩
  · rw [hstop]
  · simp [statusOf, hentry, hrun]
  · rw [hstop]
  · rw [hstop]
  · rw [hstop]
  · rw [hstart]
  · rw [hstart, hstop]

/-- C26 at the running `p1`: the stop leaves `Running`, and the start that follows is
rejected although `p1` has a definition. -/
theorem C26_start_after_stop_rejected_witness :
    mapFind runningWorld.m_procs "p1" = some runningEntry ∧
    runningEntry.status = ProcStatus.Running ∧ runningEntry.live ∧
    findConfig (stopProcess "p1" runningWorld).2.config "p1" = some sampleConfig ∧
    statusOf (stopProcess "p1" runningWorld).2 "p1" = some ProcStatus.Running ∧
    startProcess (sampleOutcome 2) "p1" (stopProcess "p1" runningWorld).2 =
      (false, (stopProcess "p1" runningWorld).2) ∧
    (startProcess (sampleOutcome 2) "p1" (stopProcess "p1" runningWorld).2).2.posted =
      runningWorld.posted :=
  have h := C26_start_after_stop_rejected (sampleOutcome 2) "p1" runningWorld runningEntry
    (by decide) (by decide) (by decide)
  ⟨by decide, by decide, by decide, by decide, h.2.2.1, h.2.2.2.2.2.2.1, h.2.2.2.2.2.2.2.2⟩

/-! ## C27: the exit notification does not look at the reported pid -/

/-- C27: `onProcessExited` yields the same world (runtime table, posted messages,
sleeping threads and with them the restart decision, Win32 calls) for any two pairs
of reported pid and exit code. Whatever pid is reported, the handles that the entry
of `id` holds at that moment are released (`cleanupCalls` of the current entry), its
pid is reset to 0, and its status becomes `Stopped` or `Restarting`. -/
theorem C27_exit_ignores_pid (id : String) (pid1 exitCode1 pid2 exitCode2 : Nat)
    (w : World) :
    onProcessExited id pid1 exitCode1 w = onProcessExited id pid2 exitCode2 w ∧
    (∀ mp, mapFind w.m_procs id = some mp →
      (onProcessExited id pid1 exitCode1 w).os = w.os ++ cleanupCalls mp ∧
      (mp.hWait ≠ HANDLE.nullptr → OsCall.UnregisterWaitEx mp.hWait ∈ cleanupCalls mp) ∧
      (mp.hJob ≠ HANDLE.nullptr → OsCall.CloseHandle mp.hJob ∈ cleanupCalls mp) ∧
      (mp.live → OsCall.CloseHandle mp.hProcess ∈ cleanupCalls mp) ∧
      ∃ mp2, mapFind (onProcessExited id pid1 exitCode1 w).m_procs id = some mp2 ∧
        mp2.pid = 0 ∧ mp2.hWait = HANDLE.nullptr ∧ mp2.hJob = HANDLE.nullptr ∧
        ¬ mp2.live ∧
        (mp2.status = ProcStatus.Stopped ∨ mp2.status = ProcStatus.Restarting)) := by
  refine ⟨rfl, ?_⟩
  intro mp hmp
  obtain ⟨hos, s, hs, hentry⟩ := onProcessExited_entry id pid1 exitCode1 w mp hmp
  have hc := cleanupCalls_mem mp
  refine ⟨hos, hc.1, hc.2.1, hc.2.2, _, hentry, ?_, ?_, ?_, ?_, ?_⟩
  · simp
  · simp
  · simp
  · intro hl
    have h := cleanupProcess_hProcess mp w.os
    rcases h with h | h
    · exact hl.1 h
    · exact hl.2 h
  · rcases hs with hs | hs
    · exact Or.inl hs
    · exact Or.inr hs

/-- C27 after the steps `staleGuardOps`, where the entry of `p1` records the process
102: a notification that reports the earlier process 101 releases the handles of the
process 102 and sets the status to `Restarting`, exactly as a notification that
reports 102 does. -/
theorem C27_exit_ignores_pid_witness :
    mapFind (runOps staleGuardOps (initialWorld 1 [sampleConfig])).m_procs "p1" =
      some { hProcess := HANDLE.h 20, pid := 102, hWait := HANDLE.h 23,
             hJob := HANDLE.h 22, guardStopped := false,
             status := ProcStatus.Running } ∧
    onProcessExited "p1" 101 1 (runOps staleGuardOps (initialWorld 1 [sampleConfig])) =
      onProcessExited "p1" 102 0 (runOps staleGuardOps (initialWorld 1 [sampleConfig])) ∧
    (onProcessExited "p1" 101 1 (runOps staleGuardOps (initialWorld 1 [sampleConfig]))).os =
      (runOps staleGuardOps (initialWorld 1 [sampleConfig])).os ++
        [OsCall.UnregisterWaitEx (HANDLE.h 23), OsCall.CloseHandle (HANDLE.h 22),
          OsCall.CloseHandle (HANDLE.h 20)] ∧
    statusOf (onProcessExited "p1" 101 1
      (runOps staleGuardOps (initialWorld 1 [sampleConfig]))) "p1" =
      some ProcStatus.Restarting :=
  have h := C27_exit_ignores_pid "p1" 101 1 102 0
    (runOps staleGuardOps (initialWorld 1 [sampleConfig]))
  ⟨by decide, h.1,
    (h.2 { hProcess := HANDLE.h 20, pid := 102, hWait := HANDLE.h 23,
           hJob := HANDLE.h 22, guardStopped := false,
           status := ProcStatus.Running } (by decide)).1,
    by decide⟩

/-! ## C28: a start request during the guard delay -/

/-- C28: let the entry of `id` be `Restarting`, let a guard-delay thread of `id` be
asleep, let the definition of `id` have start delay 0 and let process creation
succeed. Then `startProcess(id)` returns `true`; it sets the status to `Starting` and
runs `launchNow`, after which the entry is `Running` with the pid and handles of the
first new process and the flag `guardStopped` cleared. The guard-delay thread is still
asleep at its position. When it wakes after its delay it finds the flag cleared and
launches again: two processes have been created for `id` since the request, the
second launch releases the handles of the first (after the second process is
created), and the entry ends `Running` with the pid and handles of the second
process. -/
theorem C28_start_during_guard_delay (o1 o2 : LaunchOutcome) (id : String) (w : World)
    (cfg : ProcessConfig) (mp : ManagedProcess) (i : Nat) (t : SleepingThread)
    (snaps : List (Option (List PROCESSENTRY32W)))
    (hcfg : findConfig w.config id = some cfg) (hdelay : cfg.delaySeconds = 0)
    (hmp : mapFind w.m_procs id = some mp) (hst : mp.status = ProcStatus.Restarting)
    (ht : w.threads[i]? = some t) (hbody : t.body = ThreadBody.guardDelay id)
    (hok1 : o1.ok = true) (hok2 : o2.ok = true) :
    (startProcess o1 id w).1 = true ∧
    (∃ wS, statusOf wS id = some ProcStatus.Starting ∧
      startProcess o1 id w = (true, (launchNow o1 id wS).2)) ∧
    mapFind (startProcess o1 id w).2.m_procs id =
      some { id := mp.id, hProcess := o1.hProcess, pid := o1.dwProcessId,
             hWait := o1.hWait, hJob := o1.hJob, guardStopped := false,
             status := ProcStatus.Running } ∧
    launchCount (startProcess o1 id w).2.os = launchCount w.os + 1 ∧
    (startProcess o1 id w).2.threads[i]? = some t ∧
    (∀ ms : Nat, t.due (w.now + ms) →
      ∃ w3, wake i o2 snaps (tick ms (startProcess o1 id w).2) = some w3 ∧
        launchCount w3.os = launchCount w.os + 2 ∧
        w3.os = (startProcess o1 id w).2.os ++ launchCalls o2 cfg ++
          cleanupCalls { id := mp.id, hProcess := o1.hProcess, pid := o1.dwProcessId,
                         hWait := o1.hWait, hJob := o1.hJob, guardStopped := false,
                         status := ProcStatus.Running } ∧
        (o1.hWait ≠ HANDLE.nullptr → OsCall.UnregisterWaitEx o1.hWait ∈ w3.os) ∧
        (o1.hJob ≠ HANDLE.nullptr → OsCall.CloseHandle o1.hJob ∈ w3.os) ∧
        (o1.hProcess ≠ HANDLE.INVALID_HANDLE_VALUE → o1.hProcess ≠ HANDLE.nullptr →
          OsCall.CloseHandle o1.hProcess ∈ w3.os) ∧
        mapFind w3.m_procs id =
          some { id := mp.id, hProcess := o2.hProcess, pid := o2.dwProcessId,
                 hWait := o2.hWait, hJob := o2.hJob, guardStopped := false,
                 status := ProcStatus.Running } ∧
        getStatus id w3 = ProcStatus.Running ∧ getPid id w3 = o2.dwProcessId) := by
  have hnot : ∀ x, mapFind w.m_procs id = some x →
      x.status ≠ ProcStatus.Running ∧ x.status ≠ ProcStatus.Starting := by
    intro x hx
    rw [hmp] at hx
    cases hx
    rw [hst]
    exact ⟨by decide, by decide⟩
  have hstart := startProcess_accepted_now o1 id w cfg hcfg (by omega) hnot
  rw [mapIndex_of_some hmp] at hstart
  have hS : ∃ wS : World, wS.config = w.config ∧ wS.now = w.now ∧
      wS.threads = w.threads ∧ wS.os = w.os ∧
      mapFind wS.m_procs id =
        some { mp with guardStopped := false, status := ProcStatus.Starting } ∧
      startProcess o1 id w = (true, (launchNow o1 id wS).2) :=
    ⟨_, by simp, by simp, by simp, by simp, by simp [mapFind_mapSet_self], hstart⟩
  obtain ⟨wS, hSc, hSn, hSt, hSo, hSfind, hrun⟩ := hS
  have hScfg : findConfig wS.config id = some cfg := by
    rw [hSc]
    exact hcfg
  have hentry1 : mapFind (startProcess o1 id w).2.m_procs id =
      some { id := mp.id, hProcess := o1.hProcess, pid := o1.dwProcessId,
             hWait := o1.hWait, hJob := o1.hJob, guardStopped := false,
             status := ProcStatus.Running } := by
    rw [hrun]
    simp only []
    rw [launchNow_ok_entry o1 id wS cfg hScfg hok1, mapIndex_of_some hSfind]
  have hcount1 : launchCount (startProcess o1 id w).2.os = launchCount w.os + 1 := by
    rw [hrun]
    simp only []
    rw [launchNow_ok_launchCount o1 id wS cfg hScfg hok1, hSo]
  have hthread1 : (startProcess o1 id w).2.threads[i]? = some t := by
    rw [hrun]
    simp only []
    exact launchNow_ok_thread_kept o1 id wS cfg hScfg hok1 i t (by rw [hSt]; exact ht)
  have hcfg1 : findConfig (startProcess o1 id w).2.config id = some cfg := by
    rw [startProcess_config]
    exact hcfg
  have hnow1 : (startProcess o1 id w).2.now = w.now := by
    rw [hrun]
    simp only []
    rw [launchNow_now, hSn]
  refine ⟨?_, ⟨wS, ?_, hrun⟩, hentry1, hcount1, hthread1, ?_⟩
  · rw [hrun]
  · simp [statusOf, hSfind]
  · intro ms hdue
    have hth : (tick ms (startProcess o1 id w).2).threads[i]? = some t := hthread1
    have hdue2 : t.due (tick ms (startProcess o1 id w).2).now := by
      simp only [tick, hnow1]
      exact hdue
    have hwake := wake_due i o2 snaps (tick ms (startProcess o1 id w).2) t hth hdue2
    rw [hbody] at hwake
    simp only [runBody] at hwake
    have hfind3 : mapFind ({ tick ms (startProcess o1 id w).2 with
        threads := (tick ms (startProcess o1 id w).2).threads.eraseIdx i } : World).m_procs id =
        some { id := mp.id, hProcess := o1.hProcess, pid := o1.dwProcessId,
               hWait := o1.hWait, hJob := o1.hJob, guardStopped := false,
               status := ProcStatus.Running } := hentry1
    have hcfg3 : findConfig ({ tick ms (startProcess o1 id w).2 with
        threads := (tick ms (startProcess o1 id w).2).threads.eraseIdx i } : World).config id =
        some cfg := hcfg1
    rw [guardDelayBody_launch o2 id
      { tick ms (startProcess o1 id w).2 with
        threads := (tick ms (startProcess o1 id w).2).threads.eraseIdx i } _ hfind3 rfl]
      at hwake
    have hos3 := launchNow_ok_os o2 id _ cfg hcfg3 hok2
    rw [mapIndex_of_some hfind3] at hos3
    have hentry3 := launchNow_ok_entry o2 id _ cfg hcfg3 hok2
    rw [mapIndex_of_some hfind3] at hentry3
    have hcount3 := launchNow_ok_launchCount o2 id _ cfg hcfg3 hok2
    have hc := cleanupCalls_mem
      { id := mp.id, hProcess := o1.hProcess, pid := o1.dwProcessId,
        hWait := o1.hWait, hJob := o1.hJob, guardStopped := false,
        status := ProcStatus.Running }
    refine ⟨_, hwake, ?_, hos3, ?_, ?_, ?_, hentry3, ?_, ?_⟩
    · rw [hcount3]
      show launchCount (startProcess o1 id w).2.os + 1 = launchCount w.os + 2
      rw [hcount1]
    · intro h
      rw [hos3]
      exact List.mem_append_right _ (hc.1 h)
    · intro h
      rw [hos3]
      exact List.mem_append_right _ (hc.2.1 h)
    · intro h1 h2
      rw [hos3]
      exact List.mem_append_right _ (hc.2.2 ⟨h1, h2⟩)
    · simp [getStatus, hentry3]
    · simp [getPid, hentry3]

/-- C28 at `p1` in `restartingWorld`: the start request launches the process 102,
three seconds later the guard-delay thread launches the process 103 and releases the
handles of the process 102; two processes were created since the request and the
entry ends `Running` with pid 103. -/
theorem C28_start_during_guard_delay_witness :
    findConfig restartingWorld.config "p1" = some sampleConfig ∧
    sampleConfig.delaySeconds = 0 ∧
    mapFind restartingWorld.m_procs "p1" = some restartingEntry ∧
    restartingEntry.status = ProcStatus.Restarting ∧
    restartingWorld.threads[0]? = some sampleGuardThread ∧
    (startProcess (sampleOutcome 2) "p1" restartingWorld).1 = true ∧
    getPid "p1" (startProcess (sampleOutcome 2) "p1" restartingWorld).2 = 102 ∧
    (∃ w3, wake 0 (sampleOutcome 3) []
        (tick 3000 (startProcess (sampleOutcome 2) "p1" restartingWorld).2) = some w3 ∧
      launchCount w3.os = launchCount restartingWorld.os + 2 ∧
      OsCall.CloseHandle (HANDLE.h 22) ∈ w3.os ∧
      OsCall.CloseHandle (HANDLE.h 20) ∈ w3.os ∧
      getStatus "p1" w3 = ProcStatus.Running ∧ getPid "p1" w3 = 103) :=
  have h := C28_start_during_guard_delay (sampleOutcome 2) (sampleOutcome 3) "p1"
    restartingWorld sampleConfig restartingEntry 0 sampleGuardThread []
    (by decide) (by decide) (by decide) (by decide) (by decide) rfl (by decide) (by decide)
  have h3 := h.2.2.2.2.2 3000 (by decide)
  ⟨by decide, by decide, by decide, by decide, by decide, h.1, by decide,
    h3.choose, h3.choose_spec.1, h3.choose_spec.2.1,
    h3.choose_spec.2.2.2.2.1 (by decide),
    h3.choose_spec.2.2.2.2.2.1 (by decide) (by decide),
    h3.choose_spec.2.2.2.2.2.2.2.1, h3.choose_spec.2.2.2.2.2.2.2.2⟩

/-! ## C29: string literals written by `escapeString` are read back -/

/-- C29: for every byte string `s`, whatever bytes it holds, `parseRawString` applied
to the literal `escapeString(s)` returns exactly `s` and has then consumed the whole
literal: nothing of the text is left, and when other text follows the literal, exactly
that text is left. (The statement holds for every list of numbers, bytes being the
numbers below 256.) -/
theorem C29_string_roundtrip (s : List Nat) :
    sj.parseRawString (sj.escapeString s) = some (s, []) ∧
    ∀ tail : List Nat, sj.parseRawString (sj.escapeString s ++ tail) = some (s, tail) := by
  have h : ∀ tail : List Nat,
      sj.parseRawString (sj.escapeString s ++ tail) = some (s, tail) := by
    intro tail
    have := sj.parseRawString_escapeString [] s tail (by intro b hb; cases hb)
    simpa using this
  refine ⟨?_, h⟩
  have := h []
  simpa using this

/-! ## C30: a configuration written by `appConfigToJson` is read back -/

/-- C30: for every configuration whose delays lie in the range of a 32-bit `int`
(any flag values, any byte strings, any number of processes), `sj::parse` reads the
text `appConfigToJson(cfg)` as the object it was written from, and `load`, given that
text, returns `true` and leaves a configuration equal to `cfg`: the same
`autoStartOnOpen` and the same processes in the same order. No id is generated,
whatever `newId` would return. -/
theorem C30_config_roundtrip (newId : Nat → List Nat) (cfg : ConfigService.AppConfig)
    (h : ∀ p ∈ cfg.processes,
      ConfigService.isInt32 p.delaySeconds ∧ ConfigService.isInt32 p.guardDelaySeconds) :
    sj.parse (ConfigService.appConfigToJson cfg) = some (ConfigService.rootObject cfg) ∧
    ConfigService.load newId (ConfigService.appConfigToJson cfg) = (true, cfg) ∧
    (ConfigService.load newId (ConfigService.appConfigToJson cfg)).2.autoStartOnOpen =
      cfg.autoStartOnOpen ∧
    (ConfigService.load newId (ConfigService.appConfigToJson cfg)).2.processes =
      cfg.processes := by
  have hl := ConfigService.load_appConfigToJson newId cfg h
  refine ⟨hl.1, hl.2, ?_, ?_⟩
  · rw [hl.2]
  · rw [hl.2]

/-- C30 at a configuration with two processes whose strings hold quotes, backslashes,
control bytes and bytes above 127 and whose delays are the extreme values of an
`int`, and at the empty configuration. -/
theorem C30_config_roundtrip_witness :
    (∀ p ∈ ConfigService.sampleAppConfig.processes,
      ConfigService.isInt32 p.delaySeconds ∧ ConfigService.isInt32 p.guardDelaySeconds) ∧
    ConfigService.load (fun _ => ascii "generated")
      (ConfigService.appConfigToJson ConfigService.sampleAppConfig) =
      (true, ConfigService.sampleAppConfig) ∧
    ConfigService.load (fun _ => ascii "generated") (ConfigService.appConfigToJson {}) =
      (true, {}) :=
  ⟨by decide,
    (C30_config_roundtrip (fun _ => ascii "generated") ConfigService.sampleAppConfig
      (by decide)).2.1,
    (C30_config_roundtrip (fun _ => ascii "generated") {}
      (by intro p hp; cases hp)).2.1⟩

end PM
